import Mathlib

/-!
# memdump: the scan loop of `dump_memory`

A shallow embedding of `dump_memory` (src/memdump.c, lines 220-324), in the
build without `USE_PREAD` (sequential `read` plus `lseek` past a hole).

* `unsigned long` / `size_t` values are natural numbers below `2 ^ w`; every
  addition and subtraction the C code performs on them is reduced `% 2 ^ w`.
* The operating system is a function from the iteration number to the values
  its system calls return in that iteration (`Syscalls`).
* The observable effects (bytes written to descriptor 1, lines printed to the
  map stream, lines printed through `remark`, the read requests issued) are
  fields of the state, each an append-only list.
-/

namespace Memdump

/-- What `read(fd, buffer, todo)` did: it stored `bytes` in the buffer and
returned their number, or returned 0, or returned -1. -/
inductive ReadOutcome where
  | Data (bytes : List Nat)
  | EndOfData
  | Unreadable
  deriving DecidableEq, Repr

/-- The `ssize_t` value returned by `read`. -/
def read_count : ReadOutcome → Int
  | .Data bytes => (bytes.length : Int)
  | .EndOfData => 0
  | .Unreadable => -1

/-- The bytes `read` left in the buffer. -/
def payload : ReadOutcome → List Nat
  | .Data bytes => bytes
  | .EndOfData => []
  | .Unreadable => []

/-- The values returned by the system calls of one loop iteration:
the `read`, the `write(1, buffer, read_count)` if it is reached, and the
`lseek(fd, where + page_size, SEEK_SET)` if it is reached. -/
structure Syscalls where
  outcome : ReadOutcome
  write_ret : Int
  lseek_ret : Int
  deriving DecidableEq, Repr

/-- The arguments of `dump_memory` that the loop depends on, and the global `verbose`.
`map` is true when the `FILE *map` argument is not null. -/
structure Config where
  buffer_size : Nat
  dump_size : Nat
  page_size : Nat
  map : Bool
  verbose : Int
  deriving DecidableEq, Repr

/-- The diagnostics of `dump_memory`, one constructor per call site. -/
inductive Remark where
  | stopped_on_eof (addr : Nat)
  | stopped_on_wraparound (addr : Nat)
  | stopped_on_lseek_error (addr : Nat)
  | stopped_on_pointer_wraparound (addr : Nat)
  | count_is (count : Nat)
  | where_is (addr : Nat)
  | found_only (count : Nat) (dump_size : Nat)
  | output_write_error
  deriving DecidableEq, Repr

/-- Why the scan loop was left: the loop condition became false (`budget`),
one of the `break` statements, or the fatal `error` call. -/
inductive Stop where
  | budget
  | eof
  | wraparound
  | lseek_error
  | pointer_wraparound
  | write_error
  deriving DecidableEq, Repr

/-- The local variables of `dump_memory` together with what it has written so far. -/
structure Scan where
  start : Nat
  where_ : Nat
  count : Nat
  in_region : Bool
  sink : List Nat
  map_out : List (Nat × Nat)
  log : List Remark
  requests : List (Nat × Nat)
  deriving DecidableEq, Repr

/-- The state at `for (where = 0, count = 0; ...)`. `start` is not initialised
by the C code; it is assigned by `ENTER_REGION` before `LEAVE_REGION` reads it. -/
def Scan.init : Scan :=
  { start := 0, where_ := 0, count := 0, in_region := false,
    sink := [], map_out := [], log := [], requests := [] }

/-- Subtraction of `unsigned long` values. -/
def usub (w a b : Nat) : Nat := (a + 2 ^ w - b % 2 ^ w) % 2 ^ w

/-- Addition of `unsigned long` values. -/
def uadd (w a b : Nat) : Nat := (a + b) % 2 ^ w

/-- Modelled from the spec: `remark` of error.c, which is not among the sources
(the diagnostics facility "provides leveled informational messages"): the call
`remark(...)` puts one more line on the diagnostic stream. -/
def remark (r : Remark) (s : Scan) : Scan :=
  { s with log := s.log ++ [r] }

/-- Modelled from the spec: `error` of error.c, which is not among the sources
("a fatal-error path that terminates the process after printing a formatted
message"): the message is printed and nothing after the call is executed, so the
loop is left, and `dump_memory` skips the statements after the loop. -/
def error (r : Remark) (s : Scan) : Scan × Option Stop :=
  (remark r s, some .write_error)

/-- The body of `ENTER_REGION(map, flags, start, where, in_region)`. -/
def ENTER_REGION (map : Bool) (s : Scan) : Scan :=
  { (if map then { s with start := s.where_ } else s) with in_region := true }

/-- The body of `LEAVE_REGION(map, flags, start, where, in_region)`: the `fprintf`
appends the pair `(start, where)` to the map stream. -/
def LEAVE_REGION (map : Bool) (s : Scan) : Scan :=
  { (if map then { s with map_out := s.map_out ++ [(s.start, s.where_)] } else s) with
    in_region := false }

/-- The loop condition `dump_size == 0 || count < dump_size`. -/
def loop_cond (cfg : Config) (s : Scan) : Bool :=
  cfg.dump_size == 0 || decide (s.count < cfg.dump_size)

/-- The value of `todo`:
`dump_size > 0 && dump_size - count < buffer_size ? dump_size - count : buffer_size`. -/
def todo (w : Nat) (cfg : Config) (s : Scan) : Nat :=
  if 0 < cfg.dump_size ∧ usub w cfg.dump_size s.count < cfg.buffer_size then
    usub w cfg.dump_size s.count
  else cfg.buffer_size

/-- The block `if (read_count > 0) { ... }` for a read that returned `bytes`.
The second component is the reason for leaving the loop, if the block leaves it. -/
def on_success (w : Nat) (cfg : Config) (env : Syscalls) (bytes : List Nat) (s : Scan) :
    Scan × Option Stop :=
  let s1 := if s.in_region = false then ENTER_REGION cfg.map s else s
  let s2 := { s1 with sink := s1.sink ++ bytes.take env.write_ret.toNat }
  if env.write_ret ≠ (bytes.length : Int) then
    error .output_write_error s2
  else
    let s3 := { s2 with count := uadd w s2.count bytes.length }
    if uadd w s3.where_ bytes.length < s3.where_ then
      (remark (.stopped_on_wraparound s3.where_) s3, some .wraparound)
    else
      let s4 := { s3 with where_ := uadd w s3.where_ bytes.length }
      ((if 1 < cfg.verbose then remark (.count_is s4.count) s4 else s4), none)

/-- The block `if (read_count < 0) { ... }`. -/
def on_failure (w : Nat) (cfg : Config) (env : Syscalls) (s : Scan) : Scan × Option Stop :=
  let s1 := if s.in_region then LEAVE_REGION cfg.map s else s
  if uadd w s1.where_ cfg.page_size < s1.where_ then
    (remark (.stopped_on_wraparound s1.where_) s1, some .wraparound)
  else if env.lseek_ret < 0 then
    ((if cfg.verbose ≠ 0 then remark (.stopped_on_lseek_error s1.where_) s1 else s1),
      some .lseek_error)
  else
    let s2 := { s1 with where_ := uadd w s1.where_ cfg.page_size }
    ((if 1 < cfg.verbose then remark (.where_is s2.where_) s2 else s2), none)

/-- The value of `(OFFT_TYPE) (unsigned long) (char *) (unsigned long) where`:
`OFFT_TYPE` is `unsigned long`, and a pointer has the width of `unsigned long`. -/
def pointer_round_trip (w x : Nat) : Nat := x % 2 ^ w

/-- The "kluge to prevent pointer wrap-around" at the end of the loop body. -/
def pointer_check (w : Nat) (cfg : Config) (s : Scan) : Scan × Option Stop :=
  if s.where_ ≠ pointer_round_trip w s.where_ then
    ((if cfg.verbose ≠ 0 then remark (.stopped_on_pointer_wraparound s.where_) s else s),
      some .pointer_wraparound)
  else (s, none)

/-- Sequencing of two pieces of the loop body: the second one runs unless the
first one left the loop with `break`. -/
def and_then (r : Scan × Option Stop) (f : Scan → Scan × Option Stop) : Scan × Option Stop :=
  match r with
  | (s, some c) => (s, some c)
  | (s, none) => f s

/-- The call `read(fd, buffer, todo)` at the head of the loop body: the request,
its size and the address it is made at, is recorded. -/
def issue_read (w : Nat) (cfg : Config) (s : Scan) : Scan :=
  { s with requests := s.requests ++ [(todo w cfg s, s.where_)] }

/-- One execution of the loop body (lines 245-312). -/
def loop_body (w : Nat) (cfg : Config) (env : Syscalls) (s : Scan) : Scan × Option Stop :=
  let s0 := issue_read w cfg s
  if read_count env.outcome = 0 then
    ((if cfg.verbose ≠ 0 then remark (.stopped_on_eof s0.where_) s0 else s0), some .eof)
  else
    and_then
      (if 0 < read_count env.outcome then on_success w cfg env (payload env.outcome) s0
       else (s0, none))
      (fun s1 =>
        and_then (if read_count env.outcome < 0 then on_failure w cfg env s1 else (s1, none))
          (pointer_check w cfg))

/-- The `for` loop, run for at most `fuel` iterations. The system calls of an
iteration are those of index `requests.length`, the number of reads issued before
it. The second component is `none` while the loop has not been left: the state
is then the one at the head of the next iteration. -/
def scan_loop (w : Nat) (cfg : Config) (dev : Nat → Syscalls) : Nat → Scan → Scan × Option Stop
  | 0, s => (s, none)
  | fuel + 1, s =>
    if loop_cond cfg s then
      match loop_body w cfg (dev s.requests.length) s with
      | (s1, some c) => (s1, some c)
      | (s1, none) => scan_loop w cfg dev fuel s1
    else (s, some .budget)

/-- The statements after the loop (lines 314-322): the last `LEAVE_REGION` and the
sanity check. -/
def after_loop (cfg : Config) (s : Scan) : Scan :=
  let s1 := if s.in_region then LEAVE_REGION cfg.map s else s
  if 0 < cfg.dump_size ∧ s1.where_ < cfg.dump_size then
    remark (.found_only s1.count cfg.dump_size) s1
  else s1

/-- The function `dump_memory`, its loop run for at most `fuel` iterations: the
loop, then the statements after it unless `error` ended the process inside the
loop. While the loop has not been left the result is the loop state. -/
def dump_memory (w : Nat) (cfg : Config) (dev : Nat → Syscalls) (fuel : Nat) :
    Scan × Option Stop :=
  match scan_loop w cfg dev fuel Scan.init with
  | (s, none) => (s, none)
  | (s, some .write_error) => (s, some .write_error)
  | (s, some c) => (after_loop cfg s, some c)

/-! ## The environment and the ranges of the C types -/

/-- A device given by the list of its first outcomes, with every `write` complete
and every `lseek` successful (a non-negative return value); after the list it
reports end of data. -/
def device_of (l : List ReadOutcome) (i : Nat) : Syscalls :=
  { outcome := l.getD i .EndOfData, write_ret := read_count (l.getD i .EndOfData), lseek_ret := 0 }

/-- The sizes passed to `dump_memory` are values of type `size_t`. -/
def Config.fits (w : Nat) (cfg : Config) : Prop :=
  cfg.buffer_size < 2 ^ w ∧ cfg.dump_size < 2 ^ w ∧ cfg.page_size < 2 ^ w

/-- The number of bytes a read returns is a value of type `ssize_t`. -/
def reads_fit (w : Nat) (dev : Nat → Syscalls) : Prop :=
  ∀ i, (payload (dev i).outcome).length < 2 ^ (w - 1)

/-- Every `write` that follows a successful read accepts all the bytes offered. -/
def writes_complete (dev : Nat → Syscalls) : Prop :=
  ∀ i, 0 < read_count (dev i).outcome → (dev i).write_ret = read_count (dev i).outcome

/-- Every read issued returned at most the number of bytes it asked for
(`read_count ≤ todo`). -/
def reads_within_request (dev : Nat → Syscalls) (reqs : List (Nat × Nat)) : Prop :=
  ∀ i, i < reqs.length → read_count (dev i).outcome ≤ ((reqs.getD i (0, 0)).1 : Int)

/-! ## Vocabulary of the properties -/

/-- The payloads of the `Data` outcomes (`read_count > 0`) among the first `k`
reads, concatenated in the order the reads were issued. -/
def consumed_payloads (dev : Nat → Syscalls) (k : Nat) : List Nat :=
  (List.range k).flatMap
    (fun i => if 0 < read_count (dev i).outcome then payload (dev i).outcome else [])

/-- Region `r1` lies before region `r2`: it ends no later than `r2` starts, and
it starts strictly earlier. -/
def region_before (r1 r2 : Nat × Nat) : Prop := r1.2 ≤ r2.1 ∧ r1.1 < r2.1

/-- Address `a` lies in one of the regions `[start, end)` of the map. -/
def in_regions (m : List (Nat × Nat)) (a : Nat) : Prop :=
  ∃ r ∈ m, r.1 ≤ a ∧ a < r.2

/-- Address `a` lies in `[a_i, a_i + n_i)` for one of the reads issued: the read
of index `i`, made at address `a_i`, was a `Data` outcome of `n_i` bytes. -/
def was_read (dev : Nat → Syscalls) (reqs : List (Nat × Nat)) (a : Nat) : Prop :=
  ∃ i, i < reqs.length ∧ 0 < read_count (dev i).outcome ∧
    (reqs.getD i (0, 0)).2 ≤ a ∧ a < (reqs.getD i (0, 0)).2 + (payload (dev i).outcome).length

/-- No successful read among those issued ends at or beyond `2 ^ w`. -/
def no_read_wraps (w : Nat) (dev : Nat → Syscalls) (reqs : List (Nat × Nat)) : Prop :=
  ∀ i, i < reqs.length → 0 < read_count (dev i).outcome →
    (reqs.getD i (0, 0)).2 + (payload (dev i).outcome).length < 2 ^ w

/-- The configuration `cfg` with the map stream present (`true`) or null (`false`). -/
def with_map (cfg : Config) (m : Bool) : Config := { cfg with map := m }

/-- The state without what only the map stream uses: `start` and the map lines. -/
def strip (s : Scan) : Scan := { s with start := 0, map_out := [] }

/-! ## Invariants of the loop -/

/-- The state in which the loop is left on `read_count == 0`. -/
def eof_state (w : Nat) (cfg : Config) (s : Scan) : Scan :=
  if cfg.verbose ≠ 0 then remark (.stopped_on_eof s.where_) (issue_read w cfg s)
  else issue_read w cfg s

/-- The regions found so far: those printed to the map, and the one that is open. -/
def regions_so_far (s : Scan) : List (Nat × Nat) :=
  s.map_out ++ (if s.in_region then [(s.start, s.where_)] else [])

/-- The facts about the region bookkeeping that hold at every point of a run
with a map stream. -/
structure RegionInv (w : Nat) (s : Scan) : Prop where
  where_lt : s.where_ < 2 ^ w
  sorted : s.map_out.Pairwise region_before
  closed : ∀ r ∈ s.map_out, r.1 < r.2 ∧ r.2 ≤ (if s.in_region then s.start else s.where_)
  open_le : s.in_region = true → s.start ≤ s.where_
  open_req : s.in_region = true → ∃ t, (t, s.start) ∈ s.requests
  req_le : ∀ q ∈ s.requests, q.2 ≤ s.where_

/-- The facts that hold in addition at the head of every iteration: an open
region is not empty, and the regions found so far cover exactly the addresses read. -/
structure HeadInv (w : Nat) (dev : Nat → Syscalls) (s : Scan) : Prop where
  base : RegionInv w s
  open_lt : s.in_region = true → s.start < s.where_
  covers : ∀ a, in_regions (regions_so_far s) a ↔ was_read dev s.requests a

/-- What one execution of the loop body establishes about the region
bookkeeping: the general facts, the head facts if the loop goes on, and the
coverage of the addresses read if the loop is left after a read that neither
failed to be written nor reached `2 ^ w`. -/
def StepOk (w : Nat) (dev : Nat → Syscalls) (r : Scan × Option Stop) : Prop :=
  RegionInv w r.1 ∧
  (r.2 = none → HeadInv w dev r.1) ∧
  (∀ c, r.2 = some c → c ≠ .write_error → no_read_wraps w dev r.1.requests →
    ∀ a, in_regions (regions_so_far r.1) a ↔ was_read dev r.1.requests a)

/-! ## Concrete configurations and devices -/

/-- The configuration of the scenarios: reads of 4096 bytes, pages of 4096 bytes,
quiet, with the given byte budget and with or without a map stream. -/
def page_config (dump_size : Nat) (map : Bool) : Config :=
  { buffer_size := 4096, dump_size := dump_size, page_size := 4096, map := map, verbose := 0 }

/-- A page of 4096 bytes, each of value `b`. -/
def page (b : Nat) : List Nat := List.replicate 4096 b

/-- Scenario A: a page of data at address 0, then end of data. -/
def scenario_a : List ReadOutcome := [.Data (page 7), .EndOfData]

/-- Scenario B: a page of data, a hole, a page of data, then end of data. -/
def scenario_b : List ReadOutcome := [.Data (page 7), .Unreadable, .Data (page 9), .EndOfData]

/-- Scenario C: a page of data, 904 bytes of data, and more data after that. -/
def scenario_c : List ReadOutcome :=
  [.Data (page 7), .Data (List.replicate 904 9), .Data (page 5)]

/-- A configuration with reads of 4 bytes and pages of 4 bytes. -/
def small_config (dump_size : Nat) (map : Bool) : Config :=
  { buffer_size := 4, dump_size := dump_size, page_size := 4, map := map, verbose := 0 }

/-- Four bytes of data, a hole, four bytes of data, then end of data. -/
def small_outcomes : List ReadOutcome :=
  [.Data [1, 2, 3, 4], .Unreadable, .Data [5, 6, 7, 8], .EndOfData]

/-- Four bytes of data, two bytes of data, then four bytes of data. -/
def budget_outcomes : List ReadOutcome :=
  [.Data [1, 2, 3, 4], .Data [5, 6], .Data [7, 8, 9, 10]]

/-- Four bytes of data, a hole, then end of data. -/
def hole_then_eof : List ReadOutcome :=
  [.Data [1, 2, 3, 4], .Unreadable, .EndOfData]

/-- A configuration in which one skip takes `where` to 16 bytes below `2 ^ 32`,
the top of the address space where `unsigned long` has 32 bits: reads of 16
bytes, a page size of `2 ^ 32 - 16`, no budget, a map stream. -/
def wrap_config : Config :=
  { buffer_size := 16, dump_size := 0, page_size := 2 ^ 32 - 16, map := true, verbose := 0 }

/-- A hole at address 0, then 16 bytes of data. -/
def wrap_outcomes : List ReadOutcome :=
  [.Unreadable, .Data [1, 2, 3, 4, 5, 6, 7, 8, 9, 10, 11, 12, 13, 14, 15, 16]]

/-- A loop state after one skip under `wrap_config`: `where` is 16 below `2 ^ 32`. -/
def near_top : Scan :=
  { start := 0, where_ := 2 ^ 32 - 16, count := 0, in_region := false,
    sink := [], map_out := [], log := [], requests := [(16, 0)] }

/-! ## `convert_size` (src/convert_size.c)

A C string is the list of its characters before the terminating NUL; a pointer
into it is the list of the characters from that position on. -/

/-- The C library's `isspace` in the C locale: space, `\t`, `\n`, `\v`, `\f`, `\r`. -/
def isspace (c : Char) : Bool :=
  c = ' ' || (9 ≤ c.toNat && c.toNat ≤ 13)

/-- The C library's `isdigit`. -/
def isdigit (c : Char) : Bool :=
  48 ≤ c.toNat && c.toNat ≤ 57

/-- The number a string of decimal digits denotes. -/
def digits_value (ds : List Char) : Nat :=
  ds.foldl (fun acc c => acc * 10 + (c.toNat - 48)) 0

/-- The C library's `strtoul(str, &last, 10)` for an `unsigned long` of `w`
bits, by its definition in ISO C: white space is skipped, then an optional sign,
then the longest run of decimal digits is converted. The result is the value
returned and the string at `last`. Without a digit nothing is converted: the
value is 0 and `last` is `str`. A value that does not fit gives `ULONG_MAX`;
after a minus sign the value is negated in the type `unsigned long`. -/
def strtoul (w : Nat) (str : List Char) : Nat × List Char :=
  let s1 := str.dropWhile isspace
  let s2 := if s1.head? = some '-' ∨ s1.head? = some '+' then s1.tail else s1
  let ds := s2.takeWhile isdigit
  if ds = [] then (0, str)
  else
    ((if 2 ^ w - 1 < digits_value ds then 2 ^ w - 1
      else if s1.head? = some '-' then (2 ^ w - digits_value ds) % 2 ^ w
      else digits_value ds),
     s2.dropWhile isdigit)

/-- The value `(size_t) -1` that `return (-1)` gives. -/
def size_error (w : Nat) : Nat := 2 ^ w - 1

/-- The function `convert_size` (src/convert_size.c, lines 40-59). The test
`last == str` compares positions in the same string, that is, lengths. -/
def convert_size (w : Nat) (str : List Char) : Nat :=
  let result := (strtoul w str).1
  let last := (strtoul w str).2
  if str = [] ∨ last.length = str.length then size_error w
  else if last = [] then result
  else if last.tail ≠ [] then size_error w
  else if last.head? = some 'k' ∨ last.head? = some 'K' then (result * 1024) % 2 ^ w
  else if last.head? = some 'm' ∨ last.head? = some 'M' then
    ((result * 1024) % 2 ^ w * 1024) % 2 ^ w
  else if last.head? = some 'g' ∨ last.head? = some 'G' then
    (((result * 1024) % 2 ^ w * 1024) % 2 ^ w * 1024) % 2 ^ w
  else size_error w

/-- The factor the manual gives for a suffix: 1024 for `k`, 1048576 for `m`,
1073741824 for `g`, in either case; 1 for no suffix. -/
def suffix_factor (s : List Char) : Option Nat :=
  if s = [] then some 1
  else if s = ['k'] ∨ s = ['K'] then some 1024
  else if s = ['m'] ∨ s = ['M'] then some (1024 * 1024)
  else if s = ['g'] ∨ s = ['G'] then some (1024 * 1024 * 1024)
  else none

/-! ## `main` (src/memdump.c, lines 328-444) -/

/-- The option string `"b:km:p:s:v"` passed to `getopt`: each option letter with
whether it takes an argument. -/
def optstring : List (Char × Bool) :=
  [('b', true), ('k', false), ('m', true), ('p', true), ('s', true), ('v', false)]

/-- The C library's `getopt` on the letters of one command-line word after its
`-`, by its definition in POSIX: the letters are options; a letter that takes an
argument takes the rest of the word, or else the next word `next`. The result is
the list of the values returned with their `optarg`, and whether the next word
was used up. A letter that is not in the option string, or an argument that is
missing, gives `?`. -/
def getopt_word (next : Option (List Char)) : List Char → List (Char × List Char) × Bool
  | [] => ([], false)
  | c :: cs =>
    match optstring.lookup c with
    | none => (('?', []) :: (getopt_word next cs).1, (getopt_word next cs).2)
    | some false => ((c, []) :: (getopt_word next cs).1, (getopt_word next cs).2)
    | some true =>
      if cs ≠ [] then ([(c, cs)], false)
      else
        match next with
        | some arg => ([(c, arg)], true)
        | none => ([('?', [])], false)

/-- The successive results of `getopt(argc, argv, "b:km:p:s:v")` on the words
after `argv[0]`, until it returns -1, and the words from `optind` on. Option
processing ends at the first word that does not begin with `-`, at the word
`-`, or after the word `--`. The words are taken in the order given, as POSIX
has it; the reordering of the words that GNU `getopt` does is not part of this. -/
def getopt_all : List (List Char) → List (Char × List Char) × List (List Char)
  | [] => ([], [])
  | [a] =>
    match a with
    | '-' :: c :: cs =>
      if c = '-' ∧ cs = [] then ([], [])
      else ((getopt_word none (c :: cs)).1, [])
    | _ => ([], [a])
  | a :: b :: rest =>
    match a with
    | '-' :: c :: cs =>
      if c = '-' ∧ cs = [] then ([], b :: rest)
      else if (getopt_word (some b) (c :: cs)).2 then
        ((getopt_word (some b) (c :: cs)).1 ++ (getopt_all rest).1, (getopt_all rest).2)
      else
        ((getopt_word (some b) (c :: cs)).1 ++ (getopt_all (b :: rest)).1,
          (getopt_all (b :: rest)).2)
    | _ => ([], a :: b :: rest)

/-- Where the map goes: the standard error stream (`-m -`) or a file. -/
inductive MapStream where
  | stderr
  | file (name : List Char)
  deriving DecidableEq, Repr

/-- The variables `main` sets from the command line. -/
structure Options where
  page_size : Nat
  dump_size : Nat
  buffer_size : Nat
  map : Option MapStream
  kmem : Bool
  verbose : Int
  deriving DecidableEq, Repr

/-- The initial values: `DEF_PAGE_SIZE`, `DEF_SCAN_SIZE`, `DEF_BUFF_SIZE` (all 0),
no map, `_PATH_MEM`, and `verbose` 0. -/
def Options.default : Options :=
  { page_size := 0, dump_size := 0, buffer_size := 0, map := none, kmem := false, verbose := 0 }

/-- The ways `main` ends the process before `dump_memory` is called: the calls of
`usage` with their message, and the calls of `error`. -/
inductive Exit where
  | usage_bad_read_buffer_size
  | usage_bad_memory_size
  | usage_bad_memory_dump_size
  | usage_no_message
  | usage_too_many_arguments
  | error_create_map_file
  | error_no_read_buffer
  | error_open
  deriving DecidableEq, Repr

/-- What `main` asks of the platform: the value of `GETPAGESIZE()`, the value of
`get_memory_size()`, and whether `fopen` of the map file, `mymalloc` of the
buffer and `open` of the device succeed. -/
structure Platform where
  pagesize : Nat
  memory_size : Nat
  fopen_ok : Bool
  malloc_ok : Bool
  open_ok : Bool
  deriving DecidableEq, Repr

/-- The `switch (ch)` of `main` for one result of `getopt`. -/
def apply_option (w : Nat) (plat : Platform) (o : Options) (ev : Char × List Char) :
    Except Exit Options :=
  if ev.1 = 'b' then
    if convert_size w ev.2 = size_error w then .error .usage_bad_read_buffer_size
    else .ok { o with buffer_size := convert_size w ev.2 }
  else if ev.1 = 'k' then .ok { o with kmem := true }
  else if ev.1 = 'm' then
    if ev.2 = ['-'] then .ok { o with map := some .stderr }
    else if plat.fopen_ok then .ok { o with map := some (.file ev.2) }
    else .error .error_create_map_file
  else if ev.1 = 'p' then
    if convert_size w ev.2 = size_error w then .error .usage_bad_memory_size
    else .ok { o with page_size := convert_size w ev.2 }
  else if ev.1 = 's' then
    if convert_size w ev.2 = size_error w then .error .usage_bad_memory_dump_size
    else .ok { o with dump_size := convert_size w ev.2 }
  else if ev.1 = 'v' then .ok { o with verbose := o.verbose + 1 }
  else .error .usage_no_message

/-- The loop `while ((ch = getopt(...)) > 0) switch (ch) ...`. -/
def parse_options (w : Nat) (plat : Platform) :
    List (Char × List Char) → Options → Except Exit Options
  | [], o => .ok o
  | ev :: evs, o =>
    match apply_option w plat o ev with
    | .ok o1 => parse_options w plat evs o1
    | .error e => .error e

/-- The "sanity checks" of `main` (lines 410-415): the defaults for the sizes
that are 0. -/
def sanity_checks (plat : Platform) (o : Options) : Options :=
  let o1 := if o.page_size = 0 then { o with page_size := plat.pagesize } else o
  let o2 := if o1.buffer_size = 0 then { o1 with buffer_size := o1.page_size } else o1
  if o2.dump_size = 0 ∧ o2.kmem = false then { o2 with dump_size := plat.memory_size } else o2

/-- The function `main` up to the call of `dump_memory`: the values it passes
for `buffer_size`, `dump_size`, `page_size` and `map`, with the value of
`verbose`, or the way it ends the process before. -/
def main (w : Nat) (plat : Platform) (argv : List (List Char)) : Except Exit Config :=
  match parse_options w plat (getopt_all argv.tail).1 Options.default with
  | .error e => .error e
  | .ok o =>
    if plat.malloc_ok = false then .error .error_no_read_buffer
    else if (getopt_all argv.tail).2 ≠ [] then .error .usage_too_many_arguments
    else if plat.open_ok = false then .error .error_open
    else .ok
      { buffer_size := (sanity_checks plat o).buffer_size,
        dump_size := (sanity_checks plat o).dump_size,
        page_size := (sanity_checks plat o).page_size,
        map := (sanity_checks plat o).map.isSome,
        verbose := (sanity_checks plat o).verbose }

/-- A platform with pages of 4096 bytes, no memory size to report (as on Linux),
and on which every call succeeds. -/
def linux_platform : Platform :=
  { pagesize := 4096, memory_size := 0, fopen_ok := true, malloc_ok := true, open_ok := true }

/-- The command line `memdump -d 4k`. -/
def argv_d_4k : List (List Char) :=
  [['m', 'e', 'm', 'd', 'u', 'm', 'p'], ['-', 'd'], ['4', 'k']]

/-- The command line `memdump -s 4k`. -/
def argv_s_4k : List (List Char) :=
  [['m', 'e', 'm', 'd', 'u', 'm', 'p'], ['-', 's'], ['4', 'k']]

/-- The digits of `2 ^ 64 - 1`. -/
def max_literal : List Char :=
  ['1', '8', '4', '4', '6', '7', '4', '4', '0', '7', '3', '7', '0', '9', '5', '5', '1', '6',
   '1', '5']

/-- The command line `memdump -b 18446744073709551615`. -/
def argv_b_max : List (List Char) :=
  [['m', 'e', 'm', 'd', 'u', 'm', 'p'], ['-', 'b'], max_literal]

/-- The command line `memdump -p 8k`. -/
def argv_p_8k : List (List Char) :=
  [['m', 'e', 'm', 'd', 'u', 'm', 'p'], ['-', 'p'], ['8', 'k']]

/-! ## Vocabulary of the accounting properties -/

/-- The number of `Unreadable` outcomes (`read_count < 0`) among the first `k` reads. -/
def completed_skips (dev : Nat → Syscalls) (k : Nat) : Nat :=
  ((List.range k).filter (fun i => decide (read_count (dev i).outcome < 0))).length

/-- The number of maximal runs of consecutive `Data` outcomes among the first `k`
reads: the number of `Data` outcomes that are the first read or follow a read
that was not a `Data` outcome. -/
def data_runs (dev : Nat → Syscalls) (k : Nat) : Nat :=
  ((List.range k).filter (fun i => decide (0 < read_count (dev i).outcome) &&
    (i == 0 || !decide (0 < read_count (dev (i - 1)).outcome)))).length

/-- The sum of the lengths `end - start` of the regions of a map. -/
def region_bytes (m : List (Nat × Nat)) : Nat :=
  (m.map (fun r => r.2 - r.1)).sum

/-- Region `r2` starts at least `p` bytes after region `r1` ends. -/
def gapped (p : Nat) (r1 r2 : Nat × Nat) : Prop := r1.2 + p ≤ r2.1

/-- The accounting at the head of an iteration: `where` is `count` plus one page
size for every hole skipped, and `count` is the number of bytes on the sink. -/
structure CountInv (cfg : Config) (dev : Nat → Syscalls) (s : Scan) : Prop where
  where_eq : s.where_ = s.count + cfg.page_size * completed_skips dev s.requests.length
  sink_eq : s.sink.length = s.count

/-- The distance between regions: the regions printed are `page_size` apart, and
the open region starts `page_size` after the last one printed. -/
structure GapInv (cfg : Config) (s : Scan) : Prop where
  gaps : s.map_out.Pairwise (gapped cfg.page_size)
  open_gap : s.in_region = true → ∀ r ∈ s.map_out, r.2 + cfg.page_size ≤ s.start

/-- A device on which every read returns four bytes and only the first write
is complete: the later ones accept two bytes. -/
def second_write_short (i : Nat) : Syscalls :=
  { outcome := .Data [1, 2, 3, 4], write_ret := if i = 0 then 4 else 2, lseek_ret := 0 }

/-- A device on which every read returns four bytes and every write accepts two. -/
def every_write_short (_ : Nat) : Syscalls :=
  { outcome := .Data [1, 2, 3, 4], write_ret := 2, lseek_ret := 0 }

/-! ## Basic facts about the loop body -/

theorem uadd_lt_two_pow (w a b : Nat) : uadd w a b < 2 ^ w :=
  Nat.mod_lt _ (Nat.two_pow_pos w)

theorem uadd_lt_iff {w a b : Nat} (ha : a < 2 ^ w) (hb : b < 2 ^ w) :
    uadd w a b < a ↔ 2 ^ w ≤ a + b := by
  unfold uadd
  constructor
  · intro h
    by_contra hlt
    rw [Nat.mod_eq_of_lt (by omega)] at h
    omega
  · intro h
    have h1 : (a + b) % 2 ^ w = a + b - 2 ^ w := by
      rw [Nat.mod_eq_sub_mod h, Nat.mod_eq_of_lt (by omega)]
    omega

theorem uadd_eq_of_not_lt {w a b : Nat} (ha : a < 2 ^ w) (hb : b < 2 ^ w)
    (h : ¬ uadd w a b < a) : uadd w a b = a + b := by
  have h1 : ¬ 2 ^ w ≤ a + b := fun h2 => h ((uadd_lt_iff ha hb).2 h2)
  unfold uadd
  exact Nat.mod_eq_of_lt (by omega)

theorem pointer_check_of_lt {w : Nat} (cfg : Config) {s : Scan} (h : s.where_ < 2 ^ w) :
    pointer_check w cfg s = (s, none) := by
  simp [pointer_check, pointer_round_trip, Nat.mod_eq_of_lt h]

@[simp] theorem error_eq (r : Remark) (s : Scan) :
    error r s = (remark r s, some .write_error) := rfl

@[simp] theorem remark_start (r : Remark) (s : Scan) : (remark r s).start = s.start := rfl
@[simp] theorem remark_where (r : Remark) (s : Scan) : (remark r s).where_ = s.where_ := rfl
@[simp] theorem remark_count (r : Remark) (s : Scan) : (remark r s).count = s.count := rfl
@[simp] theorem remark_in_region (r : Remark) (s : Scan) :
    (remark r s).in_region = s.in_region := rfl
@[simp] theorem remark_sink (r : Remark) (s : Scan) : (remark r s).sink = s.sink := rfl
@[simp] theorem remark_map_out (r : Remark) (s : Scan) : (remark r s).map_out = s.map_out := rfl
@[simp] theorem remark_requests (r : Remark) (s : Scan) :
    (remark r s).requests = s.requests := rfl
@[simp] theorem remark_log (r : Remark) (s : Scan) : (remark r s).log = s.log ++ [r] := rfl

@[simp] theorem enter_start (m : Bool) (s : Scan) :
    (ENTER_REGION m s).start = if m then s.where_ else s.start := by
  cases m <;> rfl
@[simp] theorem enter_where (m : Bool) (s : Scan) : (ENTER_REGION m s).where_ = s.where_ := by
  cases m <;> rfl
@[simp] theorem enter_count (m : Bool) (s : Scan) : (ENTER_REGION m s).count = s.count := by
  cases m <;> rfl
@[simp] theorem enter_in_region (m : Bool) (s : Scan) : (ENTER_REGION m s).in_region = true := rfl
@[simp] theorem enter_sink (m : Bool) (s : Scan) : (ENTER_REGION m s).sink = s.sink := by
  cases m <;> rfl
@[simp] theorem enter_map_out (m : Bool) (s : Scan) : (ENTER_REGION m s).map_out = s.map_out := by
  cases m <;> rfl
@[simp] theorem enter_requests (m : Bool) (s : Scan) :
    (ENTER_REGION m s).requests = s.requests := by
  cases m <;> rfl
@[simp] theorem enter_log (m : Bool) (s : Scan) : (ENTER_REGION m s).log = s.log := by
  cases m <;> rfl

@[simp] theorem leave_start (m : Bool) (s : Scan) : (LEAVE_REGION m s).start = s.start := by
  cases m <;> rfl
@[simp] theorem leave_where (m : Bool) (s : Scan) : (LEAVE_REGION m s).where_ = s.where_ := by
  cases m <;> rfl
@[simp] theorem leave_count (m : Bool) (s : Scan) : (LEAVE_REGION m s).count = s.count := by
  cases m <;> rfl
@[simp] theorem leave_in_region (m : Bool) (s : Scan) :
    (LEAVE_REGION m s).in_region = false := rfl
@[simp] theorem leave_sink (m : Bool) (s : Scan) : (LEAVE_REGION m s).sink = s.sink := by
  cases m <;> rfl
@[simp] theorem leave_map_out (m : Bool) (s : Scan) :
    (LEAVE_REGION m s).map_out = if m then s.map_out ++ [(s.start, s.where_)] else s.map_out := by
  cases m <;> rfl
@[simp] theorem leave_requests (m : Bool) (s : Scan) :
    (LEAVE_REGION m s).requests = s.requests := by
  cases m <;> rfl
@[simp] theorem leave_log (m : Bool) (s : Scan) : (LEAVE_REGION m s).log = s.log := by
  cases m <;> rfl

@[simp] theorem issue_read_start (w : Nat) (cfg : Config) (s : Scan) :
    (issue_read w cfg s).start = s.start := rfl
@[simp] theorem issue_read_where (w : Nat) (cfg : Config) (s : Scan) :
    (issue_read w cfg s).where_ = s.where_ := rfl
@[simp] theorem issue_read_count (w : Nat) (cfg : Config) (s : Scan) :
    (issue_read w cfg s).count = s.count := rfl
@[simp] theorem issue_read_in_region (w : Nat) (cfg : Config) (s : Scan) :
    (issue_read w cfg s).in_region = s.in_region := rfl
@[simp] theorem issue_read_sink (w : Nat) (cfg : Config) (s : Scan) :
    (issue_read w cfg s).sink = s.sink := rfl
@[simp] theorem issue_read_map_out (w : Nat) (cfg : Config) (s : Scan) :
    (issue_read w cfg s).map_out = s.map_out := rfl
@[simp] theorem issue_read_log (w : Nat) (cfg : Config) (s : Scan) :
    (issue_read w cfg s).log = s.log := rfl
@[simp] theorem issue_read_requests (w : Nat) (cfg : Config) (s : Scan) :
    (issue_read w cfg s).requests = s.requests ++ [(todo w cfg s, s.where_)] := rfl

@[simp] theorem eof_state_start (w : Nat) (cfg : Config) (s : Scan) :
    (eof_state w cfg s).start = s.start := by
  unfold eof_state; split_ifs <;> rfl
@[simp] theorem eof_state_where (w : Nat) (cfg : Config) (s : Scan) :
    (eof_state w cfg s).where_ = s.where_ := by
  unfold eof_state; split_ifs <;> rfl
@[simp] theorem eof_state_count (w : Nat) (cfg : Config) (s : Scan) :
    (eof_state w cfg s).count = s.count := by
  unfold eof_state; split_ifs <;> rfl
@[simp] theorem eof_state_in_region (w : Nat) (cfg : Config) (s : Scan) :
    (eof_state w cfg s).in_region = s.in_region := by
  unfold eof_state; split_ifs <;> rfl
@[simp] theorem eof_state_sink (w : Nat) (cfg : Config) (s : Scan) :
    (eof_state w cfg s).sink = s.sink := by
  unfold eof_state; split_ifs <;> rfl
@[simp] theorem eof_state_map_out (w : Nat) (cfg : Config) (s : Scan) :
    (eof_state w cfg s).map_out = s.map_out := by
  unfold eof_state; split_ifs <;> rfl
@[simp] theorem eof_state_requests (w : Nat) (cfg : Config) (s : Scan) :
    (eof_state w cfg s).requests = s.requests ++ [(todo w cfg s, s.where_)] := by
  unfold eof_state; split_ifs <;> rfl

theorem on_success_where_lt (w : Nat) (cfg : Config) (env : Syscalls) (bytes : List Nat)
    (s : Scan) (h : (on_success w cfg env bytes s).2 = none) :
    (on_success w cfg env bytes s).1.where_ < 2 ^ w := by
  unfold on_success at h ⊢
  dsimp only at h ⊢
  split_ifs at h ⊢ <;> first | (simp at h; done) | simp [uadd_lt_two_pow]

theorem on_failure_where_lt (w : Nat) (cfg : Config) (env : Syscalls)
    (s : Scan) (h : (on_failure w cfg env s).2 = none) :
    (on_failure w cfg env s).1.where_ < 2 ^ w := by
  unfold on_failure at h ⊢
  dsimp only at h ⊢
  split_ifs at h ⊢ <;> first | (simp at h; done) | simp [uadd_lt_two_pow]

theorem and_then_pointer_check (w : Nat) (cfg : Config) (r : Scan × Option Stop)
    (h : r.2 = none → r.1.where_ < 2 ^ w) :
    and_then r (pointer_check w cfg) = r := by
  obtain ⟨s2, o⟩ := r
  cases o with
  | none => exact pointer_check_of_lt cfg (h rfl)
  | some c => rfl

theorem and_then_continue (s : Scan) (f : Scan → Scan × Option Stop) :
    and_then (s, none) f = f s := rfl

theorem and_then_assoc_check (w : Nat) (cfg : Config) (r : Scan × Option Stop)
    (h : r.2 = none → r.1.where_ < 2 ^ w) :
    and_then r (fun s1 => and_then (s1, none) (pointer_check w cfg)) = r := by
  obtain ⟨s2, o⟩ := r
  cases o with
  | none => exact pointer_check_of_lt cfg (h rfl)
  | some c => rfl

/-- The loop body by the kind of read outcome: the pointer check never fires,
because `where` is below `2 ^ w` after every advance. -/
theorem loop_body_eq (w : Nat) (cfg : Config) (env : Syscalls) (s : Scan) :
    loop_body w cfg env s =
      match env.outcome with
      | .EndOfData => (eof_state w cfg s, some .eof)
      | .Data bytes =>
        if bytes = [] then (eof_state w cfg s, some .eof)
        else on_success w cfg env bytes (issue_read w cfg s)
      | .Unreadable => on_failure w cfg env (issue_read w cfg s) := by
  cases ho : env.outcome with
  | EndOfData => simp [loop_body, ho, read_count, eof_state, issue_read]
  | Data bytes =>
    by_cases hb : bytes = []
    · simp [loop_body, ho, read_count, eof_state, hb, issue_read]
    · have hpos : 0 < bytes.length := List.length_pos.2 hb
      have hne : ¬ ((bytes.length : Int) = 0) := by omega
      have hp : (0 : Int) < (bytes.length : Int) := by omega
      have hnn : ¬ ((bytes.length : Int) < 0) := by omega
      simp only [loop_body, ho, read_count, payload, hne, hp, hnn, if_true, if_false, hb]
      exact and_then_assoc_check w cfg _ (on_success_where_lt w cfg env bytes _)
  | Unreadable =>
    have h0 : ¬ ((-1 : Int) = 0) := by decide
    have h1 : ¬ ((0 : Int) < -1) := by decide
    have h2 : ((-1 : Int) < 0) := by decide
    simp only [loop_body, ho, read_count, h0, h1, h2, if_true, if_false, and_then_continue]
    exact and_then_pointer_check w cfg _ (on_failure_where_lt w cfg env _)

/-! ## Induction over the loop -/

/-- Loop invariant rule: `P` holds at the head of every iteration, `Q` where the
loop is left. -/
theorem scan_loop_induct (w : Nat) (cfg : Config) (dev : Nat → Syscalls)
    (P : Scan → Prop) (Q : Scan → Stop → Prop)
    (hstep : ∀ s s1, P s → loop_cond cfg s = true →
      loop_body w cfg (dev s.requests.length) s = (s1, none) → P s1)
    (hstop : ∀ s s1 c, P s → loop_cond cfg s = true →
      loop_body w cfg (dev s.requests.length) s = (s1, some c) → Q s1 c)
    (hbudget : ∀ s, P s → loop_cond cfg s = false → Q s .budget)
    (fuel : Nat) (s : Scan) (hs : P s) :
    (∀ s1, scan_loop w cfg dev fuel s = (s1, none) → P s1) ∧
    (∀ s1 c, scan_loop w cfg dev fuel s = (s1, some c) → Q s1 c) := by
  induction fuel generalizing s with
  | zero =>
    constructor
    · intro s1 h
      simp only [scan_loop, Prod.mk.injEq] at h
      exact h.1 ▸ hs
    · intro s1 c h
      simp [scan_loop] at h
  | succ n ih =>
    by_cases hc : loop_cond cfg s = true
    · rcases hb : loop_body w cfg (dev s.requests.length) s with ⟨s2, o⟩
      cases o with
      | none =>
        have hP := hstep s s2 hs hc hb
        have := ih s2 hP
        simpa [scan_loop, hc, hb] using this
      | some c =>
        have hQ := hstop s s2 c hs hc hb
        constructor
        · intro s1 h
          simp [scan_loop, hc, hb] at h
        · intro s1 c1 h
          simp only [scan_loop, hc, hb, if_true, Prod.mk.injEq, Option.some.injEq] at h
          rw [← h.1, ← h.2]
          exact hQ
    · have hc2 : loop_cond cfg s = false := by simpa using hc
      constructor
      · intro s1 h
        simp [scan_loop, hc2] at h
      · intro s1 c1 h
        simp only [scan_loop, hc2, Bool.false_eq_true, if_false, Prod.mk.injEq,
          Option.some.injEq] at h
        rw [← h.1, ← h.2]
        exact hbudget s hs hc2

/-- A property that holds at the head of every iteration and wherever the loop is
left holds of the loop state after any number of iterations. -/
theorem scan_loop_always (w : Nat) (cfg : Config) (dev : Nat → Syscalls) (P : Scan → Prop)
    (hbody : ∀ s, P s → loop_cond cfg s = true →
      P (loop_body w cfg (dev s.requests.length) s).1)
    (fuel : Nat) (s : Scan) (hs : P s) : P (scan_loop w cfg dev fuel s).1 := by
  have h := scan_loop_induct w cfg dev P (fun s _ => P s)
    (fun s s1 hP hc hb => by have := hbody s hP hc; rwa [hb] at this)
    (fun s s1 c hP hc hb => by have := hbody s hP hc; rwa [hb] at this)
    (fun s hP _ => hP) fuel s hs
  rcases hr : scan_loop w cfg dev fuel s with ⟨s1, o⟩
  cases o with
  | none => exact h.1 s1 hr
  | some c => exact h.2 s1 c hr

@[simp] theorem after_loop_sink (cfg : Config) (s : Scan) : (after_loop cfg s).sink = s.sink := by
  unfold after_loop
  dsimp only
  split_ifs <;> simp
@[simp] theorem after_loop_requests (cfg : Config) (s : Scan) :
    (after_loop cfg s).requests = s.requests := by
  unfold after_loop
  dsimp only
  split_ifs <;> simp
@[simp] theorem after_loop_where (cfg : Config) (s : Scan) :
    (after_loop cfg s).where_ = s.where_ := by
  unfold after_loop
  dsimp only
  split_ifs <;> simp
@[simp] theorem after_loop_count (cfg : Config) (s : Scan) :
    (after_loop cfg s).count = s.count := by
  unfold after_loop
  dsimp only
  split_ifs <;> simp
@[simp] theorem after_loop_in_region (cfg : Config) (s : Scan) :
    (after_loop cfg s).in_region = false := by
  unfold after_loop
  dsimp only
  split_ifs <;> simp_all
@[simp] theorem after_loop_map_out (cfg : Config) (s : Scan) :
    (after_loop cfg s).map_out =
      if s.in_region ∧ cfg.map then s.map_out ++ [(s.start, s.where_)] else s.map_out := by
  unfold after_loop
  dsimp only
  split_ifs <;> simp_all

/-- What `dump_memory` returns, in terms of the loop result. -/
theorem dump_memory_eq (w : Nat) (cfg : Config) (dev : Nat → Syscalls) (fuel : Nat) :
    dump_memory w cfg dev fuel =
      (if (scan_loop w cfg dev fuel Scan.init).2 = none ∨
          (scan_loop w cfg dev fuel Scan.init).2 = some .write_error
        then (scan_loop w cfg dev fuel Scan.init).1
        else after_loop cfg (scan_loop w cfg dev fuel Scan.init).1,
       (scan_loop w cfg dev fuel Scan.init).2) := by
  unfold dump_memory
  rcases scan_loop w cfg dev fuel Scan.init with ⟨s, o⟩
  cases o with
  | none => simp
  | some c => cases c <;> simp

/-! ## The output sink -/

theorem consumed_payloads_succ (dev : Nat → Syscalls) (k : Nat) :
    consumed_payloads dev (k + 1) = consumed_payloads dev k ++
      (if 0 < read_count (dev k).outcome then payload (dev k).outcome else []) := by
  simp [consumed_payloads, List.range_succ, List.flatMap_append]

theorem loop_body_requests (w : Nat) (cfg : Config) (env : Syscalls) (s : Scan) :
    (loop_body w cfg env s).1.requests = s.requests ++ [(todo w cfg s, s.where_)] := by
  rw [loop_body_eq]
  cases env.outcome with
  | EndOfData =>
    simp only [eof_state]
    split_ifs <;> simp
  | Data bytes =>
    simp only [eof_state, on_success]
    split_ifs <;> simp
  | Unreadable =>
    simp only [on_failure]
    split_ifs <;> simp

theorem loop_body_sink (w : Nat) (cfg : Config) (env : Syscalls) (s : Scan)
    (hwr : 0 < read_count env.outcome → env.write_ret = read_count env.outcome) :
    (loop_body w cfg env s).1.sink = s.sink ++
      (if 0 < read_count env.outcome then payload env.outcome else []) := by
  rw [loop_body_eq]
  cases ho : env.outcome with
  | EndOfData =>
    simp only [eof_state, read_count, payload]
    split_ifs <;> simp
  | Data bytes =>
    rw [ho] at hwr
    simp only [read_count, payload] at hwr ⊢
    by_cases hb : bytes = []
    · simp only [eof_state, hb]
      split_ifs <;> simp
    · have hpos : 0 < bytes.length := List.length_pos.2 hb
      have hp : (0 : Int) < (bytes.length : Int) := by omega
      have hw2 := hwr hp
      simp only [on_success, hb, hw2, if_false, hp, if_true]
      split_ifs <;> simp
  | Unreadable =>
    simp only [on_failure, read_count, payload]
    split_ifs <;> simp

/-- C1: when every write to the output sink is complete, the bytes `dump_memory`
has written to the sink are, after any number of iterations and at the end of the
run, exactly the payloads of the `Data` outcomes among the reads issued so far,
concatenated in the order of the reads; the other outcomes contribute nothing. -/
theorem dump_memory_sink_eq_payloads (w : Nat) (cfg : Config) (dev : Nat → Syscalls)
    (hwr : writes_complete dev) (fuel : Nat) :
    (dump_memory w cfg dev fuel).1.sink =
      consumed_payloads dev (dump_memory w cfg dev fuel).1.requests.length := by
  have key : (scan_loop w cfg dev fuel Scan.init).1.sink =
      consumed_payloads dev (scan_loop w cfg dev fuel Scan.init).1.requests.length := by
    refine scan_loop_always w cfg dev
      (fun s => s.sink = consumed_payloads dev s.requests.length) ?_ fuel Scan.init rfl
    intro s hP _
    rw [loop_body_sink w cfg _ s (hwr _), loop_body_requests, List.length_append,
      List.length_singleton, consumed_payloads_succ, hP]
  rw [dump_memory_eq]
  dsimp only
  split_ifs <;> simpa using key

theorem device_of_writes_complete (l : List ReadOutcome) : writes_complete (device_of l) :=
  fun _ _ => rfl

/-! ## The two branches in closed form -/

theorem two_pow_pred_le (w : Nat) : 2 ^ (w - 1) ≤ 2 ^ w :=
  Nat.pow_le_pow_right (by decide) (Nat.sub_le w 1)

/-- The successful branch: what it leaves unchanged, and its three exits. -/
theorem on_success_spec (w : Nat) (cfg : Config) (env : Syscalls) (bytes : List Nat) (s : Scan)
    (hw : s.where_ < 2 ^ w) (hn : bytes.length < 2 ^ w) :
    (on_success w cfg env bytes s).1.requests = s.requests ∧
    (on_success w cfg env bytes s).1.map_out = s.map_out ∧
    (on_success w cfg env bytes s).1.in_region = true ∧
    (on_success w cfg env bytes s).1.start =
      (if s.in_region then s.start else if cfg.map then s.where_ else s.start) ∧
    (on_success w cfg env bytes s).1.sink = s.sink ++ bytes.take env.write_ret.toNat ∧
    ((env.write_ret ≠ (bytes.length : Int) ∧
        (on_success w cfg env bytes s).2 = some .write_error ∧
        (on_success w cfg env bytes s).1.where_ = s.where_ ∧
        (on_success w cfg env bytes s).1.count = s.count) ∨
     (env.write_ret = (bytes.length : Int) ∧ 2 ^ w ≤ s.where_ + bytes.length ∧
        (on_success w cfg env bytes s).2 = some .wraparound ∧
        (on_success w cfg env bytes s).1.where_ = s.where_ ∧
        (on_success w cfg env bytes s).1.count = uadd w s.count bytes.length) ∨
     (env.write_ret = (bytes.length : Int) ∧ s.where_ + bytes.length < 2 ^ w ∧
        (on_success w cfg env bytes s).2 = none ∧
        (on_success w cfg env bytes s).1.where_ = s.where_ + bytes.length ∧
        (on_success w cfg env bytes s).1.count = uadd w s.count bytes.length)) := by
  have hiff := uadd_lt_iff hw hn
  have heq := fun h => uadd_eq_of_not_lt hw hn h
  unfold on_success
  dsimp only
  by_cases hwr : env.write_ret = (bytes.length : Int)
  · by_cases hlt : uadd w s.where_ bytes.length < s.where_
    · have h2 := hiff.1 hlt
      cases hr : s.in_region <;> simp [hwr, hlt, h2, hr]
    · have h2 : s.where_ + bytes.length < 2 ^ w := by
        by_contra hc
        exact hlt (hiff.2 (by omega))
      have h3 := heq hlt
      have h4 : ¬ (2 ^ w ≤ s.where_ + bytes.length) := by omega
      cases hr : s.in_region <;> by_cases hv : 1 < cfg.verbose <;> simp [hwr, hlt, h2, h3, hv, h4, hr]
  · cases hr : s.in_region <;> simp [hwr, hr]

/-- The failure branch: what it leaves unchanged, and its three exits. -/
theorem on_failure_spec (w : Nat) (cfg : Config) (env : Syscalls) (s : Scan)
    (hw : s.where_ < 2 ^ w) (hp : cfg.page_size < 2 ^ w) :
    (on_failure w cfg env s).1.requests = s.requests ∧
    (on_failure w cfg env s).1.map_out =
      (if s.in_region ∧ cfg.map then s.map_out ++ [(s.start, s.where_)] else s.map_out) ∧
    (on_failure w cfg env s).1.in_region = false ∧
    (on_failure w cfg env s).1.start = s.start ∧
    (on_failure w cfg env s).1.sink = s.sink ∧
    (on_failure w cfg env s).1.count = s.count ∧
    ((2 ^ w ≤ s.where_ + cfg.page_size ∧
        (on_failure w cfg env s).2 = some .wraparound ∧
        (on_failure w cfg env s).1.where_ = s.where_) ∨
     (s.where_ + cfg.page_size < 2 ^ w ∧ env.lseek_ret < 0 ∧
        (on_failure w cfg env s).2 = some .lseek_error ∧
        (on_failure w cfg env s).1.where_ = s.where_) ∨
     (s.where_ + cfg.page_size < 2 ^ w ∧ 0 ≤ env.lseek_ret ∧
        (on_failure w cfg env s).2 = none ∧
        (on_failure w cfg env s).1.where_ = s.where_ + cfg.page_size)) := by
  have hiff := uadd_lt_iff hw hp
  have heq := fun h => uadd_eq_of_not_lt hw hp h
  unfold on_failure
  dsimp only
  by_cases hlt : uadd w s.where_ cfg.page_size < s.where_
  · have h2 := hiff.1 hlt
    cases hr : s.in_region <;> cases hm : cfg.map <;> simp [hlt, h2, hr, hm]
  · have h2 : s.where_ + cfg.page_size < 2 ^ w := by
      by_contra hc
      exact hlt (hiff.2 (by omega))
    have h3 := heq hlt
    have h4 : ¬ (2 ^ w ≤ s.where_ + cfg.page_size) := by omega
    by_cases hl : env.lseek_ret < 0
    · cases hr : s.in_region <;> cases hm : cfg.map <;> by_cases hv : cfg.verbose = 0 <;>
        simp [hlt, h2, h3, hv, h4, hl, hr, hm]
    · have hl2 : 0 ≤ env.lseek_ret := by omega
      cases hr : s.in_region <;> cases hm : cfg.map <;> by_cases hv : 1 < cfg.verbose <;>
        simp [hlt, h2, h3, hv, h4, hl, hl2, hr, hm]

/-! ## The region bookkeeping -/

/-- The three shapes of the loop body. -/
theorem loop_body_cases (w : Nat) (cfg : Config) (env : Syscalls) (s : Scan) :
    (read_count env.outcome = 0 ∧ loop_body w cfg env s = (eof_state w cfg s, some .eof)) ∨
    (0 < read_count env.outcome ∧ 0 < (payload env.outcome).length ∧
      loop_body w cfg env s = on_success w cfg env (payload env.outcome) (issue_read w cfg s)) ∨
    (read_count env.outcome < 0 ∧
      loop_body w cfg env s = on_failure w cfg env (issue_read w cfg s)) := by
  rw [loop_body_eq]
  cases env.outcome with
  | EndOfData => exact Or.inl ⟨rfl, rfl⟩
  | Data bytes =>
    by_cases hb : bytes = []
    · left
      simp [hb, read_count]
    · right; left
      have hpos : 0 < bytes.length := List.length_pos.2 hb
      simp [hb, read_count, payload, hpos]
  | Unreadable =>
    right; right
    exact ⟨by decide, rfl⟩

theorem in_regions_append (m1 m2 : List (Nat × Nat)) (a : Nat) :
    in_regions (m1 ++ m2) a ↔ in_regions m1 a ∨ in_regions m2 a := by
  simp only [in_regions, List.mem_append]
  constructor
  · rintro ⟨r, hr | hr, h⟩
    · exact Or.inl ⟨r, hr, h⟩
    · exact Or.inr ⟨r, hr, h⟩
  · rintro (⟨r, hr, h⟩ | ⟨r, hr, h⟩)
    · exact ⟨r, Or.inl hr, h⟩
    · exact ⟨r, Or.inr hr, h⟩

theorem in_regions_nil (a : Nat) : in_regions [] a ↔ False := by
  simp [in_regions]

theorem in_regions_singleton (x y a : Nat) : in_regions [(x, y)] a ↔ x ≤ a ∧ a < y := by
  simp [in_regions]

theorem was_read_append (dev : Nat → Syscalls) (reqs : List (Nat × Nat)) (q : Nat × Nat)
    (a : Nat) :
    was_read dev (reqs ++ [q]) a ↔ was_read dev reqs a ∨
      (0 < read_count (dev reqs.length).outcome ∧ q.2 ≤ a ∧
        a < q.2 + (payload (dev reqs.length).outcome).length) := by
  unfold was_read
  constructor
  · rintro ⟨i, hi, h⟩
    rw [List.length_append, List.length_singleton] at hi
    by_cases hlt : i < reqs.length
    · left
      refine ⟨i, hlt, ?_⟩
      rwa [List.getD_append _ _ _ _ hlt] at h
    · right
      have hi2 : i = reqs.length := by omega
      subst hi2
      rwa [List.getD_append_right _ _ _ _ (le_refl _), Nat.sub_self, List.getD_cons_zero] at h
  · rintro (⟨i, hi, h⟩ | h)
    · refine ⟨i, by rw [List.length_append]; omega, ?_⟩
      rwa [List.getD_append _ _ _ _ hi]
    · refine ⟨reqs.length, by simp, ?_⟩
      rwa [List.getD_append_right _ _ _ _ (le_refl _), Nat.sub_self, List.getD_cons_zero]

theorem no_read_wraps_append (w : Nat) (dev : Nat → Syscalls) (reqs : List (Nat × Nat))
    (q : Nat × Nat) (h : no_read_wraps w dev (reqs ++ [q])) :
    0 < read_count (dev reqs.length).outcome →
      q.2 + (payload (dev reqs.length).outcome).length < 2 ^ w := by
  intro hpos
  have := h reqs.length (by simp) hpos
  rwa [List.getD_append_right _ _ _ _ (le_refl _), Nat.sub_self, List.getD_cons_zero] at this

theorem regions_so_far_eq (s : Scan) :
    regions_so_far s = s.map_out ++ (if s.in_region then [(s.start, s.where_)] else []) := rfl

theorem in_regions_so_far (s : Scan) (a : Nat) :
    in_regions (regions_so_far s) a ↔
      in_regions s.map_out a ∨ (s.in_region = true ∧ s.start ≤ a ∧ a < s.where_) := by
  rw [regions_so_far_eq, in_regions_append]
  cases s.in_region <;> simp [in_regions_nil, in_regions_singleton]

theorem step_ok_eof (w : Nat) (cfg : Config) (dev : Nat → Syscalls) (s : Scan)
    (hrc : read_count (dev s.requests.length).outcome = 0) (h : HeadInv w dev s) :
    StepOk w dev (eof_state w cfg s, some .eof) := by
  have hb := h.base
  have hcov : ∀ a, in_regions (regions_so_far (eof_state w cfg s)) a ↔
      was_read dev (eof_state w cfg s).requests a := by
    intro a
    rw [in_regions_so_far, eof_state_requests, was_read_append, ← h.covers a,
      in_regions_so_far]
    simp [hrc]
  refine ⟨⟨?_, ?_, ?_, ?_, ?_, ?_⟩, ?_, ?_⟩
  · simpa using hb.where_lt
  · simpa using hb.sorted
  · simpa using hb.closed
  · simpa using hb.open_le
  · intro hin
    obtain ⟨t, ht⟩ := hb.open_req (by simpa using hin)
    exact ⟨t, by simp [ht]⟩
  · intro q hq
    simp only [eof_state_requests, List.mem_append, List.mem_singleton, eof_state_where] at hq ⊢
    rcases hq with hq | hq
    · exact hb.req_le q hq
    · simp [hq]
  · intro h2
    simp at h2
  · intro c _ _ _
    exact hcov

theorem step_ok_data (w : Nat) (cfg : Config) (dev : Nat → Syscalls) (s : Scan)
    (hmap : cfg.map = true)
    (hpos : 0 < read_count (dev s.requests.length).outcome)
    (hlen : 0 < (payload (dev s.requests.length).outcome).length)
    (hn : (payload (dev s.requests.length).outcome).length < 2 ^ w)
    (h : HeadInv w dev s) :
    StepOk w dev (on_success w cfg (dev s.requests.length)
      (payload (dev s.requests.length).outcome) (issue_read w cfg s)) := by
  have hb := h.base
  obtain ⟨hreq, hmo, hin, hst, -, hcase⟩ := on_success_spec w cfg (dev s.requests.length)
    (payload (dev s.requests.length).outcome) (issue_read w cfg s)
    (by simpa using hb.where_lt) hn
  generalize on_success w cfg (dev s.requests.length)
    (payload (dev s.requests.length).outcome) (issue_read w cfg s) = r at hreq hmo hin hst hcase ⊢
  simp only [issue_read_requests, issue_read_map_out, issue_read_in_region, issue_read_start,
    issue_read_where, issue_read_count, hmap, if_true] at hreq hmo hst hcase
  have hst2 : r.1.start = if s.in_region then s.start else s.where_ := hst
  have hwle : s.where_ ≤ r.1.where_ := by
    rcases hcase with ⟨-, -, hw, -⟩ | ⟨-, -, -, hw, -⟩ | ⟨-, -, -, hw, -⟩ <;> omega
  have hwlt : r.1.where_ < 2 ^ w := by
    have := hb.where_lt
    rcases hcase with ⟨-, -, hw, -⟩ | ⟨-, -, -, hw, -⟩ | ⟨-, hlt, -, hw, -⟩ <;> omega
  have hsle : r.1.start ≤ s.where_ := by
    rw [hst2]
    cases hr : s.in_region
    · simp
    · simpa using hb.open_le hr
  refine ⟨⟨hwlt, ?_, ?_, ?_, ?_, ?_⟩, ?_, ?_⟩
  · rw [hmo]; exact hb.sorted
  · intro x hx
    rw [hmo] at hx
    have := hb.closed x hx
    rw [hin, hst2]
    simpa using this
  · intro _
    omega
  · intro _
    rw [hreq, hst2]
    cases hr : s.in_region
    · exact ⟨todo w cfg s, by simp⟩
    · obtain ⟨t0, ht0⟩ := hb.open_req hr
      exact ⟨t0, by simp [ht0]⟩
  · intro q hq
    rw [hreq] at hq
    simp only [List.mem_append, List.mem_singleton] at hq
    rcases hq with hq | hq
    · have := hb.req_le q hq
      omega
    · rw [hq]
      exact hwle
  · intro hnone
    rcases hcase with ⟨-, hs, -⟩ | ⟨-, -, hs, -⟩ | ⟨-, hlt, -, hw, -⟩
    · rw [hs] at hnone; simp at hnone
    · rw [hs] at hnone; simp at hnone
    · refine ⟨⟨hwlt, ?_, ?_, ?_, ?_, ?_⟩, ?_, ?_⟩
      · rw [hmo]; exact hb.sorted
      · intro x hx
        rw [hmo] at hx
        have := hb.closed x hx
        rw [hin, hst2]
        simpa using this
      · intro _
        omega
      · intro _
        rw [hreq, hst2]
        cases hr : s.in_region
        · exact ⟨todo w cfg s, by simp⟩
        · obtain ⟨t0, ht0⟩ := hb.open_req hr
          exact ⟨t0, by simp [ht0]⟩
      · intro q hq
        rw [hreq] at hq
        simp only [List.mem_append, List.mem_singleton] at hq
        rcases hq with hq | hq
        · have := hb.req_le q hq
          omega
        · rw [hq]
          exact hwle
      · intro _
        omega
      · intro a
        rw [in_regions_so_far, hreq, was_read_append, ← h.covers a, in_regions_so_far, hmo, hin,
          hw, hst2]
        have hole := hb.open_le
        by_cases hA : in_regions s.map_out a
        · simp [hA]
        · cases hr : s.in_region
          · simp [hA, hpos]
          · have := hole hr
            simp only [hA, hpos, hr, false_or, true_and, if_true]
            omega
  · intro c hc hne hnw
    rw [hreq] at hnw
    have hfit := no_read_wraps_append w dev s.requests _ hnw hpos
    rcases hcase with ⟨-, hs, -⟩ | ⟨-, hge, -⟩ | ⟨-, -, hs, -⟩
    · rw [hs] at hc
      simp only [Option.some.injEq] at hc
      exact absurd hc.symm hne
    · simp only at hfit
      omega
    · rw [hs] at hc; simp at hc

theorem step_ok_unreadable (w : Nat) (cfg : Config) (dev : Nat → Syscalls) (s : Scan)
    (hmap : cfg.map = true) (hp : cfg.page_size < 2 ^ w)
    (hneg : read_count (dev s.requests.length).outcome < 0)
    (h : HeadInv w dev s) :
    StepOk w dev (on_failure w cfg (dev s.requests.length) (issue_read w cfg s)) := by
  have hb := h.base
  obtain ⟨hreq, hmo, hin, hst, -, -, hcase⟩ := on_failure_spec w cfg (dev s.requests.length)
    (issue_read w cfg s) (by simpa using hb.where_lt) hp
  generalize on_failure w cfg (dev s.requests.length) (issue_read w cfg s) = r
    at hreq hmo hin hst hcase ⊢
  simp only [issue_read_requests, issue_read_map_out, issue_read_in_region, issue_read_start,
    issue_read_where, hmap, and_true] at hreq hmo hst hcase
  have hmo2 : r.1.map_out = regions_so_far s := by
    rw [hmo, regions_so_far_eq]
    cases s.in_region <;> simp
  have hwle : s.where_ ≤ r.1.where_ := by
    rcases hcase with ⟨-, -, hw⟩ | ⟨-, -, -, hw⟩ | ⟨-, -, -, hw⟩ <;> omega
  have hwlt : r.1.where_ < 2 ^ w := by
    have := hb.where_lt
    rcases hcase with ⟨-, -, hw⟩ | ⟨-, -, -, hw⟩ | ⟨hlt, -, -, hw⟩ <;> omega
  have hcov : ∀ a, in_regions (regions_so_far r.1) a ↔ was_read dev r.1.requests a := by
    intro a
    have hnp : ¬ (0 < read_count (dev s.requests.length).outcome) := by omega
    rw [in_regions_so_far, hreq, was_read_append, ← h.covers a, hmo2, hin]
    simp [hnp]
  have hbase : RegionInv w r.1 := by
    refine ⟨hwlt, ?_, ?_, ?_, ?_, ?_⟩
    · rw [hmo2, regions_so_far_eq]
      cases hr : s.in_region
      · simpa using hb.sorted
      · simp only [if_true, List.pairwise_append, List.pairwise_singleton, List.mem_singleton,
          true_and]
        refine ⟨hb.sorted, ?_⟩
        intro x hx y hy
        have := hb.closed x hx
        rw [hr] at this
        simp only [if_true] at this
        rw [hy]
        exact ⟨this.2, by omega⟩
    · intro x hx
      rw [hin]
      rw [hmo2, regions_so_far_eq, List.mem_append] at hx
      simp only [Bool.false_eq_true, if_false]
      rcases hx with hx | hx
      · have h1 := hb.closed x hx
        have h2 := hb.open_le
        cases hr : s.in_region
        · rw [hr] at h1
          simp only [Bool.false_eq_true, if_false] at h1
          omega
        · rw [hr] at h1
          simp only [if_true] at h1
          have := h2 hr
          omega
      · cases hr : s.in_region
        · rw [hr] at hx
          simp at hx
        · rw [hr] at hx
          simp only [if_true, List.mem_singleton] at hx
          have := h.open_lt hr
          rw [hx]
          simp only
          omega
    · intro hc
      rw [hin] at hc
      simp at hc
    · intro hc
      rw [hin] at hc
      simp at hc
    · intro q hq
      rw [hreq] at hq
      simp only [List.mem_append, List.mem_singleton] at hq
      rcases hq with hq | hq
      · have := hb.req_le q hq
        omega
      · rw [hq]
        exact hwle
  refine ⟨hbase, ?_, ?_⟩
  · intro _
    refine ⟨hbase, ?_, hcov⟩
    intro hc
    rw [hin] at hc
    simp at hc
  · intro c _ _ _
    exact hcov

/-- One execution of the loop body keeps the region bookkeeping in order. -/
theorem loop_body_step_ok (w : Nat) (cfg : Config) (dev : Nat → Syscalls) (s : Scan)
    (hmap : cfg.map = true) (hfit : cfg.fits w) (hreads : reads_fit w dev)
    (h : HeadInv w dev s) :
    StepOk w dev (loop_body w cfg (dev s.requests.length) s) := by
  have hn : (payload (dev s.requests.length).outcome).length < 2 ^ w :=
    lt_of_lt_of_le (hreads _) (two_pow_pred_le w)
  rcases loop_body_cases w cfg (dev s.requests.length) s with ⟨hrc, he⟩ | ⟨hpos, hlen, he⟩ |
    ⟨hneg, he⟩
  · rw [he]
    exact step_ok_eof w cfg dev s hrc h
  · rw [he]
    exact step_ok_data w cfg dev s hmap hpos hlen hn h
  · rw [he]
    exact step_ok_unreadable w cfg dev s hmap hfit.2.2 hneg h

theorem head_inv_init (w : Nat) (dev : Nat → Syscalls) : HeadInv w dev Scan.init := by
  refine ⟨⟨?_, ?_, ?_, ?_, ?_, ?_⟩, ?_, ?_⟩
  · exact Nat.two_pow_pos w
  · simp [Scan.init]
  · simp [Scan.init]
  · simp [Scan.init]
  · simp [Scan.init]
  · simp [Scan.init]
  · simp [Scan.init]
  · intro a
    simp [Scan.init, regions_so_far, in_regions, was_read]

/-- The outcome of the loop, after any number of iterations, satisfies `StepOk`
as a whole: the general facts always, the head facts while the loop goes on, and
the coverage where the loop is left. -/
theorem scan_loop_step_ok (w : Nat) (cfg : Config) (dev : Nat → Syscalls)
    (hmap : cfg.map = true) (hfit : cfg.fits w) (hreads : reads_fit w dev) (fuel : Nat) :
    StepOk w dev (scan_loop w cfg dev fuel Scan.init) := by
  have h := scan_loop_induct w cfg dev (HeadInv w dev) (fun s c => StepOk w dev (s, some c))
    (fun s s1 hP _ hb => by
      have := loop_body_step_ok w cfg dev s hmap hfit hreads hP
      rw [hb] at this
      exact this.2.1 rfl)
    (fun s s1 c hP _ hb => by
      have := loop_body_step_ok w cfg dev s hmap hfit hreads hP
      rwa [hb] at this)
    (fun s hP _ => ⟨hP.base, fun h2 => by simp at h2, fun _ _ _ _ => hP.covers⟩)
    fuel Scan.init (head_inv_init w dev)
  rcases hr : scan_loop w cfg dev fuel Scan.init with ⟨s1, o⟩
  cases o with
  | none =>
    have hh := h.1 s1 hr
    exact ⟨hh.base, fun _ => hh, fun c hc => by simp at hc⟩
  | some c => exact h.2 s1 c hr

/-! ## The map: order, coverage, the last region -/

theorem after_loop_regions (cfg : Config) (s : Scan) (hmap : cfg.map = true) :
    (after_loop cfg s).map_out = regions_so_far s := by
  rw [after_loop_map_out, regions_so_far_eq]
  cases s.in_region <;> simp [hmap]

theorem regions_so_far_ordered (w : Nat) (s : Scan) (h : RegionInv w s) :
    (regions_so_far s).Pairwise region_before ∧ ∀ r ∈ regions_so_far s, r.1 ≤ r.2 := by
  rw [regions_so_far_eq]
  cases hr : s.in_region
  · simp only [Bool.false_eq_true, if_false, List.append_nil]
    exact ⟨h.sorted, fun r hx => le_of_lt (h.closed r hx).1⟩
  · have hc := h.closed
    rw [hr] at hc
    simp only [if_true] at hc
    constructor
    · simp only [if_true, List.pairwise_append, List.pairwise_singleton, List.mem_singleton,
        true_and]
      refine ⟨h.sorted, ?_⟩
      intro x hx y hy
      have := hc x hx
      rw [hy]
      exact ⟨this.2, by omega⟩
    · intro r hx
      simp only [if_true, List.mem_append, List.mem_singleton] at hx
      rcases hx with hx | hx
      · exact le_of_lt (hc r hx).1
      · rw [hx]
        exact h.open_le hr

theorem map_out_ordered (w : Nat) (s : Scan) (h : RegionInv w s) :
    s.map_out.Pairwise region_before ∧ ∀ r ∈ s.map_out, r.1 ≤ r.2 :=
  ⟨h.sorted, fun r hx => le_of_lt (h.closed r hx).1⟩

/-- C3: with a map stream, the regions printed to the map, after any number of
iterations and at the end of the run, are ordered and do not overlap: every
region has `start ≤ end`, each region ends no later than the next one starts and
starts strictly before it (and the same holds of any two regions of the list, the
earlier against the later). -/
theorem map_regions_ordered (w : Nat) (cfg : Config) (dev : Nat → Syscalls)
    (hmap : cfg.map = true) (hfit : cfg.fits w) (hreads : reads_fit w dev) (fuel : Nat) :
    (∀ r ∈ (dump_memory w cfg dev fuel).1.map_out, r.1 ≤ r.2) ∧
    (dump_memory w cfg dev fuel).1.map_out.Chain' region_before ∧
    (dump_memory w cfg dev fuel).1.map_out.Pairwise region_before := by
  have hinv := (scan_loop_step_ok w cfg dev hmap hfit hreads fuel).1
  have key : (dump_memory w cfg dev fuel).1.map_out.Pairwise region_before ∧
      ∀ r ∈ (dump_memory w cfg dev fuel).1.map_out, r.1 ≤ r.2 := by
    rw [dump_memory_eq]
    dsimp only
    split_ifs
    · exact map_out_ordered w _ hinv
    · rw [after_loop_regions _ _ hmap]
      exact regions_so_far_ordered w _ hinv
  exact ⟨key.2, key.1.chain', key.1⟩

theorem small_config_fits (d : Nat) (m : Bool) (h : d < 2 ^ 64) : (small_config d m).fits 64 :=
  ⟨show 4 < 2 ^ 64 by decide, h, show 4 < 2 ^ 64 by decide⟩

theorem device_of_reads_fit (w : Nat) (l : List ReadOutcome)
    (h : ∀ o ∈ l, (payload o).length < 2 ^ (w - 1)) : reads_fit w (device_of l) := by
  intro i
  simp only [device_of]
  by_cases hi : i < l.length
  · rw [List.getD_eq_getElem _ _ hi]
    exact h _ (List.getElem_mem _)
  · rw [List.getD_eq_default _ _ (by omega)]
    exact Nat.two_pow_pos _

theorem small_outcomes_fit : reads_fit 64 (device_of small_outcomes) :=
  device_of_reads_fit 64 _ (by decide)

theorem dump_memory_stop (w : Nat) (cfg : Config) (dev : Nat → Syscalls) (fuel : Nat) :
    (dump_memory w cfg dev fuel).2 = (scan_loop w cfg dev fuel Scan.init).2 := by
  rw [dump_memory_eq]

theorem dump_memory_completed (w : Nat) (cfg : Config) (dev : Nat → Syscalls) (fuel : Nat)
    (c : Stop) (hstop : (dump_memory w cfg dev fuel).2 = some c) (hc : c ≠ .write_error) :
    (dump_memory w cfg dev fuel).1 = after_loop cfg (scan_loop w cfg dev fuel Scan.init).1 := by
  rw [dump_memory_stop] at hstop
  rw [dump_memory_eq]
  dsimp only
  rw [if_neg]
  rw [hstop]
  simpa using hc

theorem region_unique (m : List (Nat × Nat)) (hm : m.Pairwise region_before) (a : Nat)
    (r1 r2 : Nat × Nat) (h1 : r1 ∈ m) (h2 : r2 ∈ m)
    (ha1 : r1.1 ≤ a ∧ a < r1.2) (ha2 : r2.1 ≤ a ∧ a < r2.2) : r1 = r2 := by
  have hsym : Symmetric (fun x y : Nat × Nat => x = y ∨ region_before x y ∨ region_before y x) := by
    intro x y hxy
    rcases hxy with hxy | hxy | hxy
    · exact Or.inl hxy.symm
    · exact Or.inr (Or.inr hxy)
    · exact Or.inr (Or.inl hxy)
  have hp : m.Pairwise (fun x y : Nat × Nat => x = y ∨ region_before x y ∨ region_before y x) :=
    hm.imp (fun hxy => Or.inr (Or.inl hxy))
  have := hp.forall_of_forall hsym (fun x _ => Or.inl rfl) h1 h2
  rcases this with h | h | h
  · exact h
  · unfold region_before at h
    omega
  · unfold region_before at h
    omega

/-- C2, amended: in a run with a map stream that has left the loop other than
by the fatal write error, and in which no successful read ended at or beyond
`2 ^ w`, an address lies in a region of the map exactly when it lies in the range
`[a_j, a_j + n_j)` of a `Data` outcome; and no address lies in two regions. -/
theorem map_covers_reads (w : Nat) (cfg : Config) (dev : Nat → Syscalls)
    (hmap : cfg.map = true) (hfit : cfg.fits w) (hreads : reads_fit w dev) (fuel : Nat)
    (c : Stop) (hstop : (dump_memory w cfg dev fuel).2 = some c) (hc : c ≠ .write_error)
    (hnw : no_read_wraps w dev (dump_memory w cfg dev fuel).1.requests) :
    (∀ a, in_regions (dump_memory w cfg dev fuel).1.map_out a ↔
      was_read dev (dump_memory w cfg dev fuel).1.requests a) ∧
    (∀ a r1 r2, r1 ∈ (dump_memory w cfg dev fuel).1.map_out →
      r2 ∈ (dump_memory w cfg dev fuel).1.map_out →
      r1.1 ≤ a ∧ a < r1.2 → r2.1 ≤ a ∧ a < r2.2 → r1 = r2) := by
  have hok := scan_loop_step_ok w cfg dev hmap hfit hreads fuel
  have hd := dump_memory_completed w cfg dev fuel c hstop hc
  rw [dump_memory_stop] at hstop
  rw [hd] at hnw ⊢
  rw [after_loop_requests] at hnw ⊢
  rw [after_loop_regions _ _ hmap]
  refine ⟨hok.2.2 c hstop hc hnw, ?_⟩
  intro a r1 r2 h1 h2 ha1 ha2
  exact region_unique _ (regions_so_far_ordered w _ hok.1).1 a r1 r2 h1 h2 ha1 ha2

/-- C2 as stated fails on a run in which the map misses bytes that were
delivered: 32-bit addresses,
a hole at address 0 skipped with a page size of `2 ^ 32 - 16`, then the last 16
bytes of the address space read at `2 ^ 32 - 16`. The bytes are written to the
sink, the scan stops on wraparound, and the map holds the empty region
`(2 ^ 32 - 16, 2 ^ 32 - 16)`: address `2 ^ 32 - 16` was read and is in no region. -/
theorem map_misses_last_read :
    (dump_memory 32 wrap_config (device_of wrap_outcomes) 5).2 = some .wraparound ∧
    (dump_memory 32 wrap_config (device_of wrap_outcomes) 5).1.map_out =
        [(2 ^ 32 - 16, 2 ^ 32 - 16)] ∧
    (dump_memory 32 wrap_config (device_of wrap_outcomes) 5).1.sink =
        [1, 2, 3, 4, 5, 6, 7, 8, 9, 10, 11, 12, 13, 14, 15, 16] ∧
    ¬ (∀ a, in_regions (dump_memory 32 wrap_config (device_of wrap_outcomes) 5).1.map_out a ↔
      was_read (device_of wrap_outcomes)
        (dump_memory 32 wrap_config (device_of wrap_outcomes) 5).1.requests a) := by
  have hm : (dump_memory 32 wrap_config (device_of wrap_outcomes) 5).1.map_out =
      [(2 ^ 32 - 16, 2 ^ 32 - 16)] := by decide
  have hreq : (dump_memory 32 wrap_config (device_of wrap_outcomes) 5).1.requests =
      [(16, 0), (16, 2 ^ 32 - 16)] := by decide
  refine ⟨by decide, hm, by decide, ?_⟩
  intro h
  have h1 := (h (2 ^ 32 - 16)).2
  rw [hm, hreq] at h1
  have h2 := h1 ⟨1, by decide, by decide, by decide, by decide⟩
  rw [in_regions_singleton] at h2
  omega

/-- C6: in a run with a map stream that has left the loop for any reason other
than the fatal write error (end of data, budget, wraparound, `lseek` failure),
if a region started at `start` is open when the loop is left, then the map at the
end of `dump_memory` is the map at the end of the loop followed by the one entry
`(start, where)`; otherwise it is the map at the end of the loop. In both cases
`dump_memory` ends outside a region, and the `where` used is the value the loop
left: it is below `2 ^ w`, it is not less than `start`, which is the address of
a read that was issued, and it is not less than any address a read was
issued at. -/
theorem final_region_flushed (w : Nat) (cfg : Config) (dev : Nat → Syscalls)
    (hmap : cfg.map = true) (hfit : cfg.fits w) (hreads : reads_fit w dev) (fuel : Nat)
    (c : Stop) (hstop : (scan_loop w cfg dev fuel Scan.init).2 = some c)
    (hc : c ≠ .write_error) :
    (dump_memory w cfg dev fuel).2 = some c ∧
    (dump_memory w cfg dev fuel).1.in_region = false ∧
    (dump_memory w cfg dev fuel).1.where_ = (scan_loop w cfg dev fuel Scan.init).1.where_ ∧
    (scan_loop w cfg dev fuel Scan.init).1.where_ < 2 ^ w ∧
    (∀ q ∈ (scan_loop w cfg dev fuel Scan.init).1.requests,
      q.2 ≤ (scan_loop w cfg dev fuel Scan.init).1.where_) ∧
    ((scan_loop w cfg dev fuel Scan.init).1.in_region = true →
      (dump_memory w cfg dev fuel).1.map_out =
        (scan_loop w cfg dev fuel Scan.init).1.map_out ++
          [((scan_loop w cfg dev fuel Scan.init).1.start,
            (scan_loop w cfg dev fuel Scan.init).1.where_)] ∧
      (scan_loop w cfg dev fuel Scan.init).1.start ≤
        (scan_loop w cfg dev fuel Scan.init).1.where_ ∧
      ∃ t, (t, (scan_loop w cfg dev fuel Scan.init).1.start) ∈
        (scan_loop w cfg dev fuel Scan.init).1.requests) ∧
    ((scan_loop w cfg dev fuel Scan.init).1.in_region = false →
      (dump_memory w cfg dev fuel).1.map_out =
        (scan_loop w cfg dev fuel Scan.init).1.map_out) := by
  have hinv := (scan_loop_step_ok w cfg dev hmap hfit hreads fuel).1
  have hstop2 : (dump_memory w cfg dev fuel).2 = some c := by
    rw [dump_memory_stop]; exact hstop
  have hd := dump_memory_completed w cfg dev fuel c hstop2 hc
  rw [hd]
  refine ⟨hstop2, by simp, by simp, hinv.where_lt, hinv.req_le, ?_, ?_⟩
  · intro hin
    exact ⟨by simp [hin, hmap], hinv.open_le hin, hinv.open_req hin⟩
  · intro hin
    simp [hin]

/-- A page-less instance: four bytes of data at address 0 and the budget of
four bytes is used up while the region is open; the map gets `(0, 4)`. -/
theorem final_region_flushed_witness :
    (scan_loop 64 (small_config 4 true) (device_of small_outcomes) 5 Scan.init).2
      = some .budget ∧
    (scan_loop 64 (small_config 4 true) (device_of small_outcomes) 5 Scan.init).1.in_region
      = true ∧
    (scan_loop 64 (small_config 4 true) (device_of small_outcomes) 5 Scan.init).1.map_out
      = [] ∧
    (dump_memory 64 (small_config 4 true) (device_of small_outcomes) 5).1.map_out
      = [(0, 4)] ∧
    (dump_memory 64 (small_config 4 true) (device_of small_outcomes) 5).1.in_region
      = false :=
  ⟨by decide, by decide, by decide, by decide,
    (final_region_flushed 64 (small_config 4 true) (device_of small_outcomes) rfl
      (small_config_fits 4 true (by decide)) small_outcomes_fit 5 .budget (by decide)
      (by decide)).2.1⟩

/-! ## The byte budget and the size of the requests -/

theorem usub_eq (w a b : Nat) (ha : a < 2 ^ w) (hb : b ≤ a) : usub w a b = a - b := by
  unfold usub
  have hb2 : b % 2 ^ w = b := Nat.mod_eq_of_lt (by omega)
  rw [hb2]
  have h1 : a + 2 ^ w - b = (a - b) + 2 ^ w := by omega
  rw [h1, Nat.add_mod_right]
  exact Nat.mod_eq_of_lt (by omega)

/-- While the loop condition holds, `todo` is the smaller of the buffer size and
the rest of the budget, or the buffer size when there is no budget. -/
theorem todo_eq (w : Nat) (cfg : Config) (s : Scan) (hd : cfg.dump_size < 2 ^ w)
    (hc : loop_cond cfg s = true) :
    todo w cfg s =
      if 0 < cfg.dump_size then min cfg.buffer_size (cfg.dump_size - s.count)
      else cfg.buffer_size := by
  unfold todo
  by_cases h0 : 0 < cfg.dump_size
  · have hlt : s.count < cfg.dump_size := by
      simp only [loop_cond, Bool.or_eq_true, beq_iff_eq, decide_eq_true_eq] at hc
      omega
    rw [usub_eq w _ _ hd (le_of_lt hlt)]
    simp only [h0, true_and, if_true]
    split_ifs with h1
    · omega
    · omega
  · simp [h0]

theorem loop_body_count (w : Nat) (cfg : Config) (env : Syscalls) (s : Scan) :
    (loop_body w cfg env s).1.count = s.count ∨
    (0 < read_count env.outcome ∧
      (loop_body w cfg env s).1.count = uadd w s.count (payload env.outcome).length) := by
  rcases loop_body_cases w cfg env s with ⟨_, he⟩ | ⟨hpos, _, he⟩ | ⟨_, he⟩
  · rw [he]
    simp
  · rw [he]
    unfold on_success
    dsimp only
    split_ifs <;> simp [hpos]
  · rw [he]
    unfold on_failure
    dsimp only
    split_ifs <;> simp

theorem reads_within_request_append (dev : Nat → Syscalls) (reqs : List (Nat × Nat))
    (q : Nat × Nat) (h : reads_within_request dev (reqs ++ [q])) :
    reads_within_request dev reqs ∧ read_count (dev reqs.length).outcome ≤ (q.1 : Int) := by
  constructor
  · intro i hi
    have := h i (by rw [List.length_append]; omega)
    rwa [List.getD_append _ _ _ _ hi] at this
  · have := h reqs.length (by simp)
    rwa [List.getD_append_right _ _ _ _ (le_refl _), Nat.sub_self, List.getD_cons_zero] at this

theorem read_count_le_length (o : ReadOutcome) (h : 0 < read_count o) :
    read_count o = ((payload o).length : Int) := by
  cases o with
  | Data bytes => rfl
  | EndOfData => simp [read_count] at h
  | Unreadable => simp [read_count] at h

/-- C4: with a byte budget `dump_size = B > 0`, and every read having returned at
most the number of bytes asked for, the count of bytes delivered is at most `B`
after any number of iterations of the loop and at the end of `dump_memory`. -/
theorem count_within_budget (w : Nat) (cfg : Config) (dev : Nat → Syscalls)
    (hfit : cfg.fits w) (hB : 0 < cfg.dump_size) (fuel : Nat)
    (hrd : reads_within_request dev (dump_memory w cfg dev fuel).1.requests) :
    (dump_memory w cfg dev fuel).1.count ≤ cfg.dump_size := by
  have key : reads_within_request dev (scan_loop w cfg dev fuel Scan.init).1.requests →
      (scan_loop w cfg dev fuel Scan.init).1.count ≤ cfg.dump_size := by
    refine scan_loop_always w cfg dev
      (fun s => reads_within_request dev s.requests → s.count ≤ cfg.dump_size) ?_ fuel
      Scan.init (fun _ => Nat.zero_le _)
    intro s hP hc hrq
    rw [loop_body_requests] at hrq
    obtain ⟨hprev, hlast⟩ := reads_within_request_append dev _ _ hrq
    have hle := hP hprev
    rcases loop_body_count w cfg (dev s.requests.length) s with h | ⟨hpos, h⟩
    · rw [h]
      exact hle
    · rw [h]
      have htodo := todo_eq w cfg s hfit.2.1 hc
      rw [if_pos hB] at htodo
      have hlt : s.count < cfg.dump_size := by
        simp only [loop_cond, Bool.or_eq_true, beq_iff_eq, decide_eq_true_eq] at hc
        omega
      rw [read_count_le_length _ hpos] at hlast
      simp only at hlast
      have hn : (payload (dev s.requests.length).outcome).length ≤ todo w cfg s := by
        exact_mod_cast hlast
      have hsum : s.count + (payload (dev s.requests.length).outcome).length ≤
          cfg.dump_size := by
        rw [htodo] at hn
        have := Nat.min_le_right cfg.buffer_size (cfg.dump_size - s.count)
        omega
      unfold uadd
      rw [Nat.mod_eq_of_lt (lt_of_le_of_lt hsum hfit.2.1)]
      exact hsum
  rw [dump_memory_eq] at hrd ⊢
  dsimp only at hrd ⊢
  split_ifs at hrd ⊢
  · exact key hrd
  · rw [after_loop_requests] at hrd
    rw [after_loop_count]
    exact key hrd

/-- A budget of six bytes and reads of four: the reads ask for 4 and 2 bytes. -/
theorem count_within_budget_witness :
    (dump_memory 64 (small_config 6 true) (device_of budget_outcomes) 5).1.requests
      = [(4, 0), (2, 4)] ∧
    (dump_memory 64 (small_config 6 true) (device_of budget_outcomes) 5).1.count ≤
      (small_config 6 true).dump_size :=
  ⟨by decide, count_within_budget 64 (small_config 6 true) (device_of budget_outcomes)
    (small_config_fits 6 true (by decide)) (by decide) 5
    (by
      have hreq : (dump_memory 64 (small_config 6 true) (device_of budget_outcomes) 5).1.requests
          = [(4, 0), (2, 4)] := by decide
      rw [hreq]
      intro i hi
      have hi2 : i < 2 := hi
      interval_cases i <;> decide)⟩

/-! ## One more iteration -/

theorem scan_loop_one (w : Nat) (cfg : Config) (dev : Nat → Syscalls) (s : Scan) :
    scan_loop w cfg dev 1 s =
      if loop_cond cfg s then loop_body w cfg (dev s.requests.length) s
      else (s, some .budget) := by
  simp only [scan_loop]
  split_ifs
  · rcases loop_body w cfg (dev s.requests.length) s with ⟨s1, o⟩
    cases o <;> rfl
  · rfl

theorem scan_loop_succ (w : Nat) (cfg : Config) (dev : Nat → Syscalls) (fuel : Nat) (s : Scan) :
    scan_loop w cfg dev (fuel + 1) s =
      if (scan_loop w cfg dev fuel s).2 = none then
        scan_loop w cfg dev 1 (scan_loop w cfg dev fuel s).1
      else scan_loop w cfg dev fuel s := by
  induction fuel generalizing s with
  | zero => simp [scan_loop]
  | succ n ih =>
    by_cases hc : loop_cond cfg s = true
    · rcases hb : loop_body w cfg (dev s.requests.length) s with ⟨s1, o⟩
      cases o with
      | none =>
        have e1 : scan_loop w cfg dev (n + 1 + 1) s = scan_loop w cfg dev (n + 1) s1 := by
          conv_lhs => unfold scan_loop
          simp only [hc, if_true, hb]
        have e2 : scan_loop w cfg dev (n + 1) s = scan_loop w cfg dev n s1 := by
          conv_lhs => unfold scan_loop
          simp only [hc, if_true, hb]
        rw [e1, e2]
        exact ih s1
      | some c =>
        have e1 : scan_loop w cfg dev (n + 1 + 1) s = (s1, some c) := by
          conv_lhs => unfold scan_loop
          simp only [hc, if_true, hb]
        have e2 : scan_loop w cfg dev (n + 1) s = (s1, some c) := by
          conv_lhs => unfold scan_loop
          simp only [hc, if_true, hb]
        rw [e1, e2]
        simp
    · have hc2 : loop_cond cfg s = false := by simpa using hc
      have e1 : scan_loop w cfg dev (n + 1 + 1) s = (s, some .budget) := by
        conv_lhs => unfold scan_loop
        simp only [hc2, Bool.false_eq_true, if_false]
      have e2 : scan_loop w cfg dev (n + 1) s = (s, some .budget) := by
        conv_lhs => unfold scan_loop
        simp only [hc2, Bool.false_eq_true, if_false]
      rw [e1, e2]
      simp

theorem scan_loop_continue (w : Nat) (cfg : Config) (dev : Nat → Syscalls) (fuel : Nat)
    (s s1 : Scan) (hc : loop_cond cfg s = true)
    (hb : loop_body w cfg (dev s.requests.length) s = (s1, none)) :
    scan_loop w cfg dev (fuel + 1) s = scan_loop w cfg dev fuel s1 := by
  conv_lhs => unfold scan_loop
  simp only [hc, if_true, hb]

theorem scan_loop_break (w : Nat) (cfg : Config) (dev : Nat → Syscalls) (fuel : Nat)
    (s s1 : Scan) (c : Stop) (hc : loop_cond cfg s = true)
    (hb : loop_body w cfg (dev s.requests.length) s = (s1, some c)) :
    scan_loop w cfg dev (fuel + 1) s = (s1, some c) := by
  conv_lhs => unfold scan_loop
  simp only [hc, if_true, hb]

theorem scan_loop_budget (w : Nat) (cfg : Config) (dev : Nat → Syscalls) (fuel : Nat)
    (s : Scan) (hc : loop_cond cfg s = false) :
    scan_loop w cfg dev (fuel + 1) s = (s, some .budget) := by
  conv_lhs => unfold scan_loop
  simp only [hc, Bool.false_eq_true, if_false]

/-- A successful read that is written in full and does not reach `2 ^ w`: the
loop goes on, with `where` and `count` advanced by the number of bytes read. -/
theorem loop_body_data_continue (w : Nat) (cfg : Config) (env : Syscalls) (s : Scan)
    (bytes : List Nat) (ho : env.outcome = .Data bytes) (hpos : 0 < bytes.length)
    (hwr : env.write_ret = (bytes.length : Int)) (hlt : s.where_ + bytes.length < 2 ^ w) :
    (loop_body w cfg env s).2 = none ∧
    (loop_body w cfg env s).1.where_ = s.where_ + bytes.length ∧
    (loop_body w cfg env s).1.count = uadd w s.count bytes.length ∧
    (loop_body w cfg env s).1.requests = s.requests ++ [(todo w cfg s, s.where_)] := by
  have hne : bytes ≠ [] := List.length_pos.1 hpos
  have he : loop_body w cfg env s = on_success w cfg env bytes (issue_read w cfg s) := by
    rw [loop_body_eq, ho]
    simp [hne]
  obtain ⟨hreq, -, -, -, -, hcase⟩ := on_success_spec w cfg env bytes (issue_read w cfg s)
    (by simp only [issue_read_where]; omega) (by omega)
  rw [he]
  simp only [issue_read_where, issue_read_count, issue_read_requests] at hreq hcase
  rcases hcase with ⟨h1, -⟩ | ⟨-, h1, -⟩ | ⟨-, -, h2, h3, h4⟩
  · exact absurd hwr h1
  · omega
  · exact ⟨h2, h3, h4, hreq⟩

/-- C7: at every iteration of the loop the read asks for
`min(buffer_size, dump_size - count)` bytes when `dump_size > 0` and for
`buffer_size` bytes when `dump_size = 0`, at address `where`. In particular with
`dump_size = 5000` and `buffer_size = 4096`, when the first read returns 4096
bytes and the second 904, the requests are 4096 bytes at 0 and 904 bytes at 4096,
and the loop is left on the budget with no third read, however long it is
allowed to run. -/
theorem todo_requests (w : Nat) (cfg : Config) (dev : Nat → Syscalls) (hfit : cfg.fits w) :
    (∀ fuel, (scan_loop w cfg dev fuel Scan.init).2 = none →
      loop_cond cfg (scan_loop w cfg dev fuel Scan.init).1 = true →
      (scan_loop w cfg dev (fuel + 1) Scan.init).1.requests =
        (scan_loop w cfg dev fuel Scan.init).1.requests ++
          [((if 0 < cfg.dump_size then
              min cfg.buffer_size (cfg.dump_size - (scan_loop w cfg dev fuel Scan.init).1.count)
             else cfg.buffer_size),
            (scan_loop w cfg dev fuel Scan.init).1.where_)]) ∧
    (cfg.dump_size = 5000 → cfg.buffer_size = 4096 →
      ∀ b0 b1, (dev 0).outcome = .Data b0 → b0.length = 4096 → (dev 0).write_ret = 4096 →
        (dev 1).outcome = .Data b1 → b1.length = 904 → (dev 1).write_ret = 904 →
        ∀ fuel, 3 ≤ fuel →
          (dump_memory w cfg dev fuel).1.requests = [(4096, 0), (904, 4096)] ∧
          (dump_memory w cfg dev fuel).2 = some .budget ∧
          (dump_memory w cfg dev fuel).1.count = 5000) := by
  constructor
  · intro fuel hrun hc
    rw [scan_loop_succ, if_pos hrun, scan_loop_one, if_pos hc, loop_body_requests,
      todo_eq w cfg _ hfit.2.1 hc]
  · intro hd hbuf b0 b1 ho0 hl0 hw0 ho1 hl1 hw1 fuel3 hfuel
    obtain ⟨fuel, rfl⟩ : ∃ k, fuel3 = k + 3 := ⟨fuel3 - 3, by omega⟩
    have h2w : 5000 < 2 ^ w := hd ▸ hfit.2.1
    -- first iteration
    have hc0 : loop_cond cfg Scan.init = true := by
      simp [loop_cond, Scan.init, hd]
    obtain ⟨hn0, hwh0, hct0, hrq0⟩ := loop_body_data_continue w cfg (dev 0) Scan.init b0 ho0
      (by omega) (by rw [hw0, hl0]; rfl) (by simp only [Scan.init]; omega)
    have ht0 : todo w cfg Scan.init = 4096 := by
      rw [todo_eq w cfg _ hfit.2.1 hc0, hd, hbuf]
      simp [Scan.init]
    rcases hb0 : loop_body w cfg (dev 0) Scan.init with ⟨s1, o1⟩
    rw [hb0] at hn0 hwh0 hct0 hrq0
    simp only at hn0 hwh0 hct0 hrq0
    subst hn0
    have hwh1 : s1.where_ = 4096 := by rw [hwh0, hl0]; rfl
    have hct1 : s1.count = 4096 := by
      rw [hct0, hl0]
      simp only [uadd, Scan.init]
      exact Nat.mod_eq_of_lt (by omega)
    have hrq1 : s1.requests = [(4096, 0)] := by
      rw [hrq0, ht0]; rfl
    have hlen1 : s1.requests.length = 1 := by rw [hrq1]; rfl
    -- second iteration
    have hc1 : loop_cond cfg s1 = true := by
      simp [loop_cond, hct1, hd]
    obtain ⟨hn1, hwh2, hct2, hrq2⟩ := loop_body_data_continue w cfg (dev 1) s1 b1 ho1
      (by omega) (by rw [hw1, hl1]; rfl) (by omega)
    have ht1 : todo w cfg s1 = 904 := by
      rw [todo_eq w cfg _ hfit.2.1 hc1, hd, hbuf, hct1]
      simp
    rcases hb1 : loop_body w cfg (dev 1) s1 with ⟨s2, o2⟩
    rw [hb1] at hn1 hwh2 hct2 hrq2
    simp only at hn1 hwh2 hct2 hrq2
    subst hn1
    have hct3 : s2.count = 5000 := by
      rw [hct2, hl1, hct1]
      simp only [uadd]
      exact Nat.mod_eq_of_lt (by omega)
    have hrq3 : s2.requests = [(4096, 0), (904, 4096)] := by
      rw [hrq2, ht1, hrq1, hwh1]; rfl
    have hc2 : loop_cond cfg s2 = false := by
      simp [loop_cond, hct3, hd]
    have hrun : scan_loop w cfg dev (fuel + 3) Scan.init = (s2, some .budget) := by
      rw [scan_loop_continue w cfg dev (fuel + 2) Scan.init s1 hc0 hb0,
        scan_loop_continue w cfg dev (fuel + 1) s1 s2 hc1 (by rw [hlen1]; exact hb1),
        scan_loop_budget w cfg dev fuel s2 hc2]
    rw [dump_memory_eq, hrun]
    simp [hrq3, hct3]

theorem page_config_fits (d : Nat) (m : Bool) (h : d < 2 ^ 64) : (page_config d m).fits 64 :=
  ⟨show 4096 < 2 ^ 64 by decide, h, show 4096 < 2 ^ 64 by decide⟩

theorem page_length (b : Nat) : (page b).length = 4096 :=
  List.length_replicate 4096 b

theorem scenario_c_first_write : (device_of scenario_c 0).write_ret = 4096 := by
  show ((page 7).length : Int) = 4096
  rw [page_length]
  rfl

theorem scenario_c_second_write : (device_of scenario_c 1).write_ret = 904 := by
  show ((List.replicate 904 9).length : Int) = 904
  rw [List.length_replicate]
  rfl

/-- Scenario C: budget 5000, reads of 4096 bytes. -/
theorem todo_requests_witness :
    (page_config 5000 true).fits 64 ∧
    (dump_memory 64 (page_config 5000 true) (device_of scenario_c) 3).1.requests
      = [(4096, 0), (904, 4096)] ∧
    (dump_memory 64 (page_config 5000 true) (device_of scenario_c) 3).2 = some .budget ∧
    (dump_memory 64 (page_config 5000 true) (device_of scenario_c) 3).1.count = 5000 :=
  ⟨page_config_fits 5000 true (by decide),
    (todo_requests 64 (page_config 5000 true) (device_of scenario_c)
      (page_config_fits 5000 true (by decide))).2 rfl rfl (page 7) (List.replicate 904 9)
      rfl (page_length 7) scenario_c_first_write
      rfl (List.length_replicate 904 9) scenario_c_second_write 3 (le_refl 3)⟩

/-! ## The address counter -/

/-- What one execution of the loop body does to `where` and to the fate of the
loop, by the kind of outcome. -/
theorem loop_body_where (w : Nat) (cfg : Config) (env : Syscalls) (s : Scan)
    (hw : s.where_ < 2 ^ w) (hp : cfg.page_size < 2 ^ w)
    (hn : (payload env.outcome).length < 2 ^ w) :
    (read_count env.outcome = 0 ∧ (loop_body w cfg env s).2 = some .eof ∧
      (loop_body w cfg env s).1.where_ = s.where_) ∨
    (0 < read_count env.outcome ∧ env.write_ret ≠ ((payload env.outcome).length : Int) ∧
      (loop_body w cfg env s).2 = some .write_error ∧
      (loop_body w cfg env s).1.where_ = s.where_) ∨
    (0 < read_count env.outcome ∧ env.write_ret = ((payload env.outcome).length : Int) ∧
      2 ^ w ≤ s.where_ + (payload env.outcome).length ∧
      (loop_body w cfg env s).2 = some .wraparound ∧
      (loop_body w cfg env s).1.where_ = s.where_) ∨
    (0 < read_count env.outcome ∧ env.write_ret = ((payload env.outcome).length : Int) ∧
      s.where_ + (payload env.outcome).length < 2 ^ w ∧
      (loop_body w cfg env s).2 = none ∧
      (loop_body w cfg env s).1.where_ = s.where_ + (payload env.outcome).length) ∨
    (read_count env.outcome < 0 ∧ 2 ^ w ≤ s.where_ + cfg.page_size ∧
      (loop_body w cfg env s).2 = some .wraparound ∧
      (loop_body w cfg env s).1.where_ = s.where_) ∨
    (read_count env.outcome < 0 ∧ s.where_ + cfg.page_size < 2 ^ w ∧ env.lseek_ret < 0 ∧
      (loop_body w cfg env s).2 = some .lseek_error ∧
      (loop_body w cfg env s).1.where_ = s.where_) ∨
    (read_count env.outcome < 0 ∧ s.where_ + cfg.page_size < 2 ^ w ∧ 0 ≤ env.lseek_ret ∧
      (loop_body w cfg env s).2 = none ∧
      (loop_body w cfg env s).1.where_ = s.where_ + cfg.page_size) := by
  rcases loop_body_cases w cfg env s with ⟨hrc, he⟩ | ⟨hpos, _, he⟩ | ⟨hneg, he⟩
  · left
    rw [he]
    exact ⟨hrc, rfl, by simp⟩
  · right
    obtain ⟨-, -, -, -, -, hcase⟩ := on_success_spec w cfg env (payload env.outcome)
      (issue_read w cfg s) (by simpa using hw) hn
    rw [he]
    simp only [issue_read_where] at hcase
    rcases hcase with ⟨h1, h2, h3, -⟩ | ⟨h1, h2, h3, h4, -⟩ | ⟨h1, h2, h3, h4, -⟩
    · exact Or.inl ⟨hpos, h1, h2, h3⟩
    · exact Or.inr (Or.inl ⟨hpos, h1, h2, h3, h4⟩)
    · exact Or.inr (Or.inr (Or.inl ⟨hpos, h1, h2, h3, h4⟩))
  · right; right; right; right
    obtain ⟨-, -, -, -, -, -, hcase⟩ := on_failure_spec w cfg env (issue_read w cfg s)
      (by simpa using hw) hp
    rw [he]
    simp only [issue_read_where] at hcase
    rcases hcase with ⟨h1, h2, h3⟩ | ⟨h1, h2, h3, h4⟩ | ⟨h1, h2, h3, h4⟩
    · exact Or.inl ⟨hneg, h1, h2, h3⟩
    · exact Or.inr (Or.inl ⟨hneg, h1, h2, h3, h4⟩)
    · exact Or.inr (Or.inr ⟨hneg, h1, h2, h3, h4⟩)

/-- C5: from any loop state with `where < 2 ^ w` at which the loop condition holds:
if the read returns `n > 0` bytes and `where + n ≥ 2 ^ w`, or the read fails and
`where + page_size ≥ 2 ^ w`, then the loop is left in this iteration (on the
wraparound `break`; on the fatal write error if the write of the `n` bytes was
short), `where` keeps the value it had, and exactly one read has been issued, no
matter how many more iterations are allowed. If the sum is below `2 ^ w` the
iteration does not take the wraparound `break`. -/
theorem wraparound_stops (w : Nat) (cfg : Config) (dev : Nat → Syscalls) (s : Scan) (fuel : Nat)
    (hw : s.where_ < 2 ^ w) (hp : cfg.page_size < 2 ^ w)
    (hn : (payload (dev s.requests.length).outcome).length < 2 ^ (w - 1))
    (hc : loop_cond cfg s = true) :
    (0 < read_count (dev s.requests.length).outcome →
      2 ^ w ≤ s.where_ + (payload (dev s.requests.length).outcome).length →
      (scan_loop w cfg dev (fuel + 1) s).2 =
        some (if (dev s.requests.length).write_ret =
            ((payload (dev s.requests.length).outcome).length : Int)
          then Stop.wraparound else Stop.write_error) ∧
      (scan_loop w cfg dev (fuel + 1) s).1.where_ = s.where_ ∧
      (scan_loop w cfg dev (fuel + 1) s).1.requests.length = s.requests.length + 1) ∧
    (read_count (dev s.requests.length).outcome < 0 →
      2 ^ w ≤ s.where_ + cfg.page_size →
      (scan_loop w cfg dev (fuel + 1) s).2 = some .wraparound ∧
      (scan_loop w cfg dev (fuel + 1) s).1.where_ = s.where_ ∧
      (scan_loop w cfg dev (fuel + 1) s).1.requests.length = s.requests.length + 1) ∧
    (0 < read_count (dev s.requests.length).outcome →
      s.where_ + (payload (dev s.requests.length).outcome).length < 2 ^ w →
      (loop_body w cfg (dev s.requests.length) s).2 ≠ some .wraparound) ∧
    (read_count (dev s.requests.length).outcome < 0 →
      s.where_ + cfg.page_size < 2 ^ w →
      (loop_body w cfg (dev s.requests.length) s).2 ≠ some .wraparound) := by
  have hn2 : (payload (dev s.requests.length).outcome).length < 2 ^ w :=
    lt_of_lt_of_le hn (two_pow_pred_le w)
  have hcases := loop_body_where w cfg (dev s.requests.length) s hw hp hn2
  have hreq := loop_body_requests w cfg (dev s.requests.length) s
  have hstop : ∀ c, (loop_body w cfg (dev s.requests.length) s).2 = some c →
      scan_loop w cfg dev (fuel + 1) s = ((loop_body w cfg (dev s.requests.length) s).1, some c) := by
    intro c hc2
    exact scan_loop_break w cfg dev fuel s _ c hc (Prod.ext rfl hc2)
  refine ⟨?_, ?_, ?_, ?_⟩
  · intro hpos hge
    rcases hcases with h | h | h | h | h | h | h
    · omega
    · obtain ⟨-, h1, h2, h3⟩ := h
      rw [hstop _ h2]
      simp [h1, h3, hreq]
    · obtain ⟨-, h1, -, h2, h3⟩ := h
      rw [hstop _ h2]
      simp [h1, h3, hreq]
    · omega
    · omega
    · omega
    · omega
  · intro hneg hge
    rcases hcases with h | h | h | h | h | h | h
    · omega
    · omega
    · omega
    · omega
    · obtain ⟨-, -, h2, h3⟩ := h
      rw [hstop _ h2]
      simp [h3, hreq]
    · omega
    · omega
  · intro hpos hlt
    rcases hcases with h | h | h | h | h | h | h
    · omega
    · rw [h.2.2.1]; simp
    · omega
    · rw [h.2.2.2.1]; simp
    · omega
    · omega
    · omega
  · intro hneg hlt
    rcases hcases with h | h | h | h | h | h | h
    · omega
    · omega
    · omega
    · omega
    · omega
    · rw [h.2.2.2.1]; simp
    · rw [h.2.2.2.1]; simp

/-- Sixteen bytes read at `2 ^ 32 - 16`: the sum is `2 ^ 32`, the loop is left. -/
theorem wraparound_stops_witness :
    (scan_loop 32 wrap_config (device_of wrap_outcomes) (2 + 1) near_top).2 =
      some (if (device_of wrap_outcomes near_top.requests.length).write_ret =
          ((payload (device_of wrap_outcomes near_top.requests.length).outcome).length : Int)
        then Stop.wraparound else Stop.write_error) ∧
    (scan_loop 32 wrap_config (device_of wrap_outcomes) (2 + 1) near_top).1.where_ =
      near_top.where_ ∧
    (scan_loop 32 wrap_config (device_of wrap_outcomes) (2 + 1) near_top).1.requests.length =
      near_top.requests.length + 1 :=
  (wraparound_stops 32 wrap_config (device_of wrap_outcomes) near_top 2 (by decide)
    (by decide) (by decide) (by decide)).1 (by decide) (by decide)

theorem dump_memory_where (w : Nat) (cfg : Config) (dev : Nat → Syscalls) (fuel : Nat) :
    (dump_memory w cfg dev fuel).1.where_ = (scan_loop w cfg dev fuel Scan.init).1.where_ := by
  rw [dump_memory_eq]
  dsimp only
  split_ifs <;> simp

theorem scan_loop_where_lt (w : Nat) (cfg : Config) (dev : Nat → Syscalls)
    (hfit : cfg.fits w) (hreads : reads_fit w dev) (fuel : Nat) :
    (scan_loop w cfg dev fuel Scan.init).1.where_ < 2 ^ w := by
  refine scan_loop_always w cfg dev (fun s => s.where_ < 2 ^ w) ?_ fuel Scan.init
    (Nat.two_pow_pos w)
  intro s hw _
  have hn := lt_of_lt_of_le (hreads s.requests.length) (two_pow_pred_le w)
  rcases loop_body_where w cfg (dev s.requests.length) s hw hfit.2.2 hn with
    h | h | h | h | h | h | h
  · rw [h.2.2]; exact hw
  · rw [h.2.2.2]; exact hw
  · rw [h.2.2.2.2]; exact hw
  · rw [h.2.2.2.2]; exact h.2.2.1
  · rw [h.2.2.2]; exact hw
  · rw [h.2.2.2.2]; exact hw
  · rw [h.2.2.2.2]; exact h.2.1

/-- One more iteration leaves `where` as it was or adds to it, exactly, the
number of bytes read or the page size. -/
theorem scan_loop_where_succ (w : Nat) (cfg : Config) (dev : Nat → Syscalls)
    (hfit : cfg.fits w) (hreads : reads_fit w dev) (fuel : Nat) :
    (scan_loop w cfg dev (fuel + 1) Scan.init).1.where_ =
        (scan_loop w cfg dev fuel Scan.init).1.where_ ∨
    (scan_loop w cfg dev (fuel + 1) Scan.init).1.where_ =
        (scan_loop w cfg dev fuel Scan.init).1.where_ +
          (payload (dev (scan_loop w cfg dev fuel Scan.init).1.requests.length).outcome).length ∨
    (scan_loop w cfg dev (fuel + 1) Scan.init).1.where_ =
        (scan_loop w cfg dev fuel Scan.init).1.where_ + cfg.page_size := by
  have hw := scan_loop_where_lt w cfg dev hfit hreads fuel
  rw [scan_loop_succ]
  split_ifs with hrun
  · rw [scan_loop_one]
    split_ifs with hc
    · have hn := lt_of_lt_of_le
        (hreads (scan_loop w cfg dev fuel Scan.init).1.requests.length) (two_pow_pred_le w)
      rcases loop_body_where w cfg _ _ hw hfit.2.2 hn with h | h | h | h | h | h | h
      · exact Or.inl h.2.2
      · exact Or.inl h.2.2.2
      · exact Or.inl h.2.2.2.2
      · exact Or.inr (Or.inl h.2.2.2.2)
      · exact Or.inl h.2.2.2
      · exact Or.inl h.2.2.2.2
      · exact Or.inr (Or.inr h.2.2.2.2)
    · exact Or.inl rfl
  · exact Or.inl rfl

/-- C9: `where` starts at 0 and never decreases: its value after more iterations
is at least its value after fewer, as natural numbers below `2 ^ w`; each
iteration leaves it unchanged or adds to it, without reduction modulo `2 ^ w`,
the number of bytes read or the page size. -/
theorem where_monotone (w : Nat) (cfg : Config) (dev : Nat → Syscalls)
    (hfit : cfg.fits w) (hreads : reads_fit w dev) :
    (dump_memory w cfg dev 0).1.where_ = 0 ∧
    (∀ f1 f2, f1 ≤ f2 →
      (dump_memory w cfg dev f1).1.where_ ≤ (dump_memory w cfg dev f2).1.where_) ∧
    (∀ f, (dump_memory w cfg dev f).1.where_ < 2 ^ w) ∧
    (∀ f, (dump_memory w cfg dev (f + 1)).1.where_ = (dump_memory w cfg dev f).1.where_ ∨
      (dump_memory w cfg dev (f + 1)).1.where_ = (dump_memory w cfg dev f).1.where_ +
        (payload (dev (dump_memory w cfg dev f).1.requests.length).outcome).length ∨
      (dump_memory w cfg dev (f + 1)).1.where_ =
        (dump_memory w cfg dev f).1.where_ + cfg.page_size) := by
  have hreqs : ∀ f, (dump_memory w cfg dev f).1.requests =
      (scan_loop w cfg dev f Scan.init).1.requests := by
    intro f
    rw [dump_memory_eq]
    dsimp only
    split_ifs <;> simp
  have hstep : ∀ f, (scan_loop w cfg dev f Scan.init).1.where_ ≤
      (scan_loop w cfg dev (f + 1) Scan.init).1.where_ := by
    intro f
    rcases scan_loop_where_succ w cfg dev hfit hreads f with h | h | h <;> omega
  refine ⟨rfl, ?_, ?_, ?_⟩
  · intro f1 f2 hle
    rw [dump_memory_where, dump_memory_where]
    induction f2 with
    | zero =>
      have : f1 = 0 := by omega
      rw [this]
    | succ n ih =>
      by_cases h : f1 = n + 1
      · rw [h]
      · exact le_trans (ih (by omega)) (hstep n)
  · intro f
    rw [dump_memory_where]
    exact scan_loop_where_lt w cfg dev hfit hreads f
  · intro f
    rw [dump_memory_where, dump_memory_where, hreqs]
    exact scan_loop_where_succ w cfg dev hfit hreads f

/-- Scenario B at a small scale: `where` goes 0, 4, 8, 12. -/
theorem where_monotone_witness :
    (dump_memory 64 (small_config 0 true) (device_of small_outcomes) 3).1.where_ = 12 ∧
    (dump_memory 64 (small_config 0 true) (device_of small_outcomes) 1).1.where_ ≤
      (dump_memory 64 (small_config 0 true) (device_of small_outcomes) 3).1.where_ :=
  ⟨by decide, (where_monotone 64 (small_config 0 true) (device_of small_outcomes)
    (small_config_fits 0 true (by decide)) small_outcomes_fit).2.1 1 3 (by decide)⟩

/-! ## The loop is left -/

/-- With a positive page size every iteration that does not leave the loop
advances `where`, so while the loop runs `where` is at least the number of
iterations made. -/
theorem scan_loop_running_le (w : Nat) (cfg : Config) (dev : Nat → Syscalls)
    (hfit : cfg.fits w) (hreads : reads_fit w dev) (hpage : 0 < cfg.page_size) (fuel : Nat)
    (hrun : (scan_loop w cfg dev fuel Scan.init).2 = none) :
    fuel ≤ (scan_loop w cfg dev fuel Scan.init).1.where_ := by
  induction fuel with
  | zero => exact Nat.zero_le _
  | succ n ih =>
    rw [scan_loop_succ] at hrun ⊢
    by_cases hprev : (scan_loop w cfg dev n Scan.init).2 = none
    · rw [if_pos hprev] at hrun ⊢
      have hle := ih hprev
      have hw := scan_loop_where_lt w cfg dev hfit hreads n
      rw [scan_loop_one] at hrun ⊢
      by_cases hc : loop_cond cfg (scan_loop w cfg dev n Scan.init).1 = true
      · rw [if_pos hc] at hrun ⊢
        have hn := lt_of_lt_of_le
          (hreads (scan_loop w cfg dev n Scan.init).1.requests.length) (two_pow_pred_le w)
        rcases loop_body_where w cfg _ _ hw hfit.2.2 hn with h | h | h | h | h | h | h
        · rw [h.2.1] at hrun; simp at hrun
        · rw [h.2.2.1] at hrun; simp at hrun
        · rw [h.2.2.2.1] at hrun; simp at hrun
        · have hpos := h.1
          rw [read_count_le_length _ hpos] at hpos
          have hpos2 : 0 < (payload (dev
              (scan_loop w cfg dev n Scan.init).1.requests.length).outcome).length := by
            exact_mod_cast hpos
          rw [h.2.2.2.2]
          omega
        · rw [h.2.2.1] at hrun; simp at hrun
        · rw [h.2.2.2.1] at hrun; simp at hrun
        · rw [h.2.2.2.2]
          omega
      · rw [if_neg hc] at hrun
        simp at hrun
    · rw [if_neg hprev] at hrun
      exact absurd hrun hprev

/-- With a positive page size the loop is left within `2 ^ w` iterations. -/
theorem scan_loop_stops (w : Nat) (cfg : Config) (dev : Nat → Syscalls)
    (hfit : cfg.fits w) (hreads : reads_fit w dev) (hpage : 0 < cfg.page_size) (fuel : Nat)
    (hfuel : 2 ^ w ≤ fuel) :
    (scan_loop w cfg dev fuel Scan.init).2 ≠ none := by
  intro hrun
  have h1 := scan_loop_running_le w cfg dev hfit hreads hpage fuel hrun
  have h2 := scan_loop_where_lt w cfg dev hfit hreads fuel
  omega

/-- Once the loop has been left, more fuel changes nothing. -/
theorem scan_loop_stable (w : Nat) (cfg : Config) (dev : Nat → Syscalls) (s : Scan)
    (f1 f2 : Nat) (hle : f1 ≤ f2) (hstop : (scan_loop w cfg dev f1 s).2 ≠ none) :
    scan_loop w cfg dev f2 s = scan_loop w cfg dev f1 s := by
  induction f2 with
  | zero =>
    have : f1 = 0 := by omega
    rw [this]
  | succ n ih =>
    by_cases h : f1 = n + 1
    · rw [h]
    · have hprev := ih (by omega)
      rw [scan_loop_succ, hprev, if_neg hstop]

/-! ## Single iterations in closed form, for a quiet run -/

theorem loop_body_data_quiet (w : Nat) (cfg : Config) (env : Syscalls) (s : Scan)
    (bytes : List Nat) (ho : env.outcome = .Data bytes) (hpos : 0 < bytes.length)
    (hwr : env.write_ret = (bytes.length : Int)) (hv : cfg.verbose ≤ 1)
    (hlt : s.where_ + bytes.length < 2 ^ w) (hct : s.count + bytes.length < 2 ^ w) :
    loop_body w cfg env s =
      ({ start := if s.in_region then s.start else if cfg.map then s.where_ else s.start,
         where_ := s.where_ + bytes.length,
         count := s.count + bytes.length,
         in_region := true,
         sink := s.sink ++ bytes,
         map_out := s.map_out,
         log := s.log,
         requests := s.requests ++ [(todo w cfg s, s.where_)] }, none) := by
  have hne : bytes ≠ [] := List.length_pos.1 hpos
  have hw1 : uadd w s.where_ bytes.length = s.where_ + bytes.length := Nat.mod_eq_of_lt hlt
  have hc1 : uadd w s.count bytes.length = s.count + bytes.length := Nat.mod_eq_of_lt hct
  have hv2 : ¬ (1 < cfg.verbose) := by omega
  rw [loop_body_eq, ho]
  obtain ⟨st, wh, ct, ir, sk, mo, lg, rq⟩ := s
  simp only at hw1 hc1
  cases ir <;> cases hm : cfg.map <;>
    simp [hne, on_success, issue_read, ENTER_REGION, hwr, hw1, hc1, hv2, hm]

theorem loop_body_unreadable_quiet (w : Nat) (cfg : Config) (env : Syscalls) (s : Scan)
    (ho : env.outcome = .Unreadable) (hl : 0 ≤ env.lseek_ret) (hv : cfg.verbose ≤ 1)
    (hlt : s.where_ + cfg.page_size < 2 ^ w) :
    loop_body w cfg env s =
      ({ start := s.start,
         where_ := s.where_ + cfg.page_size,
         count := s.count,
         in_region := false,
         sink := s.sink,
         map_out := if s.in_region ∧ cfg.map then s.map_out ++ [(s.start, s.where_)]
           else s.map_out,
         log := s.log,
         requests := s.requests ++ [(todo w cfg s, s.where_)] }, none) := by
  have hw1 : uadd w s.where_ cfg.page_size = s.where_ + cfg.page_size := Nat.mod_eq_of_lt hlt
  have hv2 : ¬ (1 < cfg.verbose) := by omega
  have hl2 : ¬ (env.lseek_ret < 0) := by omega
  rw [loop_body_eq, ho]
  obtain ⟨st, wh, ct, ir, sk, mo, lg, rq⟩ := s
  simp only at hw1
  cases ir <;> cases hm : cfg.map <;>
    simp [on_failure, issue_read, LEAVE_REGION, hw1, hv2, hl2, hm]

theorem loop_body_eof_quiet (w : Nat) (cfg : Config) (env : Syscalls) (s : Scan)
    (ho : env.outcome = .EndOfData) (hv : cfg.verbose = 0) :
    loop_body w cfg env s =
      ({ s with requests := s.requests ++ [(todo w cfg s, s.where_)] }, some .eof) := by
  rw [loop_body_eq, ho]
  simp [eof_state, hv, issue_read]

/-! ## Scenarios A and B at full scale -/

theorem loop_cond_unbounded (cfg : Config) (s : Scan) (h : cfg.dump_size = 0) :
    loop_cond cfg s = true := by
  simp [loop_cond, h]

theorem todo_unbounded (w : Nat) (cfg : Config) (s : Scan) (h : cfg.dump_size = 0) :
    todo w cfg s = cfg.buffer_size := by
  simp [todo, h]

/-- Scenario A: 4096 bytes on the sink, the map line `0x0 0x1000`. -/
theorem scenario_a_run :
    dump_memory 64 (page_config 0 true) (device_of scenario_a) 5 =
      ({ start := 0, where_ := 4096, count := 4096, in_region := false,
         sink := page 7, map_out := [(0, 4096)], log := [],
         requests := [(4096, 0), (4096, 4096)] }, some .eof) := by
  have hpl : ∀ b, (page b).length = 4096 := page_length
  have hc : ∀ s, loop_cond (page_config 0 true) s = true :=
    fun s => loop_cond_unbounded (page_config 0 true) s rfl
  have e1 : loop_body 64 (page_config 0 true) (device_of scenario_a 0) Scan.init =
      ({ start := 0, where_ := 4096, count := 4096, in_region := true, sink := page 7,
         map_out := [], log := [], requests := [(4096, 0)] }, none) := by
    rw [loop_body_data_quiet 64 _ _ _ (page 7) rfl (by rw [hpl]; decide)
      (by show ((page 7).length : Int) = _; rfl) (by decide) (by rw [hpl]; decide)
      (by rw [hpl]; decide), todo_unbounded _ _ _ rfl, hpl]
    rfl
  have e2 : loop_body 64 (page_config 0 true) (device_of scenario_a 1)
      { start := 0, where_ := 4096, count := 4096, in_region := true, sink := page 7,
        map_out := [], log := [], requests := [(4096, 0)] } =
      ({ start := 0, where_ := 4096, count := 4096, in_region := true, sink := page 7,
         map_out := [], log := [], requests := [(4096, 0), (4096, 4096)] }, some .eof) := by
    rw [loop_body_eof_quiet 64 _ _ _ rfl rfl, todo_unbounded _ _ _ rfl]
    rfl
  have hrun : scan_loop 64 (page_config 0 true) (device_of scenario_a) 5 Scan.init =
      ({ start := 0, where_ := 4096, count := 4096, in_region := true, sink := page 7,
         map_out := [], log := [], requests := [(4096, 0), (4096, 4096)] }, some .eof) := by
    rw [scan_loop_continue 64 (page_config 0 true) (device_of scenario_a) 4 Scan.init _
        (hc _) e1,
      scan_loop_break 64 (page_config 0 true) (device_of scenario_a) 3
        { start := 0, where_ := 4096, count := 4096, in_region := true, sink := page 7,
          map_out := [], log := [], requests := [(4096, 0)] } _ _ (hc _) e2]
  unfold dump_memory
  rw [hrun]
  rfl

/-- Scenario B: 8192 bytes delivered, the map lines `0x0 0x1000` and
`0x2000 0x3000`. -/
theorem scenario_b_run :
    dump_memory 64 (page_config 0 true) (device_of scenario_b) 5 =
      ({ start := 8192, where_ := 12288, count := 8192, in_region := false,
         sink := page 7 ++ page 9, map_out := [(0, 4096), (8192, 12288)], log := [],
         requests := [(4096, 0), (4096, 4096), (4096, 8192), (4096, 12288)] }, some .eof) := by
  have hpl : ∀ b, (page b).length = 4096 := page_length
  have hc : ∀ s, loop_cond (page_config 0 true) s = true :=
    fun s => loop_cond_unbounded (page_config 0 true) s rfl
  have e1 : loop_body 64 (page_config 0 true) (device_of scenario_b 0) Scan.init =
      ({ start := 0, where_ := 4096, count := 4096, in_region := true, sink := page 7,
         map_out := [], log := [], requests := [(4096, 0)] }, none) := by
    rw [loop_body_data_quiet 64 _ _ _ (page 7) rfl (by rw [hpl]; decide)
      (by show ((page 7).length : Int) = _; rfl) (by decide) (by rw [hpl]; decide)
      (by rw [hpl]; decide), todo_unbounded _ _ _ rfl, hpl]
    rfl
  have e2 : loop_body 64 (page_config 0 true) (device_of scenario_b 1)
      { start := 0, where_ := 4096, count := 4096, in_region := true, sink := page 7,
        map_out := [], log := [], requests := [(4096, 0)] } =
      ({ start := 0, where_ := 8192, count := 4096, in_region := false, sink := page 7,
         map_out := [(0, 4096)], log := [], requests := [(4096, 0), (4096, 4096)] }, none) := by
    rw [loop_body_unreadable_quiet 64 _ _ _ rfl (by decide) (by decide) (by decide),
      todo_unbounded _ _ _ rfl]
    rfl
  have e3 : loop_body 64 (page_config 0 true) (device_of scenario_b 2)
      { start := 0, where_ := 8192, count := 4096, in_region := false, sink := page 7,
        map_out := [(0, 4096)], log := [], requests := [(4096, 0), (4096, 4096)] } =
      ({ start := 8192, where_ := 12288, count := 8192, in_region := true,
         sink := page 7 ++ page 9, map_out := [(0, 4096)], log := [],
         requests := [(4096, 0), (4096, 4096), (4096, 8192)] }, none) := by
    rw [loop_body_data_quiet 64 _ _ _ (page 9) rfl (by rw [hpl]; decide)
      (by show ((page 9).length : Int) = _; rfl) (by decide) (by rw [hpl]; decide)
      (by rw [hpl]; decide), todo_unbounded _ _ _ rfl, hpl]
    rfl
  have e4 : loop_body 64 (page_config 0 true) (device_of scenario_b 3)
      { start := 8192, where_ := 12288, count := 8192, in_region := true,
        sink := page 7 ++ page 9, map_out := [(0, 4096)], log := [],
        requests := [(4096, 0), (4096, 4096), (4096, 8192)] } =
      ({ start := 8192, where_ := 12288, count := 8192, in_region := true,
         sink := page 7 ++ page 9, map_out := [(0, 4096)], log := [],
         requests := [(4096, 0), (4096, 4096), (4096, 8192), (4096, 12288)] },
        some .eof) := by
    rw [loop_body_eof_quiet 64 _ _ _ rfl rfl, todo_unbounded _ _ _ rfl]
    rfl
  have hrun : scan_loop 64 (page_config 0 true) (device_of scenario_b) 5 Scan.init =
      ({ start := 8192, where_ := 12288, count := 8192, in_region := true,
         sink := page 7 ++ page 9, map_out := [(0, 4096)], log := [],
         requests := [(4096, 0), (4096, 4096), (4096, 8192), (4096, 12288)] },
        some .eof) := by
    rw [scan_loop_continue 64 (page_config 0 true) (device_of scenario_b) 4 Scan.init _
        (hc _) e1,
      scan_loop_continue 64 (page_config 0 true) (device_of scenario_b) 3
        { start := 0, where_ := 4096, count := 4096, in_region := true, sink := page 7,
          map_out := [], log := [], requests := [(4096, 0)] } _ (hc _) e2,
      scan_loop_continue 64 (page_config 0 true) (device_of scenario_b) 2
        { start := 0, where_ := 8192, count := 4096, in_region := false, sink := page 7,
          map_out := [(0, 4096)], log := [], requests := [(4096, 0), (4096, 4096)] } _
        (hc _) e3,
      scan_loop_break 64 (page_config 0 true) (device_of scenario_b) 1
        { start := 8192, where_ := 12288, count := 8192, in_region := true,
          sink := page 7 ++ page 9, map_out := [(0, 4096)], log := [],
          requests := [(4096, 0), (4096, 4096), (4096, 8192)] } _ _ (hc _) e4]
  unfold dump_memory
  rw [hrun]
  rfl

theorem scenario_b_fit : reads_fit 64 (device_of scenario_b) :=
  device_of_reads_fit 64 _ (by simp [scenario_b, payload, page_length])

theorem scenario_b_no_wrap :
    no_read_wraps 64 (device_of scenario_b)
      [(4096, 0), (4096, 4096), (4096, 8192), (4096, 12288)] := by
  intro i hi _
  have hi4 : i < 4 := hi
  interval_cases i <;> simp [device_of, scenario_b, payload, page_length]

/-- Scenario A: the sink holds the page that was read. -/
theorem dump_memory_sink_eq_payloads_witness :
    writes_complete (device_of scenario_a) ∧
    (dump_memory 64 (page_config 0 true) (device_of scenario_a) 5).1.sink = page 7 ∧
    (dump_memory 64 (page_config 0 true) (device_of scenario_a) 5).1.map_out = [(0, 4096)] ∧
    (dump_memory 64 (page_config 0 true) (device_of scenario_a) 5).1.sink =
      consumed_payloads (device_of scenario_a)
        (dump_memory 64 (page_config 0 true) (device_of scenario_a) 5).1.requests.length :=
  ⟨device_of_writes_complete _, by rw [scenario_a_run], by rw [scenario_a_run],
    dump_memory_sink_eq_payloads 64 _ _ (device_of_writes_complete _) 5⟩

/-- Scenario B: the two regions of the map are in order. -/
theorem map_regions_ordered_witness :
    (dump_memory 64 (page_config 0 true) (device_of scenario_b) 5).1.map_out
      = [(0, 4096), (8192, 12288)] ∧
    (∀ r ∈ (dump_memory 64 (page_config 0 true) (device_of scenario_b) 5).1.map_out,
      r.1 ≤ r.2) ∧
    (dump_memory 64 (page_config 0 true)
      (device_of scenario_b) 5).1.map_out.Chain' region_before ∧
    (dump_memory 64 (page_config 0 true)
      (device_of scenario_b) 5).1.map_out.Pairwise region_before :=
  ⟨by rw [scenario_b_run], map_regions_ordered 64 (page_config 0 true) (device_of scenario_b)
    rfl (page_config_fits 0 true (by decide)) scenario_b_fit 5⟩

/-- Scenario B: the run ends on end of data, no read reaches `2 ^ 64`, and the
two regions cover the two pages read. -/
theorem map_covers_reads_witness :
    (dump_memory 64 (page_config 0 true) (device_of scenario_b) 5).2 = some .eof ∧
    (dump_memory 64 (page_config 0 true) (device_of scenario_b) 5).1.count = 8192 ∧
    ((∀ a, in_regions (dump_memory 64 (page_config 0 true)
        (device_of scenario_b) 5).1.map_out a ↔
      was_read (device_of scenario_b) (dump_memory 64 (page_config 0 true)
        (device_of scenario_b) 5).1.requests a) ∧
    (∀ a r1 r2, r1 ∈ (dump_memory 64 (page_config 0 true)
        (device_of scenario_b) 5).1.map_out →
      r2 ∈ (dump_memory 64 (page_config 0 true) (device_of scenario_b) 5).1.map_out →
      r1.1 ≤ a ∧ a < r1.2 → r2.1 ≤ a ∧ a < r2.2 → r1 = r2)) :=
  ⟨by rw [scenario_b_run], by rw [scenario_b_run],
    map_covers_reads 64 (page_config 0 true) (device_of scenario_b) rfl
      (page_config_fits 0 true (by decide)) scenario_b_fit 5 .eof (by rw [scenario_b_run])
      (by decide) (by rw [scenario_b_run]; exact scenario_b_no_wrap)⟩

/-! ## Running without a map stream -/

theorem todo_strip (w : Nat) (cfg : Config) (s : Scan) :
    todo w (with_map cfg false) (strip s) = todo w cfg s := rfl

theorem loop_cond_strip (cfg : Config) (s : Scan) :
    loop_cond (with_map cfg false) (strip s) = loop_cond cfg s := rfl

theorem on_success_strip (w : Nat) (cfg : Config) (env : Syscalls) (bytes : List Nat)
    (s : Scan) :
    on_success w (with_map cfg false) env bytes (strip s) =
      (strip (on_success w cfg env bytes s).1, (on_success w cfg env bytes s).2) := by
  obtain ⟨st, wh, ct, ir, sk, mo, lg, rq⟩ := s
  cases ir <;> cases hm : cfg.map <;>
    simp only [on_success, error, with_map, strip, ENTER_REGION, remark, hm, if_true, if_false,
      Bool.false_eq_true] <;>
    split_ifs <;> rfl

theorem on_failure_strip (w : Nat) (cfg : Config) (env : Syscalls) (s : Scan) :
    on_failure w (with_map cfg false) env (strip s) =
      (strip (on_failure w cfg env s).1, (on_failure w cfg env s).2) := by
  obtain ⟨st, wh, ct, ir, sk, mo, lg, rq⟩ := s
  cases ir <;> cases hm : cfg.map <;>
    simp only [on_failure, with_map, strip, LEAVE_REGION, remark, hm, if_true, if_false,
      Bool.false_eq_true] <;>
    split_ifs <;> rfl

theorem issue_read_strip (w : Nat) (cfg : Config) (s : Scan) :
    issue_read w (with_map cfg false) (strip s) = strip (issue_read w cfg s) := rfl

theorem eof_state_strip (w : Nat) (cfg : Config) (s : Scan) :
    eof_state w (with_map cfg false) (strip s) = strip (eof_state w cfg s) := by
  unfold eof_state
  simp only [with_map, issue_read_strip]
  split_ifs <;> rfl

/-- The loop body with a null map stream does to the stripped state what the
loop body does to the state, stripped. -/
theorem loop_body_strip (w : Nat) (cfg : Config) (env : Syscalls) (s : Scan) :
    loop_body w (with_map cfg false) env (strip s) =
      (strip (loop_body w cfg env s).1, (loop_body w cfg env s).2) := by
  rw [loop_body_eq, loop_body_eq]
  cases env.outcome with
  | EndOfData => simp only [eof_state_strip]
  | Data bytes =>
    simp only
    split_ifs
    · simp only [eof_state_strip]
    · rw [issue_read_strip, on_success_strip]
  | Unreadable =>
    simp only
    rw [issue_read_strip, on_failure_strip]

theorem scan_loop_strip (w : Nat) (cfg : Config) (dev : Nat → Syscalls) (fuel : Nat) (s : Scan) :
    scan_loop w (with_map cfg false) dev fuel (strip s) =
      (strip (scan_loop w cfg dev fuel s).1, (scan_loop w cfg dev fuel s).2) := by
  induction fuel generalizing s with
  | zero => rfl
  | succ n ih =>
    have hlen : (strip s).requests.length = s.requests.length := rfl
    by_cases hc : loop_cond cfg s = true
    · have hc2 : loop_cond (with_map cfg false) (strip s) = true := by
        rw [loop_cond_strip]; exact hc
      rcases hb : loop_body w cfg (dev s.requests.length) s with ⟨s1, o⟩
      have hb2 : loop_body w (with_map cfg false) (dev (strip s).requests.length) (strip s) =
          (strip s1, o) := by
        rw [hlen, loop_body_strip, hb]
      cases o with
      | none =>
        rw [scan_loop_continue w _ dev n _ _ hc2 hb2, scan_loop_continue w cfg dev n s s1 hc hb]
        exact ih s1
      | some c =>
        rw [scan_loop_break w _ dev n _ _ c hc2 hb2, scan_loop_break w cfg dev n s s1 c hc hb]
    · have hc1 : loop_cond cfg s = false := by simpa using hc
      have hc2 : loop_cond (with_map cfg false) (strip s) = false := by
        rw [loop_cond_strip]; exact hc1
      rw [scan_loop_budget w _ dev n _ hc2, scan_loop_budget w cfg dev n s hc1]

theorem after_loop_strip (cfg : Config) (s : Scan) :
    after_loop (with_map cfg false) (strip s) = strip (after_loop cfg s) := by
  obtain ⟨st, wh, ct, ir, sk, mo, lg, rq⟩ := s
  cases ir <;> cases hm : cfg.map <;>
    simp only [after_loop, with_map, strip, LEAVE_REGION, remark, hm, if_true, if_false,
      Bool.false_eq_true] <;>
    split_ifs <;> rfl

theorem dump_memory_strip (w : Nat) (cfg : Config) (dev : Nat → Syscalls) (fuel : Nat) :
    dump_memory w (with_map cfg false) dev fuel =
      (strip (dump_memory w cfg dev fuel).1, (dump_memory w cfg dev fuel).2) := by
  have h := scan_loop_strip w cfg dev fuel Scan.init
  have hinit : strip Scan.init = Scan.init := rfl
  rw [hinit] at h
  rw [dump_memory_eq, dump_memory_eq, h]
  dsimp only
  split_ifs
  · rfl
  · rw [after_loop_strip]

/-- C10: two runs of `dump_memory` on the same read outcomes with the same
`buffer_size`, `dump_size`, `page_size` (and verbosity), one with a map stream
and one without, agree after any number of iterations and at the end on the
bytes written to the sink, the read requests (size and address), `where`,
`count`, the reason the loop was left, the diagnostics and the region flag; the
run without a map stream prints no map line. -/
theorem map_has_no_effect (w : Nat) (cfg : Config) (dev : Nat → Syscalls) (fuel : Nat) :
    (dump_memory w (with_map cfg true) dev fuel).1.sink =
      (dump_memory w (with_map cfg false) dev fuel).1.sink ∧
    (dump_memory w (with_map cfg true) dev fuel).1.requests =
      (dump_memory w (with_map cfg false) dev fuel).1.requests ∧
    (dump_memory w (with_map cfg true) dev fuel).1.where_ =
      (dump_memory w (with_map cfg false) dev fuel).1.where_ ∧
    (dump_memory w (with_map cfg true) dev fuel).1.count =
      (dump_memory w (with_map cfg false) dev fuel).1.count ∧
    (dump_memory w (with_map cfg true) dev fuel).2 =
      (dump_memory w (with_map cfg false) dev fuel).2 ∧
    (dump_memory w (with_map cfg true) dev fuel).1.log =
      (dump_memory w (with_map cfg false) dev fuel).1.log ∧
    (dump_memory w (with_map cfg true) dev fuel).1.in_region =
      (dump_memory w (with_map cfg false) dev fuel).1.in_region ∧
    (dump_memory w (with_map cfg false) dev fuel).1.map_out = [] := by
  have h := dump_memory_strip w (with_map cfg true) dev fuel
  have hcfg : with_map (with_map cfg true) false = with_map cfg false := rfl
  rw [hcfg] at h
  rw [h]
  exact ⟨rfl, rfl, rfl, rfl, rfl, rfl, rfl, rfl⟩

/-! ## The sanity check after the loop -/

/-- C8: a completed scan that delivered fewer bytes than the budget and prints no
warning. Budget 6, reads and pages of 4 bytes; the device gives 4 bytes at
address 0, a hole at address 4, and end of data at address 8. The run ends with
`count = 4 < 6` and `where = 8`; the check after the loop compares `where`, not
`count`, with `dump_size`, and nothing is printed. Without the hole (4 bytes,
then end of data at address 4) the same shortfall is reported. -/
theorem short_dump_without_warning :
    (dump_memory 64 (small_config 6 false) (device_of hole_then_eof) 5).2 = some .eof ∧
    (dump_memory 64 (small_config 6 false) (device_of hole_then_eof) 5).1.count = 4 ∧
    (dump_memory 64 (small_config 6 false) (device_of hole_then_eof) 5).1.count <
      (small_config 6 false).dump_size ∧
    (dump_memory 64 (small_config 6 false) (device_of hole_then_eof) 5).1.where_ = 8 ∧
    (dump_memory 64 (small_config 6 false) (device_of hole_then_eof) 5).1.requests =
      [(4, 0), (2, 4), (2, 8)] ∧
    (dump_memory 64 (small_config 6 false) (device_of hole_then_eof) 5).1.log = [] ∧
    (dump_memory 64 (small_config 6 false) (device_of [.Data [1, 2, 3, 4], .EndOfData]) 5).1.log =
      [.found_only 4 6] := by
  decide

/-! ## `convert_size`: numbers with a suffix -/

theorem isdigit_not_isspace (c : Char) (h : isdigit c = true) : isspace c = false := by
  simp only [isdigit, Bool.and_eq_true, decide_eq_true_eq] at h
  simp only [isspace, Bool.or_eq_false_iff, decide_eq_false_iff_not, Bool.and_eq_false_iff]
  constructor
  · intro hc
    rw [hc] at h
    revert h
    decide
  · right
    omega

theorem isdigit_not_sign (c : Char) (h : isdigit c = true) : c ≠ '-' ∧ c ≠ '+' := by
  constructor <;>
  · intro hc
    rw [hc] at h
    revert h
    decide

theorem digits_split (d s : List Char) (hd : ∀ c ∈ d, isdigit c = true)
    (hs : ∀ c, s.head? = some c → isdigit c = false) :
    (d ++ s).takeWhile isdigit = d ∧ (d ++ s).dropWhile isdigit = s := by
  induction d with
  | nil =>
    cases s with
    | nil => simp
    | cons c r =>
      have := hs c rfl
      simp [List.takeWhile, List.dropWhile, this]
  | cons c r ih =>
    have hc := hd c (List.mem_cons_self _ _)
    have ih2 := ih (fun x hx => hd x (List.mem_cons_of_mem _ hx))
    simp [List.takeWhile, List.dropWhile, hc, ih2.1, ih2.2]

/-- What `strtoul` does with a number: a non-empty string of digits followed by
something that does not begin with a digit. -/
theorem strtoul_digits (w : Nat) (d s : List Char) (hne : d ≠ [])
    (hd : ∀ c ∈ d, isdigit c = true) (hs : ∀ c, s.head? = some c → isdigit c = false) :
    strtoul w (d ++ s) =
      ((if 2 ^ w - 1 < digits_value d then 2 ^ w - 1 else digits_value d), s) := by
  obtain ⟨c, r, rfl⟩ := List.exists_cons_of_ne_nil hne
  have hc := hd c (List.mem_cons_self _ _)
  have hsp := isdigit_not_isspace c hc
  have hsg := isdigit_not_sign c hc
  have hsplit := digits_split (c :: r) s hd hs
  have h1 : (c :: r ++ s).dropWhile isspace = c :: r ++ s := by
    simp [List.dropWhile, hsp]
  have h2 : (c :: r ++ s).head? = some c := rfl
  unfold strtoul
  simp only [h1, h2, Option.some.injEq, hsg.1, hsg.2, or_self, if_false, hsplit.1, hsplit.2]
  simp

theorem suffix_not_digit (s : List Char) (f : Nat) (hf : suffix_factor s = some f) :
    ∀ c, s.head? = some c → isdigit c = false := by
  intro c hc
  unfold suffix_factor at hf
  split_ifs at hf with h1 h2 h3 h4
  · rw [h1] at hc; simp at hc
  · rcases h2 with h | h <;> rw [h] at hc <;> simp at hc <;> rw [← hc] <;> decide
  · rcases h3 with h | h <;> rw [h] at hc <;> simp at hc <;> rw [← hc] <;> decide
  · rcases h4 with h | h <;> rw [h] at hc <;> simp at hc <;> rw [← hc] <;> decide

/-- The result of `convert_size` on a number followed by a suffix of the table,
in terms of the value `strtoul` returns. -/
theorem convert_size_suffix (w : Nat) (d s : List Char) (f : Nat) (hne : d ≠ [])
    (hd : ∀ c ∈ d, isdigit c = true) (hf : suffix_factor s = some f) :
    convert_size w (d ++ s) =
      if s = [] then (if 2 ^ w - 1 < digits_value d then 2 ^ w - 1 else digits_value d)
      else ((if 2 ^ w - 1 < digits_value d then 2 ^ w - 1 else digits_value d) * f) % 2 ^ w := by
  have hst := strtoul_digits w d s hne hd (suffix_not_digit s f hf)
  have hlen : ¬ (s.length = (d ++ s).length) := by
    have : 0 < d.length := List.length_pos.2 hne
    rw [List.length_append]
    omega
  have hnil : ¬ (d ++ s = []) := by simp [hne]
  unfold convert_size
  simp only [hst, hnil, hlen, or_self, if_false]
  unfold suffix_factor at hf
  split_ifs at hf with h1 h2 h3 h4
  · simp [h1]
  · simp only [Option.some.injEq] at hf
    rcases h2 with h | h <;> subst h <;> subst hf <;> simp
  · simp only [Option.some.injEq] at hf
    rcases h3 with h | h <;> subst h <;> subst hf <;>
      simp [Nat.mod_mul_mod, Nat.mul_assoc]
  · simp only [Option.some.injEq] at hf
    rcases h4 with h | h <;> subst h <;> subst hf <;>
      simp [Nat.mod_mul_mod, Nat.mul_assoc]

theorem suffix_factor_nil (f : Nat) (hf : suffix_factor [] = some f) : f = 1 := by
  simp [suffix_factor] at hf
  exact hf.symm

/-- C11: for a non-empty string of decimal digits `d` of value `v < 2 ^ w` and a
suffix `s` among none, `k`, `K`, `m`, `M`, `g`, `G`, of factor `f`,
`convert_size (d ++ s)` is `v * f` modulo `2 ^ w`, hence `v * f` when that is
below `2 ^ w`; two suffixes with the same factor, such as `k` and `K`, give the
same result. -/
theorem convert_size_value (w : Nat) (d s : List Char) (f : Nat) (hne : d ≠ [])
    (hd : ∀ c ∈ d, isdigit c = true) (hv : digits_value d < 2 ^ w)
    (hf : suffix_factor s = some f) :
    convert_size w (d ++ s) = (digits_value d * f) % 2 ^ w ∧
    (digits_value d * f < 2 ^ w → convert_size w (d ++ s) = digits_value d * f) ∧
    (∀ s2, suffix_factor s2 = some f → convert_size w (d ++ s2) = convert_size w (d ++ s)) := by
  have hnot : ¬ (2 ^ w - 1 < digits_value d) := by omega
  have key : ∀ s1, suffix_factor s1 = some f →
      convert_size w (d ++ s1) = (digits_value d * f) % 2 ^ w := by
    intro s1 h1
    rw [convert_size_suffix w d s1 f hne hd h1]
    simp only [hnot, if_false]
    split_ifs with hs
    · rw [hs] at h1
      rw [suffix_factor_nil f h1, Nat.mul_one, Nat.mod_eq_of_lt hv]
    · rfl
  refine ⟨key s hf, ?_, ?_⟩
  · intro hlt
    rw [key s hf, Nat.mod_eq_of_lt hlt]
  · intro s2 h2
    rw [key s hf, key s2 h2]

/-- The literals `4k` and `4K` both give 4096. -/
theorem convert_size_value_witness :
    convert_size 64 (['4'] ++ ['k']) = (digits_value ['4'] * 1024) % 2 ^ 64 ∧
    convert_size 64 ['4', 'k'] = 4096 ∧ convert_size 64 ['4', 'K'] = 4096 :=
  ⟨(convert_size_value 64 ['4'] ['k'] 1024 (by decide) (by decide) (by decide)
    (by decide)).1, by decide, by decide⟩

/-- C12: `convert_size` returns `(size_t) -1` for the empty string, when
`strtoul` consumes nothing, when more than one character follows the number, and
when the single character after the number is none of `k`, `K`, `m`, `M`, `g`,
`G`. In particular this is so for a non-empty string of digits followed by two
or more characters of which the first is not a digit, or by one character that
is neither a digit nor a suffix letter. -/
theorem convert_size_failures (w : Nat) (str : List Char) :
    (str = [] → convert_size w str = size_error w) ∧
    ((strtoul w str).2.length = str.length → convert_size w str = size_error w) ∧
    (2 ≤ (strtoul w str).2.length → convert_size w str = size_error w) ∧
    (∀ c, (strtoul w str).2 = [c] → c ∉ ['k', 'K', 'm', 'M', 'g', 'G'] →
      convert_size w str = size_error w) ∧
    (∀ d rest, str = d ++ rest → d ≠ [] → (∀ c ∈ d, isdigit c = true) →
      (∀ c, rest.head? = some c → isdigit c = false) →
      (2 ≤ rest.length ∨ ∃ c, rest = [c] ∧ c ∉ ['k', 'K', 'm', 'M', 'g', 'G']) →
      convert_size w str = size_error w) := by
  have h1 : str = [] → convert_size w str = size_error w := by
    intro h
    simp [convert_size, h]
  have h2 : (strtoul w str).2.length = str.length → convert_size w str = size_error w := by
    intro h
    simp [convert_size, h]
  have h3 : 2 ≤ (strtoul w str).2.length → convert_size w str = size_error w := by
    intro h
    have hnil : (strtoul w str).2 ≠ [] := by
      intro hh
      rw [hh] at h
      simp at h
    have htail : (strtoul w str).2.tail ≠ [] := by
      intro ht
      have := congrArg List.length ht
      rw [List.length_tail] at this
      simp only [List.length_nil] at this
      omega
    unfold convert_size
    dsimp only
    by_cases a : str = [] ∨ (strtoul w str).2.length = str.length
    · rw [if_pos a]
    · rw [if_neg a, if_neg hnil, if_pos htail]
  have h4 : ∀ c, (strtoul w str).2 = [c] → c ∉ ['k', 'K', 'm', 'M', 'g', 'G'] →
      convert_size w str = size_error w := by
    intro c hc hnot
    simp only [List.mem_cons, List.mem_singleton, List.not_mem_nil, or_false, not_or] at hnot
    unfold convert_size
    dsimp only
    rw [hc]
    by_cases a : str = [] ∨ [c].length = str.length
    · rw [if_pos a]
    · rw [if_neg a]
      simp [hnot]
  refine ⟨h1, h2, h3, h4, ?_⟩
  intro d rest hstr hne hd hrest hbad
  have hst := strtoul_digits w d rest hne hd hrest
  rw [← hstr] at hst
  have hlast : (strtoul w str).2 = rest := by rw [hst]
  rcases hbad with hlen | ⟨c, hc, hnot⟩
  · exact h3 (by rw [hlast]; exact hlen)
  · exact h4 c (by rw [hlast]; exact hc) hnot

/-- C19 as stated fails: the digits of `2 ^ 64 - 1` are a well-formed size
literal, `convert_size` returns `(size_t) -1` for them, and `main` reports
`-b 18446744073709551615` as a bad read buffer size. -/
theorem max_literal_is_error :
    max_literal ≠ [] ∧ (∀ c ∈ max_literal, isdigit c = true) ∧
    digits_value max_literal = 2 ^ 64 - 1 ∧
    convert_size 64 max_literal = size_error 64 ∧
    main 64 linux_platform argv_b_max = .error .usage_bad_read_buffer_size :=
  ⟨by decide, by decide, by decide, by decide, rfl⟩

theorem times_1024_not_error (w y : Nat) (hw : 1 ≤ w) : (y * 1024) % 2 ^ w ≠ 2 ^ w - 1 := by
  intro h
  obtain ⟨k, rfl⟩ : ∃ k, w = k + 1 := ⟨w - 1, by omega⟩
  have h2 : (2 : Nat) ∣ 2 ^ (k + 1) := Dvd.intro_left (2 ^ k) rfl
  have h3 : ((y * 1024) % 2 ^ (k + 1)) % 2 = (y * 1024) % 2 := Nat.mod_mod_of_dvd _ h2
  have h4 : (2 ^ (k + 1) - 1) % 2 = 1 := by
    have hpos : 0 < 2 ^ k := Nat.two_pow_pos k
    rw [Nat.pow_succ]
    omega
  rw [h] at h3
  omega

/-- C19, amended: for a non-empty string of decimal digits, alone or followed by
one of `k`, `K`, `m`, `M`, `g`, `G`, the result of `convert_size` differs from
`(size_t) -1` when there is a suffix, or when the value of the digits is below
`2 ^ w - 1`; for digits alone of value `2 ^ w - 1` or more the result is
`(size_t) -1`. -/
theorem convert_size_not_error (w : Nat) (d s : List Char) (f : Nat) (hw : 1 ≤ w)
    (hne : d ≠ []) (hd : ∀ c ∈ d, isdigit c = true) (hf : suffix_factor s = some f) :
    (s ≠ [] ∨ digits_value d < 2 ^ w - 1 → convert_size w (d ++ s) ≠ size_error w) ∧
    (s = [] → 2 ^ w - 1 ≤ digits_value d → convert_size w (d ++ s) = size_error w) := by
  have hcs := convert_size_suffix w d s f hne hd hf
  constructor
  · intro hok
    rw [hcs]
    unfold size_error
    by_cases hs : s = []
    · have hlt : digits_value d < 2 ^ w - 1 := by
        rcases hok with h | h
        · exact absurd hs h
        · exact h
      simp only [hs, if_true]
      split_ifs <;> omega
    · simp only [hs, if_false]
      unfold suffix_factor at hf
      split_ifs at hf with h2 h3 h4
      · simp only [Option.some.injEq] at hf
        rw [← hf]
        exact times_1024_not_error w _ hw
      · simp only [Option.some.injEq] at hf
        rw [← hf, ← Nat.mul_assoc]
        exact times_1024_not_error w _ hw
      · simp only [Option.some.injEq] at hf
        rw [← hf, ← Nat.mul_assoc]
        exact times_1024_not_error w _ hw
  · intro hs hge
    rw [hcs]
    unfold size_error
    simp only [hs, if_true]
    split_ifs <;> omega

/-- The literals `4k` and `4096` are not errors. -/
theorem convert_size_not_error_witness :
    convert_size 64 (['4'] ++ ['k']) ≠ size_error 64 ∧
    convert_size 64 (['4', '0', '9', '6'] ++ []) ≠ size_error 64 :=
  ⟨(convert_size_not_error 64 ['4'] ['k'] 1024 (by decide) (by decide) (by decide)
      (by decide)).1 (Or.inl (by decide)),
    (convert_size_not_error 64 ['4', '0', '9', '6'] [] 1 (by decide) (by decide) (by decide)
      (by decide)).1 (Or.inr (by decide))⟩

/-- The empty string, `4kb`, `4x` and `k` are errors. -/
theorem convert_size_failures_witness :
    convert_size 64 [] = size_error 64 ∧
    convert_size 64 ['4', 'k', 'b'] = size_error 64 ∧
    convert_size 64 ['4', 'x'] = size_error 64 ∧
    convert_size 64 ['k'] = size_error 64 :=
  ⟨(convert_size_failures 64 []).1 rfl,
    (convert_size_failures 64 ['4', 'k', 'b']).2.2.2.2 ['4'] ['k', 'b'] rfl (by decide)
      (by decide) (by decide) (Or.inl (by decide)),
    (convert_size_failures 64 ['4', 'x']).2.2.2.2 ['4'] ['x'] rfl (by decide)
      (by decide) (by decide) (Or.inr ⟨'x', rfl, by decide⟩),
    (convert_size_failures 64 ['k']).2.1 (by decide)⟩

/-! ## `main`: the options and the defaults -/

/-- C13: the option string of `main` has no `d`. For `memdump -d 4k`, on any
platform, `getopt` returns `?`, `main` calls `usage` without a message and the
process ends before `dump_memory` is called; the size is set by `-s`: for
`memdump -s 4k` the `dump_size` passed to `dump_memory` is 4096. -/
theorem option_d_is_rejected (plat : Platform) :
    optstring.lookup 'd' = none ∧
    (getopt_all argv_d_4k.tail).1 = [('?', [])] ∧
    main 64 plat argv_d_4k = .error .usage_no_message ∧
    main 64 linux_platform argv_s_4k =
      .ok { buffer_size := 4096, dump_size := 4096, page_size := 4096, map := false,
            verbose := 0 } :=
  ⟨by decide, by decide, rfl, rfl⟩

theorem sanity_checks_page_size (plat : Platform) (o : Options) :
    (sanity_checks plat o).page_size =
      if o.page_size ≠ 0 then o.page_size else plat.pagesize := by
  unfold sanity_checks
  dsimp only
  split_ifs <;> simp_all

theorem sanity_checks_buffer_size (plat : Platform) (o : Options) :
    (sanity_checks plat o).buffer_size =
      if o.buffer_size ≠ 0 then o.buffer_size else (sanity_checks plat o).page_size := by
  unfold sanity_checks
  dsimp only
  split_ifs <;> simp_all

/-- C14: when `main` reaches the call of `dump_memory`, with `o` the values the
option loop has set, the `page_size` it passes is the `-p` value if that is not
0 and the system page size otherwise, and the `buffer_size` it passes is the
`-b` value if that is not 0 and the `page_size` it passes otherwise; with a
positive system page size both are positive. -/
theorem main_defaults (w : Nat) (plat : Platform) (argv : List (List Char)) (cfg : Config)
    (h : main w plat argv = .ok cfg) :
    ∃ o, parse_options w plat (getopt_all argv.tail).1 Options.default = .ok o ∧
      cfg.page_size = (if o.page_size ≠ 0 then o.page_size else plat.pagesize) ∧
      cfg.buffer_size = (if o.buffer_size ≠ 0 then o.buffer_size else cfg.page_size) ∧
      (0 < plat.pagesize → 0 < cfg.page_size ∧ 0 < cfg.buffer_size) := by
  unfold main at h
  cases hp : parse_options w plat (getopt_all argv.tail).1 Options.default with
  | error e =>
    rw [hp] at h
    simp at h
  | ok o =>
    rw [hp] at h
    dsimp only at h
    split_ifs at h
    simp only [Except.ok.injEq] at h
    have hps : cfg.page_size = (sanity_checks plat o).page_size := by rw [← h]
    have hbs : cfg.buffer_size = (sanity_checks plat o).buffer_size := by rw [← h]
    have h1 := sanity_checks_page_size plat o
    have h2 := sanity_checks_buffer_size plat o
    rw [← hps] at h1 h2
    rw [← hbs] at h2
    refine ⟨o, rfl, h1, h2, ?_⟩
    intro hpos
    have hp1 : 0 < cfg.page_size := by
      rw [h1]
      split_ifs with hz
      · omega
      · exact hpos
    refine ⟨hp1, ?_⟩
    rw [h2]
    split_ifs with hz
    · omega
    · exact hp1

/-- For `memdump -p 8k` on a platform with pages of 4096 bytes both the page
size and the buffer size passed are 8192. -/
theorem main_defaults_witness :
    main 64 linux_platform argv_p_8k =
      .ok { buffer_size := 8192, dump_size := 0, page_size := 8192, map := false,
            verbose := 0 } ∧
    ∃ o, parse_options 64 linux_platform (getopt_all argv_p_8k.tail).1 Options.default
        = .ok o ∧
      (8192 : Nat) = (if o.page_size ≠ 0 then o.page_size else linux_platform.pagesize) ∧
      (8192 : Nat) = (if o.buffer_size ≠ 0 then o.buffer_size else 8192) ∧
      (0 < linux_platform.pagesize → 0 < 8192 ∧ 0 < 8192) :=
  ⟨rfl, main_defaults 64 linux_platform argv_p_8k
    { buffer_size := 8192, dump_size := 0, page_size := 8192, map := false, verbose := 0 } rfl⟩

/-! ## Termination of the scan -/

theorem todo_le_buffer_size (w : Nat) (cfg : Config) (s : Scan) :
    todo w cfg s ≤ cfg.buffer_size := by
  unfold todo
  split_ifs with h
  · exact le_of_lt h.2
  · exact le_refl _

theorem payload_length_le (o : ReadOutcome) (b : Nat) (h : read_count o ≤ (b : Int)) :
    (payload o).length ≤ b := by
  cases o with
  | Data bytes =>
    simp only [read_count] at h
    simp only [payload]
    exact_mod_cast h
  | EndOfData => simp [payload]
  | Unreadable => simp [payload]

/-- When every read of the run returns at most what it asked for, the read
about to be made returns fewer than `2 ^ w` bytes. -/
theorem next_read_fits (w : Nat) (cfg : Config) (dev : Nat → Syscalls) (hfit : cfg.fits w)
    (hrd : ∀ fuel, reads_within_request dev (scan_loop w cfg dev fuel Scan.init).1.requests)
    (fuel : Nat) (hrun : (scan_loop w cfg dev fuel Scan.init).2 = none)
    (hc : loop_cond cfg (scan_loop w cfg dev fuel Scan.init).1 = true) :
    (payload (dev (scan_loop w cfg dev fuel Scan.init).1.requests.length).outcome).length
      < 2 ^ w := by
  have h := hrd (fuel + 1)
  rw [scan_loop_succ, if_pos hrun, scan_loop_one, if_pos hc, loop_body_requests] at h
  have h2 := (reads_within_request_append dev _ _ h).2
  simp only at h2
  have h3 := payload_length_le _ _ h2
  have h4 := todo_le_buffer_size w cfg (scan_loop w cfg dev fuel Scan.init).1
  have h5 := hfit.1
  omega

/-- Facts about the run under that hypothesis: `where` is below `2 ^ w`; the
loop is not left through the pointer check; it is left on the budget only with
`count ≥ dump_size > 0`. -/
theorem scan_loop_facts (w : Nat) (cfg : Config) (dev : Nat → Syscalls) (hfit : cfg.fits w)
    (hrd : ∀ fuel, reads_within_request dev (scan_loop w cfg dev fuel Scan.init).1.requests)
    (fuel : Nat) :
    (scan_loop w cfg dev fuel Scan.init).1.where_ < 2 ^ w ∧
    (∀ c, (scan_loop w cfg dev fuel Scan.init).2 = some c →
      c ≠ .pointer_wraparound ∧
      (c = .budget → 0 < cfg.dump_size ∧
        cfg.dump_size ≤ (scan_loop w cfg dev fuel Scan.init).1.count)) := by
  induction fuel with
  | zero =>
    refine ⟨Nat.two_pow_pos w, ?_⟩
    intro c hc
    simp [scan_loop] at hc
  | succ n ih =>
    rw [scan_loop_succ]
    by_cases hrun : (scan_loop w cfg dev n Scan.init).2 = none
    · rw [if_pos hrun, scan_loop_one]
      by_cases hc : loop_cond cfg (scan_loop w cfg dev n Scan.init).1 = true
      · rw [if_pos hc]
        have hn := next_read_fits w cfg dev hfit hrd n hrun hc
        rcases loop_body_where w cfg _ _ ih.1 hfit.2.2 hn with h | h | h | h | h | h | h
        · refine ⟨by rw [h.2.2]; exact ih.1, ?_⟩
          intro c hcc
          rw [h.2.1] at hcc
          simp only [Option.some.injEq] at hcc
          subst hcc
          simp
        · refine ⟨by rw [h.2.2.2]; exact ih.1, ?_⟩
          intro c hcc
          rw [h.2.2.1] at hcc
          simp only [Option.some.injEq] at hcc
          subst hcc
          simp
        · refine ⟨by rw [h.2.2.2.2]; exact ih.1, ?_⟩
          intro c hcc
          rw [h.2.2.2.1] at hcc
          simp only [Option.some.injEq] at hcc
          subst hcc
          simp
        · refine ⟨by rw [h.2.2.2.2]; exact h.2.2.1, ?_⟩
          intro c hcc
          rw [h.2.2.2.1] at hcc
          simp at hcc
        · refine ⟨by rw [h.2.2.2]; exact ih.1, ?_⟩
          intro c hcc
          rw [h.2.2.1] at hcc
          simp only [Option.some.injEq] at hcc
          subst hcc
          simp
        · refine ⟨by rw [h.2.2.2.2]; exact ih.1, ?_⟩
          intro c hcc
          rw [h.2.2.2.1] at hcc
          simp only [Option.some.injEq] at hcc
          subst hcc
          simp
        · refine ⟨by rw [h.2.2.2.2]; exact h.2.1, ?_⟩
          intro c hcc
          rw [h.2.2.2.1] at hcc
          simp at hcc
      · rw [if_neg hc]
        refine ⟨ih.1, ?_⟩
        intro c hcc
        simp only [Option.some.injEq] at hcc
        subst hcc
        refine ⟨by simp, fun _ => ?_⟩
        simp only [loop_cond, Bool.or_eq_true, beq_iff_eq, decide_eq_true_eq, not_or,
          not_lt] at hc
        dsimp only
        omega
    · rw [if_neg hrun]
      exact ih

/-- An iteration that does not leave the loop advances `where`, when the page
size is positive. -/
theorem scan_loop_advances (w : Nat) (cfg : Config) (dev : Nat → Syscalls) (hfit : cfg.fits w)
    (hpage : 0 < cfg.page_size)
    (hrd : ∀ fuel, reads_within_request dev (scan_loop w cfg dev fuel Scan.init).1.requests)
    (fuel : Nat) (hrun : (scan_loop w cfg dev (fuel + 1) Scan.init).2 = none) :
    (scan_loop w cfg dev fuel Scan.init).1.where_ <
      (scan_loop w cfg dev (fuel + 1) Scan.init).1.where_ := by
  have hw := (scan_loop_facts w cfg dev hfit hrd fuel).1
  rw [scan_loop_succ] at hrun ⊢
  by_cases hprev : (scan_loop w cfg dev fuel Scan.init).2 = none
  · rw [if_pos hprev] at hrun ⊢
    rw [scan_loop_one] at hrun ⊢
    by_cases hc : loop_cond cfg (scan_loop w cfg dev fuel Scan.init).1 = true
    · rw [if_pos hc] at hrun ⊢
      have hn := next_read_fits w cfg dev hfit hrd fuel hprev hc
      rcases loop_body_where w cfg _ _ hw hfit.2.2 hn with h | h | h | h | h | h | h
      · rw [h.2.1] at hrun; simp at hrun
      · rw [h.2.2.1] at hrun; simp at hrun
      · rw [h.2.2.2.1] at hrun; simp at hrun
      · have hpos := h.1
        rw [read_count_le_length _ hpos] at hpos
        have hpos2 : 0 < (payload (dev
            (scan_loop w cfg dev fuel Scan.init).1.requests.length).outcome).length := by
          exact_mod_cast hpos
        rw [h.2.2.2.2]
        omega
      · rw [h.2.2.1] at hrun; simp at hrun
      · rw [h.2.2.2.1] at hrun; simp at hrun
      · rw [h.2.2.2.2]
        omega
    · rw [if_neg hc] at hrun
      simp at hrun
  · rw [if_neg hprev] at hrun
    exact absurd hrun hprev

theorem scan_loop_running_le_where (w : Nat) (cfg : Config) (dev : Nat → Syscalls)
    (hfit : cfg.fits w) (hpage : 0 < cfg.page_size)
    (hrd : ∀ fuel, reads_within_request dev (scan_loop w cfg dev fuel Scan.init).1.requests)
    (fuel : Nat) (hrun : (scan_loop w cfg dev fuel Scan.init).2 = none) :
    fuel ≤ (scan_loop w cfg dev fuel Scan.init).1.where_ := by
  induction fuel with
  | zero => exact Nat.zero_le _
  | succ n ih =>
    have hadv := scan_loop_advances w cfg dev hfit hpage hrd n hrun
    have hprev : (scan_loop w cfg dev n Scan.init).2 = none := by
      by_contra hne
      rw [scan_loop_succ, if_neg hne] at hrun
      exact hne hrun
    have := ih hprev
    omega

/-- C15: with a positive page size, sizes that fit `size_t`, and every read of
the run returning at most the number of bytes asked for: every iteration that
does not leave the loop strictly increases `where`, which stays below `2 ^ w`;
so the loop is left within `2 ^ w` iterations, more fuel changes nothing, and
the reason is end of data, the budget (with `count ≥ dump_size > 0`), the
wraparound of the address, the failed write to the sink, or the failed `lseek`. -/
theorem scan_terminates (w : Nat) (cfg : Config) (dev : Nat → Syscalls) (hfit : cfg.fits w)
    (hpage : 0 < cfg.page_size)
    (hrd : ∀ fuel, reads_within_request dev (scan_loop w cfg dev fuel Scan.init).1.requests) :
    (∀ fuel, (scan_loop w cfg dev (fuel + 1) Scan.init).2 = none →
      (scan_loop w cfg dev fuel Scan.init).1.where_ <
        (scan_loop w cfg dev (fuel + 1) Scan.init).1.where_ ∧
      (scan_loop w cfg dev (fuel + 1) Scan.init).1.where_ < 2 ^ w) ∧
    ∃ c, (scan_loop w cfg dev (2 ^ w) Scan.init).2 = some c ∧
      (∀ fuel, 2 ^ w ≤ fuel →
        scan_loop w cfg dev fuel Scan.init = scan_loop w cfg dev (2 ^ w) Scan.init ∧
        (dump_memory w cfg dev fuel).2 = some c) ∧
      (c = .eof ∨ c = .budget ∨ c = .wraparound ∨ c = .write_error ∨ c = .lseek_error) ∧
      (c = .budget → 0 < cfg.dump_size ∧
        cfg.dump_size ≤ (scan_loop w cfg dev (2 ^ w) Scan.init).1.count) := by
  constructor
  · intro fuel hrun
    exact ⟨scan_loop_advances w cfg dev hfit hpage hrd fuel hrun,
      (scan_loop_facts w cfg dev hfit hrd (fuel + 1)).1⟩
  · have hstop : (scan_loop w cfg dev (2 ^ w) Scan.init).2 ≠ none := by
      intro hrun
      have h1 := scan_loop_running_le_where w cfg dev hfit hpage hrd _ hrun
      have h2 := (scan_loop_facts w cfg dev hfit hrd (2 ^ w)).1
      omega
    obtain ⟨c, hc⟩ := Option.ne_none_iff_exists'.1 hstop
    have hfacts := (scan_loop_facts w cfg dev hfit hrd (2 ^ w)).2 c hc
    refine ⟨c, hc, ?_, ?_, hfacts.2⟩
    · intro fuel hle
      have hst := scan_loop_stable w cfg dev Scan.init (2 ^ w) fuel hle hstop
      refine ⟨hst, ?_⟩
      rw [dump_memory_stop, hst, hc]
    · have := hfacts.1
      cases c <;> simp at this ⊢

theorem reads_within_unbounded (w : Nat) (cfg : Config) (dev : Nat → Syscalls)
    (hd : cfg.dump_size = 0) (hle : ∀ i, read_count (dev i).outcome ≤ (cfg.buffer_size : Int))
    (fuel : Nat) :
    reads_within_request dev (scan_loop w cfg dev fuel Scan.init).1.requests := by
  have key : ∀ q ∈ (scan_loop w cfg dev fuel Scan.init).1.requests, q.1 = cfg.buffer_size := by
    refine scan_loop_always w cfg dev (fun s => ∀ q ∈ s.requests, q.1 = cfg.buffer_size) ?_
      fuel Scan.init (by simp [Scan.init])
    intro s hP _ q hq
    rw [loop_body_requests] at hq
    simp only [List.mem_append, List.mem_singleton] at hq
    rcases hq with hq | hq
    · exact hP q hq
    · rw [hq]
      exact todo_unbounded w cfg s hd
  intro i hi
  rw [List.getD_eq_getElem _ _ hi, key _ (List.getElem_mem _)]
  exact hle i

theorem device_of_read_count_le (l : List ReadOutcome) (b : Nat)
    (h : ∀ o ∈ l, read_count o ≤ (b : Int)) (i : Nat) :
    read_count (device_of l i).outcome ≤ (b : Int) := by
  simp only [device_of]
  by_cases hi : i < l.length
  · rw [List.getD_eq_getElem _ _ hi]
    exact h _ (List.getElem_mem _)
  · rw [List.getD_eq_default _ _ (by omega)]
    simp [read_count]

/-- Four bytes, a hole, four bytes, end of data, with pages of four bytes: the
scan is over after four iterations, on end of data. -/
theorem scan_terminates_witness :
    (scan_loop 64 (small_config 0 true) (device_of small_outcomes) 4 Scan.init).2
      = some .eof ∧
    ∃ c, (scan_loop 64 (small_config 0 true) (device_of small_outcomes) (2 ^ 64) Scan.init).2
        = some c ∧
      (∀ fuel, 2 ^ 64 ≤ fuel →
        scan_loop 64 (small_config 0 true) (device_of small_outcomes) fuel Scan.init =
          scan_loop 64 (small_config 0 true) (device_of small_outcomes) (2 ^ 64) Scan.init ∧
        (dump_memory 64 (small_config 0 true) (device_of small_outcomes) fuel).2 = some c) ∧
      (c = .eof ∨ c = .budget ∨ c = .wraparound ∨ c = .write_error ∨ c = .lseek_error) ∧
      (c = .budget → 0 < (small_config 0 true).dump_size ∧
        (small_config 0 true).dump_size ≤
          (scan_loop 64 (small_config 0 true) (device_of small_outcomes) (2 ^ 64)
            Scan.init).1.count) :=
  ⟨by decide,
    (scan_terminates 64 (small_config 0 true) (device_of small_outcomes)
      (small_config_fits 0 true (by decide)) (by decide)
      (reads_within_unbounded 64 (small_config 0 true) (device_of small_outcomes) rfl
        (device_of_read_count_le small_outcomes 4 (by decide)))).2⟩

/-! ## Iterations that go on, iterations that leave the loop -/

/-- An iteration after which the loop goes on: a successful read written in full
that ends below `2 ^ w`, or a failed read skipped with a successful `lseek`. -/
theorem loop_body_continue (w : Nat) (cfg : Config) (env : Syscalls) (s : Scan)
    (hw : s.where_ < 2 ^ w) (hp : cfg.page_size < 2 ^ w)
    (hn : (payload env.outcome).length < 2 ^ w)
    (hnone : (loop_body w cfg env s).2 = none) :
    (0 < read_count env.outcome ∧ 0 < (payload env.outcome).length ∧
      s.where_ + (payload env.outcome).length < 2 ^ w ∧
      (loop_body w cfg env s).1.where_ = s.where_ + (payload env.outcome).length ∧
      (loop_body w cfg env s).1.count = uadd w s.count (payload env.outcome).length ∧
      (loop_body w cfg env s).1.sink = s.sink ++ payload env.outcome ∧
      (loop_body w cfg env s).1.map_out = s.map_out ∧
      (loop_body w cfg env s).1.in_region = true ∧
      (loop_body w cfg env s).1.start =
        (if s.in_region then s.start else if cfg.map then s.where_ else s.start)) ∨
    (read_count env.outcome < 0 ∧
      s.where_ + cfg.page_size < 2 ^ w ∧
      (loop_body w cfg env s).1.where_ = s.where_ + cfg.page_size ∧
      (loop_body w cfg env s).1.count = s.count ∧
      (loop_body w cfg env s).1.sink = s.sink ∧
      (loop_body w cfg env s).1.map_out =
        (if s.in_region ∧ cfg.map then s.map_out ++ [(s.start, s.where_)] else s.map_out) ∧
      (loop_body w cfg env s).1.in_region = false ∧
      (loop_body w cfg env s).1.start = s.start) := by
  rcases loop_body_cases w cfg env s with ⟨_, he⟩ | ⟨hpos, hlen, he⟩ | ⟨hneg, he⟩
  · rw [he] at hnone
    simp at hnone
  · left
    obtain ⟨-, hmo, hin, hst, hsink, hcase⟩ := on_success_spec w cfg env (payload env.outcome)
      (issue_read w cfg s) (by simpa using hw) hn
    rw [he] at hnone ⊢
    simp only [issue_read_where, issue_read_count, issue_read_sink, issue_read_map_out,
      issue_read_in_region, issue_read_start] at hmo hst hsink hcase
    rcases hcase with ⟨-, h2, -⟩ | ⟨-, -, h2, -⟩ | ⟨h1, h2, -, h4, h5⟩
    · rw [h2] at hnone; simp at hnone
    · rw [h2] at hnone; simp at hnone
    · refine ⟨hpos, hlen, h2, h4, h5, ?_, hmo, hin, hst⟩
      rw [hsink, h1, Int.toNat_ofNat, List.take_length]
  · right
    obtain ⟨-, hmo, hin, hst, hsink, hct, hcase⟩ := on_failure_spec w cfg env
      (issue_read w cfg s) (by simpa using hw) hp
    rw [he] at hnone ⊢
    simp only [issue_read_where, issue_read_count, issue_read_sink, issue_read_map_out,
      issue_read_in_region, issue_read_start] at hmo hst hsink hct hcase
    rcases hcase with ⟨-, h2, -⟩ | ⟨-, -, h2, -⟩ | ⟨h1, -, -, h4⟩
    · rw [h2] at hnone; simp at hnone
    · rw [h2] at hnone; simp at hnone
    · exact ⟨hneg, h1, h4, hct, hsink, hmo, hin, hst⟩

/-- An iteration that leaves the loop: on end of data nothing changes; a
successful read leaves on the write error or on wraparound, with the region
flag set; a failed read leaves on wraparound or on the `lseek` error, after the
open region has been printed. -/
theorem loop_body_stop (w : Nat) (cfg : Config) (env : Syscalls) (s : Scan) (c : Stop)
    (hw : s.where_ < 2 ^ w) (hp : cfg.page_size < 2 ^ w)
    (hn : (payload env.outcome).length < 2 ^ w)
    (hsome : (loop_body w cfg env s).2 = some c) :
    (read_count env.outcome = 0 ∧ c = .eof ∧
      (loop_body w cfg env s).1.where_ = s.where_ ∧
      (loop_body w cfg env s).1.count = s.count ∧
      (loop_body w cfg env s).1.sink = s.sink ∧
      (loop_body w cfg env s).1.map_out = s.map_out ∧
      (loop_body w cfg env s).1.in_region = s.in_region ∧
      (loop_body w cfg env s).1.start = s.start) ∨
    (0 < read_count env.outcome ∧
      (c = .write_error ∨
        (c = .wraparound ∧ 2 ^ w ≤ s.where_ + (payload env.outcome).length)) ∧
      (loop_body w cfg env s).1.where_ = s.where_ ∧
      (loop_body w cfg env s).1.map_out = s.map_out ∧
      (loop_body w cfg env s).1.in_region = true ∧
      (loop_body w cfg env s).1.start =
        (if s.in_region then s.start else if cfg.map then s.where_ else s.start)) ∨
    (read_count env.outcome < 0 ∧ (c = .wraparound ∨ c = .lseek_error) ∧
      (loop_body w cfg env s).1.where_ = s.where_ ∧
      (loop_body w cfg env s).1.count = s.count ∧
      (loop_body w cfg env s).1.sink = s.sink ∧
      (loop_body w cfg env s).1.map_out =
        (if s.in_region ∧ cfg.map then s.map_out ++ [(s.start, s.where_)] else s.map_out) ∧
      (loop_body w cfg env s).1.in_region = false ∧
      (loop_body w cfg env s).1.start = s.start) := by
  rcases loop_body_cases w cfg env s with ⟨hrc, he⟩ | ⟨hpos, hlen, he⟩ | ⟨hneg, he⟩
  · left
    rw [he] at hsome ⊢
    simp only [Option.some.injEq] at hsome
    exact ⟨hrc, hsome.symm, by simp, by simp, by simp, by simp, by simp, by simp⟩
  · right; left
    obtain ⟨-, hmo, hin, hst, -, hcase⟩ := on_success_spec w cfg env (payload env.outcome)
      (issue_read w cfg s) (by simpa using hw) hn
    rw [he] at hsome ⊢
    simp only [issue_read_where, issue_read_count, issue_read_sink, issue_read_map_out,
      issue_read_in_region, issue_read_start] at hmo hst hcase
    rcases hcase with ⟨-, h2, h3, -⟩ | ⟨-, hge, h2, h3, -⟩ | ⟨-, -, h2, -⟩
    · rw [h2] at hsome
      simp only [Option.some.injEq] at hsome
      exact ⟨hpos, Or.inl hsome.symm, h3, hmo, hin, hst⟩
    · rw [h2] at hsome
      simp only [Option.some.injEq] at hsome
      exact ⟨hpos, Or.inr ⟨hsome.symm, hge⟩, h3, hmo, hin, hst⟩
    · rw [h2] at hsome; simp at hsome
  · right; right
    obtain ⟨-, hmo, hin, hst, hsink, hct, hcase⟩ := on_failure_spec w cfg env
      (issue_read w cfg s) (by simpa using hw) hp
    rw [he] at hsome ⊢
    simp only [issue_read_where, issue_read_count, issue_read_sink, issue_read_map_out,
      issue_read_in_region, issue_read_start] at hmo hst hsink hct hcase
    rcases hcase with ⟨-, h2, h3⟩ | ⟨-, -, h2, h3⟩ | ⟨-, -, h2, -⟩
    · rw [h2] at hsome
      simp only [Option.some.injEq] at hsome
      exact ⟨hneg, Or.inl hsome.symm, h3, hct, hsink, hmo, hin, hst⟩
    · rw [h2] at hsome
      simp only [Option.some.injEq] at hsome
      exact ⟨hneg, Or.inr hsome.symm, h3, hct, hsink, hmo, hin, hst⟩
    · rw [h2] at hsome; simp at hsome

/-! ## `where`, `count` and the holes skipped -/

theorem completed_skips_succ (dev : Nat → Syscalls) (k : Nat) :
    completed_skips dev (k + 1) =
      completed_skips dev k + (if read_count (dev k).outcome < 0 then 1 else 0) := by
  unfold completed_skips
  rw [List.range_succ, List.filter_append, List.length_append]
  by_cases h : read_count (dev k).outcome < 0 <;> simp [List.filter, h]

/-- An iteration after which the loop goes on keeps the accounting, and advances
`where` and `count` by the bytes read, or `where` alone by the page size. -/
theorem count_inv_step (w : Nat) (cfg : Config) (dev : Nat → Syscalls) (s : Scan)
    (hw : s.where_ < 2 ^ w) (hp : cfg.page_size < 2 ^ w)
    (hn : (payload (dev s.requests.length).outcome).length < 2 ^ w)
    (hI : CountInv cfg dev s)
    (hnone : (loop_body w cfg (dev s.requests.length) s).2 = none) :
    CountInv cfg dev (loop_body w cfg (dev s.requests.length) s).1 ∧
    (0 < read_count (dev s.requests.length).outcome →
      (loop_body w cfg (dev s.requests.length) s).1.where_ =
          s.where_ + (payload (dev s.requests.length).outcome).length ∧
      (loop_body w cfg (dev s.requests.length) s).1.count =
          s.count + (payload (dev s.requests.length).outcome).length) ∧
    (read_count (dev s.requests.length).outcome < 0 →
      (loop_body w cfg (dev s.requests.length) s).1.where_ = s.where_ + cfg.page_size ∧
      (loop_body w cfg (dev s.requests.length) s).1.count = s.count) := by
  have hweq := hI.where_eq
  have hseq := hI.sink_eq
  have hreq := loop_body_requests w cfg (dev s.requests.length) s
  have hsk := completed_skips_succ dev s.requests.length
  rcases loop_body_continue w cfg (dev s.requests.length) s hw hp hn hnone with
    ⟨hpos, -, hlt, hwh, hct, hsink, -⟩ | ⟨hneg, hlt, hwh, hct, hsink, -⟩
  · have hnot : ¬ (read_count (dev s.requests.length).outcome < 0) := by omega
    have hsk2 : completed_skips dev (s.requests.length + 1) =
        completed_skips dev s.requests.length := by
      rw [hsk, if_neg hnot]
      rfl
    have hct2 : (loop_body w cfg (dev s.requests.length) s).1.count =
        s.count + (payload (dev s.requests.length).outcome).length := by
      rw [hct]
      unfold uadd
      exact Nat.mod_eq_of_lt (by omega)
    refine ⟨⟨?_, ?_⟩, fun _ => ⟨hwh, hct2⟩, fun h => absurd h hnot⟩
    · rw [hreq, List.length_append, List.length_singleton, hsk2, hwh, hct2]
      omega
    · rw [hsink, List.length_append, hct2, hseq]
  · have hnot : ¬ (0 < read_count (dev s.requests.length).outcome) := by omega
    rw [if_pos hneg] at hsk
    refine ⟨⟨?_, ?_⟩, fun h => absurd h hnot, fun _ => ⟨hwh, hct⟩⟩
    · rw [hreq, List.length_append, List.length_singleton, hsk, hwh, hct, Nat.mul_add,
        Nat.mul_one]
      omega
    · rw [hsink, hct, hseq]

theorem count_inv_init (cfg : Config) (dev : Nat → Syscalls) : CountInv cfg dev Scan.init := by
  constructor
  · simp [Scan.init, completed_skips]
  · simp [Scan.init]

/-- While the loop goes on, `where < 2 ^ w` and the accounting holds. -/
theorem scan_loop_count_inv (w : Nat) (cfg : Config) (dev : Nat → Syscalls)
    (hfit : cfg.fits w) (hreads : reads_fit w dev) (fuel : Nat)
    (hrun : (scan_loop w cfg dev fuel Scan.init).2 = none) :
    CountInv cfg dev (scan_loop w cfg dev fuel Scan.init).1 := by
  have h := scan_loop_induct w cfg dev (fun s => s.where_ < 2 ^ w ∧ CountInv cfg dev s)
    (fun _ _ => True)
    (fun s s1 hP _ hb => by
      have hn := lt_of_lt_of_le (hreads s.requests.length) (two_pow_pred_le w)
      have h1 := count_inv_step w cfg dev s hP.1 hfit.2.2 hn hP.2 (by rw [hb])
      rcases loop_body_continue w cfg (dev s.requests.length) s hP.1 hfit.2.2 hn
        (by rw [hb]) with h3 | h3
      · rw [hb] at h1 h3
        exact ⟨by rw [h3.2.2.2.1]; exact h3.2.2.1, h1.1⟩
      · rw [hb] at h1 h3
        exact ⟨by rw [h3.2.2.1]; exact h3.2.1, h1.1⟩)
    (fun _ _ _ _ _ _ => trivial) (fun _ _ _ => trivial) fuel Scan.init
    ⟨Nat.two_pow_pos w, count_inv_init cfg dev⟩
  rcases hr : scan_loop w cfg dev fuel Scan.init with ⟨s1, o⟩
  rw [hr] at hrun
  simp only at hrun
  subst hrun
  exact (h.1 s1 hr).2

/-- C18: at the start of every iteration of the loop, `where` is `count` plus
`page_size` times the number of `Unreadable` outcomes so far, as natural numbers,
so that `count ≤ where`; and an iteration after which the loop goes on adds the
`n` bytes of a `Data` outcome to both `where` and `count`, or adds `page_size` to
`where` alone after an `Unreadable` outcome. -/
theorem where_is_count_plus_skips (w : Nat) (cfg : Config) (dev : Nat → Syscalls)
    (hfit : cfg.fits w) (hreads : reads_fit w dev) (fuel : Nat) :
    ((scan_loop w cfg dev fuel Scan.init).2 = none →
      (scan_loop w cfg dev fuel Scan.init).1.where_ =
        (scan_loop w cfg dev fuel Scan.init).1.count +
          cfg.page_size *
            completed_skips dev (scan_loop w cfg dev fuel Scan.init).1.requests.length ∧
      (scan_loop w cfg dev fuel Scan.init).1.count ≤
        (scan_loop w cfg dev fuel Scan.init).1.where_) ∧
    ((scan_loop w cfg dev (fuel + 1) Scan.init).2 = none →
      (0 < read_count (dev (scan_loop w cfg dev fuel Scan.init).1.requests.length).outcome →
        (scan_loop w cfg dev (fuel + 1) Scan.init).1.where_ =
          (scan_loop w cfg dev fuel Scan.init).1.where_ +
            (payload (dev
              (scan_loop w cfg dev fuel Scan.init).1.requests.length).outcome).length ∧
        (scan_loop w cfg dev (fuel + 1) Scan.init).1.count =
          (scan_loop w cfg dev fuel Scan.init).1.count +
            (payload (dev
              (scan_loop w cfg dev fuel Scan.init).1.requests.length).outcome).length) ∧
      (read_count (dev (scan_loop w cfg dev fuel Scan.init).1.requests.length).outcome < 0 →
        (scan_loop w cfg dev (fuel + 1) Scan.init).1.where_ =
          (scan_loop w cfg dev fuel Scan.init).1.where_ + cfg.page_size ∧
        (scan_loop w cfg dev (fuel + 1) Scan.init).1.count =
          (scan_loop w cfg dev fuel Scan.init).1.count)) := by
  constructor
  · intro hrun
    have h := (scan_loop_count_inv w cfg dev hfit hreads fuel hrun).where_eq
    exact ⟨h, by omega⟩
  · intro hnext
    have hprev : (scan_loop w cfg dev fuel Scan.init).2 = none := by
      by_contra hne
      rw [scan_loop_succ, if_neg hne] at hnext
      exact hne hnext
    have hI := scan_loop_count_inv w cfg dev hfit hreads fuel hprev
    have hw := scan_loop_where_lt w cfg dev hfit hreads fuel
    have hn := lt_of_lt_of_le
      (hreads (scan_loop w cfg dev fuel Scan.init).1.requests.length) (two_pow_pred_le w)
    rw [scan_loop_succ, if_pos hprev, scan_loop_one] at hnext ⊢
    by_cases hc : loop_cond cfg (scan_loop w cfg dev fuel Scan.init).1 = true
    · rw [if_pos hc] at hnext ⊢
      exact (count_inv_step w cfg dev _ hw hfit.2.2 hn hI hnext).2
    · rw [if_neg hc] at hnext
      simp at hnext

/-- Four bytes, a hole, four bytes: at the head of the fourth iteration `where`
is 12 and `count` is 8. -/
theorem where_is_count_plus_skips_witness :
    (scan_loop 64 (small_config 0 true) (device_of small_outcomes) 3 Scan.init).1.where_ = 12 ∧
    (scan_loop 64 (small_config 0 true) (device_of small_outcomes) 3 Scan.init).1.count = 8 ∧
    (scan_loop 64 (small_config 0 true) (device_of small_outcomes) 3 Scan.init).1.where_ =
      (scan_loop 64 (small_config 0 true) (device_of small_outcomes) 3 Scan.init).1.count +
        (small_config 0 true).page_size *
          completed_skips (device_of small_outcomes)
            (scan_loop 64 (small_config 0 true) (device_of small_outcomes) 3
              Scan.init).1.requests.length ∧
    (scan_loop 64 (small_config 0 true) (device_of small_outcomes) 3 Scan.init).1.count ≤
      (scan_loop 64 (small_config 0 true) (device_of small_outcomes) 3 Scan.init).1.where_ :=
  ⟨by decide, by decide,
    (where_is_count_plus_skips 64 (small_config 0 true) (device_of small_outcomes)
      (small_config_fits 0 true (by decide)) small_outcomes_fit 3).1 (by decide)⟩

/-! ## The bytes of the map and the bytes delivered -/

theorem region_bytes_append (m : List (Nat × Nat)) (a b : Nat) :
    region_bytes (m ++ [(a, b)]) = region_bytes m + (b - a) := by
  simp [region_bytes]

theorem region_bytes_so_far (s : Scan) :
    region_bytes (regions_so_far s) =
      region_bytes s.map_out + (if s.in_region then s.where_ - s.start else 0) := by
  rw [regions_so_far_eq]
  cases s.in_region
  · simp
  · simp [region_bytes_append]

/-- The invariant of the loop for the bytes of the map: with the region that is
open counted up to `where`, the regions hold `count` bytes. -/
theorem scan_loop_region_bytes (w : Nat) (cfg : Config) (dev : Nat → Syscalls)
    (hmap : cfg.map = true) (hfit : cfg.fits w) (hreads : reads_fit w dev) (fuel : Nat) :
    (∀ s1, scan_loop w cfg dev fuel Scan.init = (s1, none) →
      HeadInv w dev s1 ∧ CountInv cfg dev s1 ∧ region_bytes (regions_so_far s1) = s1.count) ∧
    (∀ s1 c, scan_loop w cfg dev fuel Scan.init = (s1, some c) →
      c ≠ .write_error → no_read_wraps w dev s1.requests →
      region_bytes (regions_so_far s1) = s1.count ∧ s1.sink.length = s1.count) := by
  refine scan_loop_induct w cfg dev
    (fun s => HeadInv w dev s ∧ CountInv cfg dev s ∧ region_bytes (regions_so_far s) = s.count)
    (fun s c => c ≠ .write_error → no_read_wraps w dev s.requests →
      region_bytes (regions_so_far s) = s.count ∧ s.sink.length = s.count)
    ?_ ?_ ?_ fuel Scan.init
    ⟨head_inv_init w dev, count_inv_init cfg dev, by simp [Scan.init, regions_so_far,
      region_bytes]⟩
  · intro s s1 hP _ hb
    obtain ⟨hH, hC, hB⟩ := hP
    have hn := lt_of_lt_of_le (hreads s.requests.length) (two_pow_pred_le w)
    have hw := hH.base.where_lt
    have hnone : (loop_body w cfg (dev s.requests.length) s).2 = none := by rw [hb]
    have hok := (loop_body_step_ok w cfg dev s hmap hfit hreads hH).2.1 hnone
    have hcs := count_inv_step w cfg dev s hw hfit.2.2 hn hC hnone
    have hcont := loop_body_continue w cfg (dev s.requests.length) s hw hfit.2.2 hn hnone
    rw [hb] at hok hcs hcont
    simp only at hok hcs hcont
    refine ⟨hok, hcs.1, ?_⟩
    rw [region_bytes_so_far] at hB ⊢
    rcases hcont with ⟨hpos, -, -, hwh, -, -, hmo, hin, hst⟩ | ⟨hneg, -, hwh, hct, -, hmo, hin, -⟩
    · have hct := (hcs.2.1 hpos).2
      rw [hmo, hin, hwh, hst, hct]
      simp only [if_true, hmap]
      cases hr : s.in_region
      · rw [hr] at hB
        simp only [Bool.false_eq_true, if_false] at hB ⊢
        omega
      · rw [hr] at hB
        have := hH.base.open_le hr
        simp only [if_true] at hB ⊢
        omega
    · rw [hmo, hin, hct]
      simp only [Bool.false_eq_true, if_false, hmap, and_true, Nat.add_zero]
      cases hr : s.in_region
      · rw [hr] at hB
        simpa using hB
      · rw [hr] at hB
        simp only [if_true] at hB ⊢
        rw [region_bytes_append]
        exact hB
  · intro s s1 c hP _ hb hne hnw
    obtain ⟨hH, hC, hB⟩ := hP
    have hn := lt_of_lt_of_le (hreads s.requests.length) (two_pow_pred_le w)
    have hw := hH.base.where_lt
    have hsome : (loop_body w cfg (dev s.requests.length) s).2 = some c := by rw [hb]
    have hstop := loop_body_stop w cfg (dev s.requests.length) s c hw hfit.2.2 hn hsome
    have hreq := loop_body_requests w cfg (dev s.requests.length) s
    rw [hb] at hstop hreq
    simp only at hstop hreq
    rw [region_bytes_so_far] at hB ⊢
    rcases hstop with ⟨-, -, hwh, hct, hsink, hmo, hin, hst⟩ | ⟨hpos, hcause, -⟩ |
      ⟨-, -, hwh, hct, hsink, hmo, hin, -⟩
    · rw [hmo, hin, hwh, hst, hct, hsink]
      exact ⟨hB, hC.sink_eq⟩
    · rcases hcause with hcw | ⟨-, hge⟩
      · exact absurd hcw hne
      · rw [hreq] at hnw
        have := no_read_wraps_append w dev s.requests _ hnw hpos
        simp only at this
        omega
    · rw [hmo, hin, hct, hsink]
      simp only [Bool.false_eq_true, if_false, hmap, and_true, Nat.add_zero]
      refine ⟨?_, hC.sink_eq⟩
      cases hr : s.in_region
      · rw [hr] at hB
        simpa using hB
      · rw [hr] at hB
        simp only [if_true] at hB ⊢
        rw [region_bytes_append]
        exact hB
  · intro s hP _ _ _
    exact ⟨hP.2.2, hP.2.1.sink_eq⟩

/-- C17, amended: in a run with a map stream that has left the loop other than
by the fatal write error, and in which no successful read ended at or beyond
`2 ^ w`, the lengths `end - start` of the regions of the map add up to the final
`count`, which is the number of bytes written to the sink. -/
theorem region_bytes_eq_count (w : Nat) (cfg : Config) (dev : Nat → Syscalls)
    (hmap : cfg.map = true) (hfit : cfg.fits w) (hreads : reads_fit w dev) (fuel : Nat)
    (c : Stop) (hstop : (dump_memory w cfg dev fuel).2 = some c) (hc : c ≠ .write_error)
    (hnw : no_read_wraps w dev (dump_memory w cfg dev fuel).1.requests) :
    region_bytes (dump_memory w cfg dev fuel).1.map_out = (dump_memory w cfg dev fuel).1.count ∧
    (dump_memory w cfg dev fuel).1.sink.length = (dump_memory w cfg dev fuel).1.count := by
  have hd := dump_memory_completed w cfg dev fuel c hstop hc
  rw [dump_memory_stop] at hstop
  rw [hd] at hnw ⊢
  rw [after_loop_requests] at hnw
  rw [after_loop_regions _ _ hmap, after_loop_count, after_loop_sink]
  have h := (scan_loop_region_bytes w cfg dev hmap hfit hreads fuel).2
    (scan_loop w cfg dev fuel Scan.init).1 c (Prod.ext rfl hstop) hc hnw
  exact h

/-- Scenario B: the two regions hold the 8192 bytes delivered. -/
theorem region_bytes_eq_count_witness :
    region_bytes (dump_memory 64 (page_config 0 true) (device_of scenario_b) 5).1.map_out
      = 8192 ∧
    region_bytes (dump_memory 64 (page_config 0 true) (device_of scenario_b) 5).1.map_out =
      (dump_memory 64 (page_config 0 true) (device_of scenario_b) 5).1.count ∧
    (dump_memory 64 (page_config 0 true) (device_of scenario_b) 5).1.sink.length =
      (dump_memory 64 (page_config 0 true) (device_of scenario_b) 5).1.count :=
  ⟨by rw [scenario_b_run]; rfl,
    region_bytes_eq_count 64 (page_config 0 true) (device_of scenario_b) rfl
      (page_config_fits 0 true (by decide)) scenario_b_fit 5 .eof (by rw [scenario_b_run])
      (by decide) (by rw [scenario_b_run]; exact scenario_b_no_wrap)⟩

/-- C17 as stated fails on a run that ends on a short write: every read returns
four bytes, the first write is complete and the second accepts two bytes. No
read reaches `2 ^ 64`; `count` is 4 and six bytes are on the sink, but `error`
ends the process before the open region is printed: the map is empty. -/
theorem short_write_loses_region :
    (dump_memory 64 (small_config 0 true) second_write_short 5).2 = some .write_error ∧
    no_read_wraps 64 second_write_short
      (dump_memory 64 (small_config 0 true) second_write_short 5).1.requests ∧
    (dump_memory 64 (small_config 0 true) second_write_short 5).1.count = 4 ∧
    (dump_memory 64 (small_config 0 true) second_write_short 5).1.sink = [1, 2, 3, 4, 1, 2] ∧
    (dump_memory 64 (small_config 0 true) second_write_short 5).1.map_out = [] ∧
    region_bytes (dump_memory 64 (small_config 0 true) second_write_short 5).1.map_out ≠
      (dump_memory 64 (small_config 0 true) second_write_short 5).1.count := by
  have hreq : (dump_memory 64 (small_config 0 true) second_write_short 5).1.requests =
      [(4, 0), (4, 4)] := by decide
  refine ⟨by decide, ?_, by decide, by decide, by decide, by decide⟩
  rw [hreq]
  intro i hi _
  have hi2 : i < 2 := hi
  interval_cases i <;> decide

/-! ## Regions are apart, one for each run of successful reads -/

theorem regions_so_far_length (s : Scan) :
    (regions_so_far s).length = s.map_out.length + (if s.in_region then 1 else 0) := by
  rw [regions_so_far_eq]
  cases s.in_region <;> simp

theorem filter_singleton_length (p : Nat → Bool) (k : Nat) :
    (List.filter p [k]).length = if p k = true then 1 else 0 := by
  cases h : p k <;> simp [List.filter, h]

theorem data_runs_succ (dev : Nat → Syscalls) (k : Nat) :
    data_runs dev (k + 1) = data_runs dev k +
      (if 0 < read_count (dev k).outcome ∧
          (k = 0 ∨ ¬ 0 < read_count (dev (k - 1)).outcome) then 1 else 0) := by
  unfold data_runs
  rw [List.range_succ, List.filter_append, List.length_append, filter_singleton_length]
  simp only [Bool.and_eq_true, Bool.or_eq_true, decide_eq_true_eq, beq_iff_eq,
    Bool.not_eq_true', decide_eq_false_iff_not]

theorem gapped_snoc (p : Nat) (m : List (Nat × Nat)) (x : Nat × Nat)
    (hm : m.Pairwise (gapped p)) (hx : ∀ r ∈ m, r.2 + p ≤ x.1) :
    (m ++ [x]).Pairwise (gapped p) := by
  simp only [List.pairwise_append, List.pairwise_singleton, List.mem_singleton, true_and]
  refine ⟨hm, ?_⟩
  intro r hr y hy
  rw [hy]
  exact hx r hr

/-- The invariant of the loop for the distance between regions. -/
theorem scan_loop_gaps (w : Nat) (cfg : Config) (dev : Nat → Syscalls)
    (hmap : cfg.map = true) (hfit : cfg.fits w) (hreads : reads_fit w dev) (fuel : Nat) :
    GapInv cfg (scan_loop w cfg dev fuel Scan.init).1 := by
  have h := scan_loop_induct w cfg dev
    (fun s => HeadInv w dev s ∧ GapInv cfg s ∧
      (s.in_region = false → ∀ r ∈ s.map_out, r.2 + cfg.page_size ≤ s.where_))
    (fun s _ => GapInv cfg s) ?_ ?_ (fun s hP _ => hP.2.1) fuel Scan.init
    ⟨head_inv_init w dev, ⟨by simp [Scan.init], by simp [Scan.init]⟩, by simp [Scan.init]⟩
  · rcases hr : scan_loop w cfg dev fuel Scan.init with ⟨s1, o⟩
    cases o with
    | none => exact (h.1 s1 hr).2.1
    | some c => exact h.2 s1 c hr
  · intro s s1 hP _ hb
    obtain ⟨hH, hG, hcl⟩ := hP
    have hn := lt_of_lt_of_le (hreads s.requests.length) (two_pow_pred_le w)
    have hw := hH.base.where_lt
    have hnone : (loop_body w cfg (dev s.requests.length) s).2 = none := by rw [hb]
    have hok := (loop_body_step_ok w cfg dev s hmap hfit hreads hH).2.1 hnone
    have hcont := loop_body_continue w cfg (dev s.requests.length) s hw hfit.2.2 hn hnone
    rw [hb] at hok hcont
    simp only at hok hcont
    refine ⟨hok, ?_⟩
    rcases hcont with ⟨-, -, -, -, -, -, hmo, hin, hst⟩ | ⟨-, -, hwh, -, -, hmo, hin, -⟩
    · refine ⟨⟨by rw [hmo]; exact hG.gaps, ?_⟩, ?_⟩
      · intro _ r hr
        rw [hmo] at hr
        rw [hst]
        cases hi : s.in_region
        · simpa [hmap] using hcl hi r hr
        · simpa using hG.open_gap hi r hr
      · intro hf
        rw [hin] at hf
        simp at hf
    · have hmo2 : s1.map_out = regions_so_far s := by
        rw [hmo, regions_so_far_eq]
        cases s.in_region <;> simp [hmap]
      refine ⟨⟨?_, ?_⟩, ?_⟩
      · rw [hmo2, regions_so_far_eq]
        cases hi : s.in_region
        · simpa using hG.gaps
        · simp only [if_true]
          exact gapped_snoc _ _ _ hG.gaps (hG.open_gap hi)
      · intro hf
        rw [hin] at hf
        simp at hf
      · intro _ r hr
        rw [hwh]
        rw [hmo2, regions_so_far_eq, List.mem_append] at hr
        rcases hr with hr | hr
        · have h1 := hH.base.closed r hr
          cases hi : s.in_region
          · rw [hi] at h1
            simp only [Bool.false_eq_true, if_false] at h1
            omega
          · rw [hi] at h1
            have := hH.base.open_le hi
            simp only [if_true] at h1
            omega
        · cases hi : s.in_region
          · rw [hi] at hr
            simp at hr
          · rw [hi] at hr
            simp only [if_true, List.mem_singleton] at hr
            rw [hr]
  · intro s s1 c hP _ hb
    obtain ⟨hH, hG, hcl⟩ := hP
    have hn := lt_of_lt_of_le (hreads s.requests.length) (two_pow_pred_le w)
    have hw := hH.base.where_lt
    have hsome : (loop_body w cfg (dev s.requests.length) s).2 = some c := by rw [hb]
    have hstop := loop_body_stop w cfg (dev s.requests.length) s c hw hfit.2.2 hn hsome
    rw [hb] at hstop
    simp only at hstop
    rcases hstop with ⟨-, -, -, -, -, hmo, hin, hst⟩ | ⟨-, -, -, hmo, hin, hst⟩ |
      ⟨-, -, -, -, -, hmo, hin, -⟩
    · refine ⟨by rw [hmo]; exact hG.gaps, ?_⟩
      intro hi r hr
      rw [hmo] at hr
      rw [hin] at hi
      rw [hst]
      exact hG.open_gap hi r hr
    · refine ⟨by rw [hmo]; exact hG.gaps, ?_⟩
      intro _ r hr
      rw [hmo] at hr
      rw [hst]
      cases hi : s.in_region
      · simpa [hmap] using hcl hi r hr
      · simpa using hG.open_gap hi r hr
    · have hmo2 : s1.map_out = regions_so_far s := by
        rw [hmo, regions_so_far_eq]
        cases s.in_region <;> simp [hmap]
      refine ⟨?_, ?_⟩
      · rw [hmo2, regions_so_far_eq]
        cases hi : s.in_region
        · simpa using hG.gaps
        · simp only [if_true]
          exact gapped_snoc _ _ _ hG.gaps (hG.open_gap hi)
      · intro hf
        rw [hin] at hf
        simp at hf

/-- The invariant of the loop for the number of regions: with the open region
counted, there is one region for each run of successful reads. -/
theorem scan_loop_runs (w : Nat) (cfg : Config) (dev : Nat → Syscalls)
    (hmap : cfg.map = true) (hfit : cfg.fits w) (hreads : reads_fit w dev) (fuel : Nat) :
    (regions_so_far (scan_loop w cfg dev fuel Scan.init).1).length =
      data_runs dev (scan_loop w cfg dev fuel Scan.init).1.requests.length := by
  have key : ∀ s : Scan, ∀ mo : List (Nat × Nat),
      (regions_so_far s).length = data_runs dev s.requests.length →
      (s.in_region = true ↔
        0 < s.requests.length ∧ 0 < read_count (dev (s.requests.length - 1)).outcome) →
      0 < read_count (dev s.requests.length).outcome → mo = s.map_out →
      mo.length + 1 = data_runs dev (s.requests.length + 1) := by
    intro s mo hlen hflag hpos hmo
    rw [data_runs_succ, ← hlen, regions_so_far_length, hmo]
    cases hi : s.in_region
    · have hnot : ¬ (0 < s.requests.length ∧
          0 < read_count (dev (s.requests.length - 1)).outcome) := by
        intro hc
        have := hflag.2 hc
        rw [hi] at this
        simp at this
      have hcond : 0 < read_count (dev s.requests.length).outcome ∧
          (s.requests.length = 0 ∨
            ¬ 0 < read_count (dev (s.requests.length - 1)).outcome) := by
        refine ⟨hpos, ?_⟩
        by_cases hk : s.requests.length = 0
        · exact Or.inl hk
        · right
          intro hc
          exact hnot ⟨by omega, hc⟩
      rw [if_pos hcond]
      simp
    · have hyes := hflag.1 hi
      have hcond : ¬ (0 < read_count (dev s.requests.length).outcome ∧
          (s.requests.length = 0 ∨
            ¬ 0 < read_count (dev (s.requests.length - 1)).outcome)) := by
        rintro ⟨-, h0 | h0⟩
        · omega
        · exact h0 hyes.2
      rw [if_neg hcond]
      simp
  have keep : ∀ s : Scan, (regions_so_far s).length = data_runs dev s.requests.length →
      ¬ 0 < read_count (dev s.requests.length).outcome →
      (regions_so_far s).length = data_runs dev (s.requests.length + 1) := by
    intro s hlen hnot
    have hcond : ¬ (0 < read_count (dev s.requests.length).outcome ∧
        (s.requests.length = 0 ∨
          ¬ 0 < read_count (dev (s.requests.length - 1)).outcome)) := fun hc => hnot hc.1
    rw [data_runs_succ, if_neg hcond, hlen]
    rfl
  have h := scan_loop_induct w cfg dev
    (fun s => HeadInv w dev s ∧
      (regions_so_far s).length = data_runs dev s.requests.length ∧
      (s.in_region = true ↔
        0 < s.requests.length ∧ 0 < read_count (dev (s.requests.length - 1)).outcome))
    (fun s _ => (regions_so_far s).length = data_runs dev s.requests.length)
    ?_ ?_ (fun s hP _ => hP.2.1) fuel Scan.init
    ⟨head_inv_init w dev, by simp [Scan.init, regions_so_far, data_runs], by simp [Scan.init]⟩
  · rcases hr : scan_loop w cfg dev fuel Scan.init with ⟨s1, o⟩
    cases o with
    | none => exact (h.1 s1 hr).2.1
    | some c => exact h.2 s1 c hr
  · intro s s1 hP _ hb
    obtain ⟨hH, hlen, hflag⟩ := hP
    have hn := lt_of_lt_of_le (hreads s.requests.length) (two_pow_pred_le w)
    have hw := hH.base.where_lt
    have hnone : (loop_body w cfg (dev s.requests.length) s).2 = none := by rw [hb]
    have hok := (loop_body_step_ok w cfg dev s hmap hfit hreads hH).2.1 hnone
    have hcont := loop_body_continue w cfg (dev s.requests.length) s hw hfit.2.2 hn hnone
    have hreq := loop_body_requests w cfg (dev s.requests.length) s
    rw [hb] at hok hcont hreq
    simp only at hok hcont hreq
    have hlen1 : s1.requests.length = s.requests.length + 1 := by
      rw [hreq, List.length_append, List.length_singleton]
    refine ⟨hok, ?_, ?_⟩
    · rw [regions_so_far_length, hlen1]
      rcases hcont with ⟨hpos, -, -, -, -, -, hmo, hin, -⟩ | ⟨hneg, -, -, -, -, hmo, hin, -⟩
      · rw [hin]
        simp only [if_true]
        exact key s s1.map_out hlen hflag hpos hmo
      · have hmo2 : s1.map_out = regions_so_far s := by
          rw [hmo, regions_so_far_eq]
          cases s.in_region <;> simp [hmap]
        rw [hin, hmo2]
        simp only [Bool.false_eq_true, if_false, Nat.add_zero]
        exact keep s hlen (by omega)
    · rw [hlen1, Nat.add_sub_cancel]
      rcases hcont with ⟨hpos, -, -, -, -, -, -, hin, -⟩ | ⟨hneg, -, -, -, -, -, hin, -⟩
      · rw [hin]
        simp [hpos]
      · rw [hin]
        have : ¬ 0 < read_count (dev s.requests.length).outcome := by omega
        simp [this]
  · intro s s1 c hP _ hb
    obtain ⟨hH, hlen, hflag⟩ := hP
    have hn := lt_of_lt_of_le (hreads s.requests.length) (two_pow_pred_le w)
    have hw := hH.base.where_lt
    have hsome : (loop_body w cfg (dev s.requests.length) s).2 = some c := by rw [hb]
    have hstop := loop_body_stop w cfg (dev s.requests.length) s c hw hfit.2.2 hn hsome
    have hreq := loop_body_requests w cfg (dev s.requests.length) s
    rw [hb] at hstop hreq
    simp only at hstop hreq
    have hlen1 : s1.requests.length = s.requests.length + 1 := by
      rw [hreq, List.length_append, List.length_singleton]
    show (regions_so_far s1).length = data_runs dev s1.requests.length
    rw [hlen1]
    rcases hstop with ⟨hrc, -, -, -, -, hmo, hin, -⟩ | ⟨hpos, -, -, hmo, hin, -⟩ |
      ⟨hneg, -, -, -, -, hmo, hin, -⟩
    · rw [regions_so_far_length, hmo, hin, ← regions_so_far_length]
      exact keep s hlen (by omega)
    · rw [regions_so_far_length, hin]
      simp only [if_true]
      exact key s s1.map_out hlen hflag hpos hmo
    · have hmo2 : s1.map_out = regions_so_far s := by
        rw [hmo, regions_so_far_eq]
        cases s.in_region <;> simp [hmap]
      rw [regions_so_far_length, hin, hmo2]
      simp only [Bool.false_eq_true, if_false, Nat.add_zero]
      exact keep s hlen (by omega)

/-- C16, amended: in a run with a map stream and a positive page size, after any
number of iterations and at the end of the run, each region of the map ends at
least `page_size` before the next one starts, so no two regions touch; and when
the loop has been left other than by the fatal write error, the map has one
region for each maximal run of consecutive `Data` outcomes among the reads
issued. -/
theorem regions_are_apart (w : Nat) (cfg : Config) (dev : Nat → Syscalls)
    (hmap : cfg.map = true) (hfit : cfg.fits w) (hreads : reads_fit w dev)
    (hpage : 0 < cfg.page_size) (fuel : Nat) :
    (dump_memory w cfg dev fuel).1.map_out.Chain' (gapped cfg.page_size) ∧
    (dump_memory w cfg dev fuel).1.map_out.Chain' (fun r1 r2 => r1.2 < r2.1) ∧
    (∀ c, (dump_memory w cfg dev fuel).2 = some c → c ≠ .write_error →
      (dump_memory w cfg dev fuel).1.map_out.length =
        data_runs dev (dump_memory w cfg dev fuel).1.requests.length) := by
  have hG := scan_loop_gaps w cfg dev hmap hfit hreads fuel
  have hR := scan_loop_runs w cfg dev hmap hfit hreads fuel
  have hpair : (dump_memory w cfg dev fuel).1.map_out.Pairwise (gapped cfg.page_size) := by
    rw [dump_memory_eq]
    dsimp only
    split_ifs
    · exact hG.gaps
    · rw [after_loop_regions _ _ hmap, regions_so_far_eq]
      cases hi : (scan_loop w cfg dev fuel Scan.init).1.in_region
      · simpa using hG.gaps
      · simp only [if_true]
        exact gapped_snoc _ _ _ hG.gaps (hG.open_gap hi)
  refine ⟨hpair.chain', ?_, ?_⟩
  · refine (hpair.imp ?_).chain'
    intro r1 r2 h12
    unfold gapped at h12
    omega
  · intro c hstop hc
    rw [dump_memory_completed w cfg dev fuel c hstop hc, after_loop_regions _ _ hmap,
      after_loop_requests]
    exact hR

/-- Four bytes, a hole, four bytes, end of data: two runs of successful reads,
two regions, four bytes apart. -/
theorem regions_are_apart_witness :
    (dump_memory 64 (small_config 0 true) (device_of small_outcomes) 5).1.map_out
      = [(0, 4), (8, 12)] ∧
    data_runs (device_of small_outcomes)
      (dump_memory 64 (small_config 0 true) (device_of small_outcomes) 5).1.requests.length
      = 2 ∧
    (dump_memory 64 (small_config 0 true) (device_of small_outcomes) 5).1.map_out.Chain'
      (gapped (small_config 0 true).page_size) ∧
    (dump_memory 64 (small_config 0 true) (device_of small_outcomes) 5).1.map_out.Chain'
      (fun r1 r2 => r1.2 < r2.1) ∧
    (∀ c, (dump_memory 64 (small_config 0 true) (device_of small_outcomes) 5).2 = some c →
      c ≠ .write_error →
      (dump_memory 64 (small_config 0 true) (device_of small_outcomes) 5).1.map_out.length =
        data_runs (device_of small_outcomes)
          (dump_memory 64 (small_config 0 true)
            (device_of small_outcomes) 5).1.requests.length) :=
  ⟨by decide, by decide,
    regions_are_apart 64 (small_config 0 true) (device_of small_outcomes) rfl
      (small_config_fits 0 true (by decide)) small_outcomes_fit (by decide) 5⟩

/-- C16 as stated fails on a run that ends on a short write: the first read
returns four bytes, a run of one `Data` outcome, and the write accepts two;
`error` ends the process before the region is printed, and the map is empty. -/
theorem short_write_leaves_no_region :
    (small_config 0 true).map = true ∧ 0 < (small_config 0 true).page_size ∧
    (dump_memory 64 (small_config 0 true) every_write_short 5).2 = some .write_error ∧
    (dump_memory 64 (small_config 0 true) every_write_short 5).1.requests = [(4, 0)] ∧
    (dump_memory 64 (small_config 0 true) every_write_short 5).1.map_out = [] ∧
    data_runs every_write_short
      (dump_memory 64 (small_config 0 true) every_write_short 5).1.requests.length = 1 ∧
    (dump_memory 64 (small_config 0 true) every_write_short 5).1.map_out.length ≠
      data_runs every_write_short
        (dump_memory 64 (small_config 0 true) every_write_short 5).1.requests.length := by
  decide

end Memdump
